import Mathlib

/-!
Verification of the dynamic storage allocator in `src/mm-2.c`.

The C file is embedded shallowly: memory is a map from byte addresses to
machine words (`size_t` values); every store the allocator performs goes
through `PUT`, which updates the map and also records the store in a log
(the log is pure instrumentation and never read back by the allocator).
Pointers are byte addresses; the null pointer is the address 0.  The
`memlib` page provider (`mem_map` / `mem_unmap` / `mem_pagesize`) is
modelled by handing out consecutive page-aligned regions from a
high-water mark and logging the map/unmap calls.  On the 64-bit target,
`sizeof(block_header) = sizeof(block_footer) = sizeof(size_t) = 8` and
`sizeof(list_node) = 16`; a `list_node`'s `prev` field lives at byte
offset 0 of a free block's payload and its `next` field at byte offset 8.

The `mm_malloc` free-list search loop is given explicit fuel; every
theorem about it supplies fuel larger than the length of the free list,
on which the fuelled loop agrees with the C `while` loop.
-/

namespace MM

/-- Word size in bytes: `sizeof(block_header)` = `sizeof(size_t)` = 8. -/
def WSIZE : Nat := 8

/-- Alignment unit: the C constant `ALIGNMENT` (16 bytes). -/
def ALIGNMENT : Nat := 16

/-- C `ALIGN(size) = ((size + 15) and-not 15)`: round up to a multiple of 16.
Clearing the low four bits of `size + 15` is subtracting `(size + 15) % 16`. -/
def ALIGN (size : Nat) : Nat := (size + 15) - (size + 15) % 16

/-- Page size reported by the `memlib` provider (`mem_pagesize()`): 4096. -/
def mem_pagesize : Nat := 4096

/-- C `PAGE_ALIGN(size)`: round up to a multiple of `mem_pagesize()`. -/
def PAGE_ALIGN (size : Nat) : Nat :=
  (size + (mem_pagesize - 1)) - (size + (mem_pagesize - 1)) % mem_pagesize

/-- C `OVERHEAD`: `sizeof(block_header) + sizeof(block_footer)` = 16. -/
def OVERHEAD : Nat := 16

/-- C `PAGE_OVERHEAD`: `sizeof(block_header)*2 + sizeof(block_footer)` = 24. -/
def PAGE_OVERHEAD : Nat := 24

/-- The allocator's whole machine state: the word memory, the global
`free_list` pointer, and the model page provider (high-water mark plus
logs of `mem_map` and `mem_unmap` calls).  `writes` logs every word store
performed through `PUT`, newest first; it is write-only instrumentation. -/
structure Heap where
  mem : Nat → Nat
  free_list : Nat
  hi : Nat
  maps : List (Nat × Nat)
  unmaps : List (Nat × Nat)
  writes : List (Nat × Nat)

/-- C `GET(p)`: read the word at address `p`. -/
def GET (h : Heap) (p : Nat) : Nat := h.mem p

/-- C `PUT(p, val)`: store the word `v` at address `p` (and log the store). -/
def PUT (h : Heap) (p v : Nat) : Heap :=
  { h with mem := Function.update h.mem p v, writes := (p, v) :: h.writes }

/-- C `GET_ALLOC(p) = GET(p) & 0x1`. -/
def GET_ALLOC (h : Heap) (p : Nat) : Nat := GET h p % 2

/-- C `GET_SIZE(p) = GET(p) & ~0xF`: the word with its low four bits cleared. -/
def GET_SIZE (h : Heap) (p : Nat) : Nat := GET h p - GET h p % 16

/-- C `PACK(size, alloc) = size | alloc`. -/
def PACK (size alloc : Nat) : Nat := size ||| alloc

/-- C `HDRP(bp)`: a block's header address, one word before its payload. -/
def HDRP (bp : Nat) : Nat := bp - WSIZE

/-- C `HDRTOPAY(hdr)`: step from a header address to the following payload. -/
def HDRTOPAY (p : Nat) : Nat := p + WSIZE

/-- C `FTRP(bp) = bp + GET_SIZE(HDRP(bp)) - OVERHEAD`: the footer address. -/
def FTRP (h : Heap) (bp : Nat) : Nat := bp + GET_SIZE h (HDRP bp) - OVERHEAD

/-- C `NEXT_BLKP(bp) = bp + GET_SIZE(HDRP(bp))`. -/
def NEXT_BLKP (h : Heap) (bp : Nat) : Nat := bp + GET_SIZE h (HDRP bp)

/-- C `PREV_BLKP(bp) = bp - GET_SIZE(bp - OVERHEAD)` (reads the previous
block's footer). -/
def PREV_BLKP (h : Heap) (bp : Nat) : Nat := bp - GET_SIZE h (bp - OVERHEAD)

/-- A free block's `prev` list-node field (at payload offset 0). -/
def getPrev (h : Heap) (bp : Nat) : Nat := GET h bp

/-- A free block's `next` list-node field (at payload offset 8). -/
def getNext (h : Heap) (bp : Nat) : Nat := GET h (bp + WSIZE)

/-- Model of `memlib`'s `mem_map`: returns the next fresh region and
records the call.  Regions are handed out consecutively and never reused. -/
def mem_map (h : Heap) (size : Nat) : Heap × Nat :=
  ({ h with hi := h.hi + size, maps := (h.hi, size) :: h.maps }, h.hi)

/-- Model of `memlib`'s `mem_unmap`: records the call.  The model keeps the
word map unchanged (the allocator never reads an unmapped region again
along any behaviour the theorems below describe). -/
def mem_unmap (h : Heap) (p size : Nat) : Heap :=
  { h with unmaps := (p, size) :: h.unmaps }

/-- C `addToFreeList` (src/mm-2.c lines 198-207). -/
def addToFreeList (h : Heap) (ptr : Nat) : Heap :=
  -- if (free_list != NULL) free_list->next = ptr;
  let h1 := if h.free_list ≠ 0 then PUT h (h.free_list + WSIZE) ptr else h
  -- ptr->prev = free_list;
  let h2 := PUT h1 ptr h1.free_list
  -- ptr->next = NULL;
  let h3 := PUT h2 (ptr + WSIZE) 0
  -- free_list = ptr;
  { h3 with free_list := ptr }

/-- C `removeFromFreeList` (src/mm-2.c lines 210-235), with its four
structural cases. -/
def removeFromFreeList (h : Heap) (ptr : Nat) : Heap :=
  let prevNode := getPrev h ptr
  let nextNode := getNext h ptr
  if prevNode = 0 ∧ nextNode = 0 then
    -- only list member
    { h with free_list := 0 }
  else if prevNode = 0 ∧ nextNode ≠ 0 then
    -- oldest list member: nextNode->prev = NULL;
    PUT h nextNode 0
  else if prevNode ≠ 0 ∧ nextNode = 0 then
    -- newest list member: prevNode->next = NULL; free_list = prevNode;
    { PUT h (prevNode + WSIZE) 0 with free_list := prevNode }
  else
    -- interior: prevNode->next = nextNode; nextNode->prev = prevNode;
    PUT (PUT h (prevNode + WSIZE) nextNode) nextNode prevNode

/-- C `set_allocated` (src/mm-2.c lines 172-195).  Removes `bp` from the
free list, marks it allocated, and splits off the leftover when it exceeds
`ALIGN(1 + OVERHEAD)` bytes. -/
def set_allocated (h : Heap) (bp size : Nat) : Heap :=
  let extra_size := GET_SIZE h (HDRP bp) - size
  let h1 := removeFromFreeList h bp
  let h2 := PUT h1 (HDRP bp) (PACK (GET_SIZE h1 (HDRP bp)) 1)
  let h3 := PUT h2 (FTRP h2 bp) (PACK (GET_SIZE h2 (HDRP bp)) 1)
  if extra_size > ALIGN (1 + OVERHEAD) then
    let h4 := PUT h3 (HDRP bp) (PACK size 1)
    let h5 := PUT h4 (FTRP h4 bp) (PACK size 1)
    let h6 := addToFreeList h5 (NEXT_BLKP h5 bp)
    let h7 := PUT h6 (HDRP (NEXT_BLKP h6 bp)) (PACK extra_size 0)
    PUT h7 (FTRP h7 (NEXT_BLKP h7 bp)) (PACK extra_size 0)
  else h3

/-- C `createProlog` (src/mm-2.c lines 100-105): allocate a minimal
`ALIGN(0 + OVERHEAD)`-byte block at the front of a fresh page. -/
def createProlog (h : Heap) (bp : Nat) : Heap × Nat :=
  let new_size := ALIGN (0 + OVERHEAD)
  (set_allocated h bp new_size, bp)

/-- C `extend` (src/mm-2.c lines 108-130): map a fresh page, lay out one
big free block plus terminator, push the block on the free list, carve the
prolog out of it, and return the payload of the block after the prolog. -/
def extend (h : Heap) (s : Nat) : Heap × Nat :=
  let chunk_size := PAGE_ALIGN (s + PAGE_OVERHEAD + 80000)
  let mp := mem_map h chunk_size
  let h1 := mp.1
  let bp := HDRTOPAY (HDRTOPAY mp.2)
  -- one big free block, leaving room for terminator
  let h2 := PUT h1 (HDRP bp) (PACK (chunk_size - WSIZE) 0)
  let h3 := PUT h2 (FTRP h2 bp) (PACK (chunk_size - WSIZE) 0)
  -- terminator
  let h4 := PUT h3 (HDRP (NEXT_BLKP h3 bp)) (PACK 0 1)
  let h5 := addToFreeList h4 bp
  let cp := createProlog h5 bp
  (cp.1, NEXT_BLKP cp.1 cp.2)

/-- C `mm_init` (src/mm-2.c lines 72-96), broken at the source's comment
boundaries; `mm_init` below is their composition.  This first stage maps
the initial page and writes the big free block's header and footer. -/
def mm_init_block (h : Heap) : Heap × Nat :=
  let init_size := PAGE_ALIGN (PAGE_OVERHEAD + 20000)
  let mp := mem_map h init_size
  let bp := HDRTOPAY (HDRTOPAY mp.2)
  let h2 := PUT mp.1 (HDRP bp) (PACK (init_size - WSIZE) 0)
  let h3 := PUT h2 (FTRP h2 bp) (PACK (init_size - WSIZE) 0)
  (h3, bp)

/-- C `mm_init`, remaining stages: terminator, free-list seeding, prolog. -/
def mm_init (h : Heap) : Heap :=
  let st := mm_init_block h
  let h3 := st.1
  let bp := st.2
  -- terminator
  let h4 := PUT h3 (HDRP (NEXT_BLKP h3 bp)) (PACK 0 1)
  -- free_list = bp; free_list->prev = NULL; free_list->next = NULL;
  let h5 := { h4 with free_list := bp }
  let h6 := PUT h5 bp 0
  let h7 := PUT h6 (bp + WSIZE) 0
  (createProlog h7 bp).1

/-- The fuelled free-list search loop of `mm_malloc` (src/mm-2.c lines
146-158): follow `prev` links from `searcher`, returning the first block
whose `GET_SIZE` is at least `new_size`.  `none` means the walk reached
NULL (or ran out of fuel; all theorems supply ample fuel). -/
def findFit (h : Heap) (new_size : Nat) : Nat → Nat → Option Nat
  | _, 0 => none
  | searcher, fuel + 1 =>
    if searcher = 0 then none
    else if GET_SIZE h (HDRP searcher) ≥ new_size then some searcher
    else findFit h new_size (getPrev h searcher) fuel

/-- C `ALIGN` on a `size_t` operand: the `+ 15` wraps at `2^64` before
the low four bits are cleared. -/
def ALIGN_sz (x : Nat) : Nat :=
  ((x + 15) % 2 ^ 64) - ((x + 15) % 2 ^ 64) % 16

/-- Storing a `size_t` expression into a C `int` keeps its low 32 bits
(two's complement); using that `int` where a `size_t` is expected
sign-extends it back.  `int_size_t x` is the resulting `size_t` value. -/
def int_size_t (x : Nat) : Nat :=
  if x % 2 ^ 32 < 2 ^ 31 then x % 2 ^ 32
  else x % 2 ^ 32 + (2 ^ 64 - 2 ^ 32)

/-- C `mm_malloc` (src/mm-2.c lines 138-167), with explicit loop fuel.
`new_size` is declared `int` (line 144): the aligned `size_t` total is
truncated to 32 bits and sign-extended back to `size_t` at every use.
Returns the updated heap and the payload pointer handed to the caller. -/
def mm_malloc (fuel : Nat) (h : Heap) (size : Nat) : Heap × Nat :=
  -- make sure the block at least has room for a list node
  let size := if 16 > size then 16 else size
  -- int new_size = ALIGN(size + OVERHEAD);
  let new_size := int_size_t (ALIGN_sz ((size + OVERHEAD) % 2 ^ 64))
  match findFit h new_size h.free_list fuel with
  | some searcher => (set_allocated h searcher new_size, searcher)
  | none =>
    let eb := extend h new_size
    (set_allocated eb.1 eb.2 new_size, eb.2)

/-- C `coalesce` (src/mm-2.c lines 239-273): merge the just-freed block at
`bp` with its free neighbours, returning the heap and the payload pointer
of the resulting free block. -/
def coalesce (h : Heap) (bp : Nat) : Heap × Nat :=
  let prev_alloc := GET_ALLOC h (HDRP (PREV_BLKP h bp))
  let next_alloc := GET_ALLOC h (HDRP (NEXT_BLKP h bp))
  let size := GET_SIZE h (HDRP bp)
  if prev_alloc ≠ 0 ∧ next_alloc ≠ 0 then
    -- no free adjacent blocks
    (addToFreeList h bp, bp)
  else if prev_alloc ≠ 0 ∧ next_alloc = 0 then
    -- the following block is free
    let h1 := removeFromFreeList h (NEXT_BLKP h bp)
    let size1 := size + GET_SIZE h1 (HDRP (NEXT_BLKP h1 bp))
    let h2 := PUT h1 (HDRP bp) (PACK size1 0)
    let h3 := PUT h2 (FTRP h2 bp) (PACK size1 0)
    (addToFreeList h3 bp, bp)
  else if prev_alloc = 0 ∧ next_alloc ≠ 0 then
    -- the previous block is free
    let size1 := size + GET_SIZE h (HDRP (PREV_BLKP h bp))
    let h1 := PUT h (FTRP h bp) (PACK size1 0)
    let h2 := PUT h1 (HDRP (PREV_BLKP h1 bp)) (PACK size1 0)
    (h2, PREV_BLKP h2 bp)
  else
    -- both adjacent blocks are free
    let h1 := removeFromFreeList h (NEXT_BLKP h bp)
    let size1 := size + (GET_SIZE h1 (HDRP (PREV_BLKP h1 bp)) +
                         GET_SIZE h1 (HDRP (NEXT_BLKP h1 bp)))
    let h2 := PUT h1 (HDRP (PREV_BLKP h1 bp)) (PACK size1 0)
    let h3 := PUT h2 (FTRP h2 (NEXT_BLKP h2 bp)) (PACK size1 0)
    (h3, PREV_BLKP h3 bp)

/-- C `mm_free` (src/mm-2.c lines 280-295): clear the header's allocation
bit, coalesce, and unmap the page when it has become empty. -/
def mm_free (h : Heap) (ptr : Nat) : Heap :=
  let h1 := PUT h (HDRP ptr) (PACK (GET_SIZE h (HDRP ptr)) 0)
  let co := coalesce h1 ptr
  let h2 := co.1
  let p2 := co.2
  if GET_SIZE h2 (HDRP (NEXT_BLKP h2 p2)) = 0 ∧
     GET_SIZE h2 (HDRP (HDRP p2)) = ALIGN OVERHEAD then
    let sizeToRelease := GET_SIZE h2 (HDRP p2) + PAGE_OVERHEAD + WSIZE
    let h3 := removeFromFreeList h2 p2
    mem_unmap h3 (HDRP (HDRP (HDRP (HDRP p2)))) sizeToRelease
  else h2

/-- The machine state before `mm_init` runs: empty memory and logs; the
model page provider hands out its first region at address 4096. -/
def initialHeap : Heap :=
  { mem := fun _ => 0, free_list := 0, hi := 4096,
    maps := [], unmaps := [], writes := [] }

/-! Concrete call sequence from the spec's scenario:
`init(); a = allocate(100); b = allocate(200); release(a); c = allocate(50)`.
Fuel 50 far exceeds the free list's length at every step. -/

/-- The heap after `mm_init()`. -/
def hInit : Heap := mm_init initialHeap

/-- State and pointer after `a = mm_malloc(100)`. -/
def stepA : Heap × Nat := mm_malloc 50 hInit 100

/-- State and pointer after `b = mm_malloc(200)`. -/
def stepB : Heap × Nat := mm_malloc 50 stepA.1 200

/-- State after `mm_free(a)`. -/
def stepFreeA : Heap := mm_free stepB.1 stepA.2

/-- State and pointer after `c = mm_malloc(50)`. -/
def stepC : Heap × Nat := mm_malloc 50 stepFreeA 50

/-- Follow `prev` links from `r`, collecting the free-list members
(newest first); the fuelled executable mirror of the chain predicates. -/
def chainList (h : Heap) : Nat → Nat → List Nat
  | _, 0 => []
  | r, fuel + 1 => if r = 0 then [] else r :: chainList h (getPrev h r) fuel

/-- The free list as a doubly-linked chain, generalized for induction:
`chainOK h r n L` says that following `prev` links from the pointer value
`r` enumerates exactly `L` (newest first), that each member's `next` field
points to the member inserted just after it (`n` for the head), and that
the oldest member's `prev` is NULL. -/
def chainOK (h : Heap) : Nat → Nat → List Nat → Prop
  | r, _, [] => r = 0
  | r, n, m :: ms => r = m ∧ m ≠ 0 ∧ getNext h m = n ∧ chainOK h (getPrev h m) m ms

instance chainOK.dec (h : Heap) : ∀ r n L, Decidable (chainOK h r n L)
  | r, _, [] => decEq r 0
  | r, n, m :: ms =>
    have : Decidable (chainOK h (getPrev h m) m ms) := chainOK.dec h _ m ms
    by unfold chainOK; infer_instance

/-- The global free list of `h` is exactly the chain `L` (newest first). -/
def isFreeChain (h : Heap) (L : List Nat) : Prop := chainOK h h.free_list 0 L

instance (h : Heap) (L : List Nat) : Decidable (isFreeChain h L) := by
  unfold isFreeChain; infer_instance

/-- A chain segment: following `prev` links from the pointer value `r`
passes through exactly the members `L` and exits with the pointer value
`e`; each member's `next` field names its successor (`n` for the first).
`chainOK h r n L` is the closed segment `chainSeg h r n 0 L`. -/
def chainSeg (h : Heap) : Nat → Nat → Nat → List Nat → Prop
  | r, _, e, [] => r = e
  | r, n, e, m :: ms => r = m ∧ m ≠ 0 ∧ getNext h m = n ∧ chainSeg h (getPrev h m) m e ms

/-- Abstract description of one ordinary block: its total size in bytes,
whether it is free, and the allocation bit actually stored in its footer
word (the footer bit can be stale: `mm_free` does not rewrite the footer
when both neighbours are allocated). -/
structure Blk where
  size : Nat
  free : Bool
  ftrA : Bool
deriving DecidableEq

/-- Payload address one past a run of blocks laid end to end from `a`. -/
def blksEnd : Nat → List Blk → Nat
  | a, [] => a
  | a, b :: bs => blksEnd (a + b.size) bs

/-- The memory of `h` holds the blocks `bs` laid out consecutively with
the first payload at `a`: each block's header word is `size + flag`, its
footer word is `size + footer-flag`, sizes are 16-byte multiples of at
least 32 (room for header, list node and footer), and an allocated
block's footer bit is 1. -/
def blksRepr (h : Heap) : Nat → List Blk → Prop
  | _, [] => True
  | a, b :: bs =>
      h.mem (a - 8) = b.size + (if b.free then 0 else 1) ∧
      h.mem (a + b.size - 16) = b.size + (if b.ftrA then 1 else 0) ∧
      b.size % 16 = 0 ∧ 32 ≤ b.size ∧ (b.free = false → b.ftrA = true) ∧
      blksRepr h (a + b.size) bs

instance blksRepr.dec (h : Heap) : ∀ a bs, Decidable (blksRepr h a bs)
  | _, [] => .isTrue trivial
  | a, b :: bs =>
    have : Decidable (blksRepr h (a + b.size) bs) := blksRepr.dec h _ bs
    by unfold blksRepr; infer_instance

/-- Payload addresses of the free blocks in a run starting at `a`. -/
def freeAddrs : Nat → List Blk → List Nat
  | _, [] => []
  | a, b :: bs =>
    if b.free then a :: freeAddrs (a + b.size) bs else freeAddrs (a + b.size) bs

/-- Payload addresses of the allocated blocks in a run starting at `a`. -/
def allocAddrs : Nat → List Blk → List Nat
  | _, [] => []
  | a, b :: bs =>
    if b.free then allocAddrs (a + b.size) bs else a :: allocAddrs (a + b.size) bs

/-- Payload address and size of every block of a run starting at `a`. -/
def blkAddrsSz : Nat → List Blk → List (Nat × Nat)
  | _, [] => []
  | a, b :: bs => (a, b.size) :: blkAddrsSz (a + b.size) bs

/-- Abstract description of one provider page: its start address, the
size passed to `mem_map`, and its ordinary blocks (those strictly between
the Prolog and the Terminator) in address order. -/
structure PageA where
  start : Nat
  chunk : Nat
  blks : List Blk
deriving DecidableEq

/-- The memory of `h` holds page `pg` in the layout the allocator
creates: one unused word at `start`, the Prolog (a 16-byte allocated
block, header and footer both `PACK(16,1) = 17`) at `start + 8`, the
ordinary blocks tiling the interior, and the Terminator header word
`PACK(0,1) = 1` in the page's last word. -/
def pageRepr (h : Heap) (pg : PageA) : Prop :=
  pg.start % 16 = 0 ∧ 8 ≤ pg.start ∧
  pg.chunk % mem_pagesize = 0 ∧ mem_pagesize ≤ pg.chunk ∧
  (pg.start, pg.chunk) ∈ h.maps ∧
  pg.start + pg.chunk ≤ h.hi ∧
  h.mem (pg.start + 8) = 17 ∧
  h.mem (pg.start + 16) = 17 ∧
  h.mem (pg.start + pg.chunk - 8) = 1 ∧
  blksEnd (pg.start + 32) pg.blks = pg.start + pg.chunk ∧
  blksRepr h (pg.start + 32) pg.blks

instance (h : Heap) (pg : PageA) : Decidable (pageRepr h pg) := by
  unfold pageRepr; infer_instance

/-- Free-block payload addresses of a page. -/
def pageFreeAddrs (pg : PageA) : List Nat := freeAddrs (pg.start + 32) pg.blks

/-- Allocated-block payload addresses of a page. -/
def pageAllocAddrs (pg : PageA) : List Nat := allocAddrs (pg.start + 32) pg.blks

/-- The address ranges of the listed pages are pairwise disjoint. -/
def pagesDisjoint : List PageA → Prop
  | [] => True
  | pg :: pgs =>
    (∀ q ∈ pgs, pg.start + pg.chunk ≤ q.start ∨ q.start + q.chunk ≤ pg.start) ∧
    pagesDisjoint pgs

instance pagesDisjoint.dec : ∀ pgs, Decidable (pagesDisjoint pgs)
  | [] => .isTrue trivial
  | _ :: pgs =>
    have : Decidable (pagesDisjoint pgs) := pagesDisjoint.dec pgs
    by unfold pagesDisjoint; infer_instance

/-- Full representation invariant tying the abstract state (pages `pgs`
and free list `fl`, newest first) to the machine state `h`: every page is
laid out in memory, pages do not overlap, the doubly-linked free list
chains exactly `fl`, and `fl` enumerates exactly the free ordinary blocks
of all pages. -/
def Repr (h : Heap) (pgs : List PageA) (fl : List Nat) : Prop :=
  (∀ pg ∈ pgs, pageRepr h pg) ∧
  pagesDisjoint pgs ∧
  isFreeChain h fl ∧
  fl.Nodup ∧
  (∀ m ∈ fl, ∃ pg ∈ pgs, m ∈ pageFreeAddrs pg) ∧
  (∀ pg ∈ pgs, ∀ m ∈ pageFreeAddrs pg, m ∈ fl) ∧
  h.hi % mem_pagesize = 0 ∧ mem_pagesize ≤ h.hi

instance (h : Heap) (pgs : List PageA) (fl : List Nat) :
    Decidable (Repr h pgs fl) := by
  unfold Repr; infer_instance

/-- No two address-adjacent blocks are both free (invariant I2). -/
def noTwoFree : List Blk → Prop
  | [] => True
  | [_] => True
  | b :: b' :: bs => ¬(b.free = true ∧ b'.free = true) ∧ noTwoFree (b' :: bs)

instance noTwoFree.dec : ∀ bs, Decidable (noTwoFree bs)
  | [] => .isTrue trivial
  | [_] => .isTrue trivial
  | _ :: b' :: bs =>
    have : Decidable (noTwoFree (b' :: bs)) := noTwoFree.dec (b' :: bs)
    by unfold noTwoFree; infer_instance

end MM

/-! ## Basic lemmas about the memory primitives -/

namespace MM

@[simp] theorem PUT_mem (h : Heap) (p v a : Nat) :
    (PUT h p v).mem a = if a = p then v else h.mem a := by
  simp [PUT, Function.update_apply]

@[simp] theorem PUT_free_list (h : Heap) (p v : Nat) :
    (PUT h p v).free_list = h.free_list := rfl

@[simp] theorem PUT_hi (h : Heap) (p v : Nat) : (PUT h p v).hi = h.hi := rfl

@[simp] theorem PUT_maps (h : Heap) (p v : Nat) : (PUT h p v).maps = h.maps := rfl

@[simp] theorem PUT_unmaps (h : Heap) (p v : Nat) :
    (PUT h p v).unmaps = h.unmaps := rfl

@[simp] theorem GET_PUT (h : Heap) (p v a : Nat) :
    GET (PUT h p v) a = if a = p then v else GET h a := by
  simp [GET]

theorem PACK_zero (s : Nat) : PACK s 0 = s := Nat.or_zero s

theorem PACK_one (s : Nat) (h : s % 2 = 0) : PACK s 1 = s + 1 := by
  unfold PACK
  have h1 : s = Nat.bit false (s / 2) := by simp [Nat.bit]; omega
  have h2 : (1 : Nat) = Nat.bit true 0 := rfl
  rw [h1, h2, Nat.lor_bit]
  simp [Nat.bit]

/-- A packed word `s + f` (size `s` a multiple of 16, flag `f` zero or
one) decodes to size `s` under `GET_SIZE`'s mask. -/
theorem GET_SIZE_eq (h : Heap) (p s f : Nat) (hm : h.mem p = s + f)
    (hs : s % 16 = 0) (hf : f < 2) : GET_SIZE h p = s := by
  unfold GET_SIZE GET; omega

/-- A packed word `s + f` decodes to flag `f` under `GET_ALLOC`'s mask. -/
theorem GET_ALLOC_eq (h : Heap) (p s f : Nat) (hm : h.mem p = s + f)
    (hs : s % 16 = 0) (hf : f < 2) : GET_ALLOC h p = f := by
  unfold GET_ALLOC GET; omega

theorem ALIGN_mod (n : Nat) : ALIGN n % 16 = 0 := by unfold ALIGN; omega

theorem ALIGN_le (n : Nat) : n ≤ ALIGN n := by unfold ALIGN; omega

theorem ALIGN_lt (n : Nat) : ALIGN n < n + 16 := by unfold ALIGN; omega

theorem PAGE_ALIGN_mod (n : Nat) : PAGE_ALIGN n % 4096 = 0 := by
  unfold PAGE_ALIGN mem_pagesize; omega

theorem PAGE_ALIGN_le (n : Nat) : n ≤ PAGE_ALIGN n := by
  unfold PAGE_ALIGN mem_pagesize; omega

end MM


/-! ## Claim theorems: concrete scenario facts -/

namespace MM

/-- C9: for the call sequence `init(); a = allocate(100); b = allocate(200);
release(a); c = allocate(50)`, the pointer `c` equals `a`; the freed
100-class block is the newest free-list entry when the 50-byte request
runs, and first-fit selects it. -/
theorem C9_scenario_c_eq_a :
    stepC.2 = stepA.2 ∧ stepFreeA.free_list = stepA.2 := by decide

/-- C4 fails on the code: in the scenario `init(); a = allocate(100);
b = allocate(200); release(a)`, the released block's neighbours are both
allocated, and `mm_free` rewrites only the header word; afterwards the
header of `a` decodes as (128, free) but its footer still decodes as
(128, allocated), so header and footer do not encode identical pairs. -/
theorem C4_counterexample :
    GET_SIZE stepFreeA (HDRP stepA.2) = 128 ∧
    GET_ALLOC stepFreeA (HDRP stepA.2) = 0 ∧
    GET_SIZE stepFreeA (FTRP stepFreeA stepA.2) = 128 ∧
    GET_ALLOC stepFreeA (FTRP stepFreeA stepA.2) = 1 := by decide

/-- C8 fails on the code: the header word `mm_init` stores for the initial
large free block (src/mm-2.c line 81) is `PACK(init_size - 8, 0)` with
`init_size = PAGE_ALIGN(PAGE_OVERHEAD + 20000) = 20480`; the stored word
20472 has low four bits 0x8, not zero.  The store appears in `mm_init`'s
write log at the block's header address. -/
theorem C8_counterexample :
    (HDRP (HDRTOPAY (HDRTOPAY 4096)),
      PACK (PAGE_ALIGN (PAGE_OVERHEAD + 20000) - WSIZE) 0) ∈ hInit.writes ∧
    PACK (PAGE_ALIGN (PAGE_OVERHEAD + 20000) - WSIZE) 0 % 16 = 8 := by decide

end MM

/-! ## Free-list chain lemmas -/

namespace MM

theorem chainSeg_nil (h : Heap) (r n e : Nat) : chainSeg h r n e [] ↔ r = e :=
  Iff.rfl

theorem chainSeg_cons (h : Heap) (r n e m : Nat) (ms : List Nat) :
    chainSeg h r n e (m :: ms) ↔
      r = m ∧ m ≠ 0 ∧ getNext h m = n ∧ chainSeg h (getPrev h m) m e ms :=
  Iff.rfl

theorem chainOK_iff_chainSeg (h : Heap) (r n : Nat) (L : List Nat) :
    chainOK h r n L ↔ chainSeg h r n 0 L := by
  induction L generalizing r n with
  | nil => rfl
  | cons m ms ih => unfold chainOK chainSeg; rw [ih]

theorem chainSeg_ne_zero (h : Heap) (r n e : Nat) (L : List Nat)
    (hc : chainSeg h r n e L) : ∀ m ∈ L, m ≠ 0 := by
  induction L generalizing r n with
  | nil => intro m hm; cases hm
  | cons x xs ih =>
    intro m hm
    obtain ⟨hr, hx0, hnx, hc⟩ := hc
    rcases List.mem_cons.mp hm with rfl | hm
    · exact hx0
    · exact ih _ _ hc m hm

theorem chainSeg_frame (h h' : Heap) (r n e : Nat) (L : List Nat)
    (hmem : ∀ m ∈ L, h'.mem m = h.mem m ∧ h'.mem (m + 8) = h.mem (m + 8))
    (hc : chainSeg h r n e L) : chainSeg h' r n e L := by
  induction L generalizing r n with
  | nil => exact hc
  | cons x xs ih =>
    obtain ⟨hr, hx0, hnx, hc⟩ := hc
    obtain ⟨hp, hn⟩ := hmem x (by simp)
    refine ⟨hr, hx0, ?_, ?_⟩
    · rw [getNext, GET, WSIZE] at hnx ⊢
      rw [hn]; exact hnx
    · have hpx : getPrev h' x = getPrev h x := hp
      rw [hpx]
      exact ih _ _ (fun m hm => hmem m (by simp [hm])) hc

theorem chainSeg_append (h : Heap) (P S : List Nat) (r n e : Nat) :
    chainSeg h r n e (P ++ S) ↔
      chainSeg h r n (S.headD e) P ∧
      chainSeg h (S.headD e) (P.getLastD n) e S := by
  induction P generalizing r n with
  | nil =>
    rw [List.nil_append, List.getLastD_nil, chainSeg_nil]
    cases S with
    | nil => rw [List.headD_nil, chainSeg_nil]; tauto
    | cons s S' =>
      rw [List.headD_cons, chainSeg_cons, chainSeg_cons]
      tauto
  | cons p P' ih =>
    rw [List.cons_append, chainSeg_cons, chainSeg_cons, ih]
    have hl : (p :: P').getLastD n = P'.getLastD p := by
      cases P' with
      | nil => rfl
      | cons q Q => rfl
    rw [hl]
    tauto

end MM

namespace MM

theorem addToFreeList_free_list (h : Heap) (b : Nat) :
    (addToFreeList h b).free_list = b := rfl

theorem addToFreeList_hi (h : Heap) (b : Nat) :
    (addToFreeList h b).hi = h.hi := by
  unfold addToFreeList; dsimp only; split <;> rfl

theorem addToFreeList_maps (h : Heap) (b : Nat) :
    (addToFreeList h b).maps = h.maps := by
  unfold addToFreeList; dsimp only; split <;> rfl

theorem addToFreeList_unmaps (h : Heap) (b : Nat) :
    (addToFreeList h b).unmaps = h.unmaps := by
  unfold addToFreeList; dsimp only; split <;> rfl

/-- Memory after `addToFreeList`: the new node's `next` is NULL, its
`prev` is the old list pointer, the old newest node's `next` (when the
list was nonempty) is the new node, and everything else is untouched. -/
theorem addToFreeList_mem (h : Heap) (b a : Nat) :
    (addToFreeList h b).mem a =
      if a = b + 8 then 0
      else if a = b then h.free_list
      else if h.free_list ≠ 0 ∧ a = h.free_list + 8 then b
      else h.mem a := by
  unfold addToFreeList
  by_cases hfl : h.free_list ≠ 0 <;>
    simp only [hfl, if_pos, if_neg, WSIZE, PUT_mem, PUT_free_list, if_true,
      if_false, not_true, not_false_iff, reduceIte] <;>
    split_ifs <;> simp_all

/-- Effect of `addToFreeList` on a well-formed chain: the new block is
prepended (it becomes the newest member, the tail pointer). -/
theorem addToFreeList_chain (h : Heap) (L : List Nat) (b : Nat)
    (hch : isFreeChain h L) (hb0 : b ≠ 0) (hbL : b ∉ L)
    (hb16 : b % 16 = 0) (hal : ∀ x ∈ L, x % 16 = 0) (hnd : L.Nodup) :
    isFreeChain (addToFreeList h b) (b :: L) := by
  have hb8 : b + 8 ≠ b := by omega
  rw [isFreeChain, chainOK_iff_chainSeg] at hch ⊢
  rw [addToFreeList_free_list, chainSeg_cons]
  have hnext : getNext (addToFreeList h b) b = 0 := by
    rw [getNext, GET, WSIZE, addToFreeList_mem]; simp
  have hprev : getPrev (addToFreeList h b) b = h.free_list := by
    rw [getPrev, GET, addToFreeList_mem]
    have h1 : b ≠ b + 8 := by omega
    have h2 : ¬(h.free_list ≠ 0 ∧ b = h.free_list + 8) := by
      rintro ⟨hfl0, heq⟩
      cases L with
      | nil => exact hfl0 hch
      | cons m ms =>
        obtain ⟨hr, -, -, -⟩ := hch
        have := hal m (by simp)
        omega
    simp [h1, h2]
  refine ⟨rfl, hb0, hnext, ?_⟩
  rw [hprev]
  cases L with
  | nil => exact hch
  | cons m ms =>
    obtain ⟨hr, hm0, hmn, hc⟩ := hch
    have hm16 := hal m (by simp)
    have hmnotms : m ∉ ms := by simp at hnd; tauto
    refine ⟨hr, hm0, ?_, ?_⟩
    · -- the old head's next field now points at b
      rw [getNext, GET, WSIZE, addToFreeList_mem]
      have h1 : m + 8 ≠ b + 8 := by
        intro hx; exact hbL (by simp [show b = m by omega])
      have h2 : m + 8 ≠ b := by omega
      rw [← hr]
      have h3 : h.free_list ≠ 0 := by rw [hr]; exact hm0
      simp [h1, h2, h3, hr, hm0]
    · -- the rest of the old chain is untouched
      have hprevm : getPrev (addToFreeList h b) m = getPrev h m := by
        rw [getPrev, GET, addToFreeList_mem]
        have h1 : m ≠ b + 8 := by omega
        have h2 : m ≠ b := fun hx => hbL (by simp [hx.symm])
        have h3 : ¬(h.free_list ≠ 0 ∧ m = h.free_list + 8) := by
          rintro ⟨-, heq⟩; rw [hr] at heq; omega
        simp only [h1, h2, h3, if_false, reduceIte]
        rfl
      rw [hprevm]
      refine chainSeg_frame h _ _ _ _ _ ?_ hc
      intro x hx
      have hx16 := hal x (by simp [hx])
      have hxb : x ≠ b := fun hxx => hbL (by simp [hxx.symm, hx])
      have hxm : x ≠ m := fun hxx => hmnotms (hxx ▸ hx)
      constructor <;> rw [addToFreeList_mem]
      · have h1 : x ≠ b + 8 := by omega
        have h3 : ¬(h.free_list ≠ 0 ∧ x = h.free_list + 8) := by
          rintro ⟨-, heq⟩; rw [hr] at heq; omega
        simp [h1, hxb, h3]
      · have h1 : x + 8 ≠ b + 8 := by omega
        have h2 : x + 8 ≠ b := by omega
        have h3 : ¬(h.free_list ≠ 0 ∧ x + 8 = h.free_list + 8) := by
          rintro ⟨-, heq⟩; rw [hr] at heq; exact hxm (by omega)
        simp [h1, h2, h3, hr, hxm, hm0]

end MM

namespace MM

/-- Closed form of `removeFromFreeList` as a four-way case split on the
removed node's own `prev` and `next` fields. -/
theorem removeFromFreeList_eq (h : Heap) (m : Nat) :
    removeFromFreeList h m =
      if getPrev h m = 0 ∧ getNext h m = 0 then { h with free_list := 0 }
      else if getPrev h m = 0 ∧ getNext h m ≠ 0 then PUT h (getNext h m) 0
      else if getPrev h m ≠ 0 ∧ getNext h m = 0 then
        { PUT h (getPrev h m + 8) 0 with free_list := getPrev h m }
      else PUT (PUT h (getPrev h m + 8) (getNext h m)) (getNext h m) (getPrev h m) :=
  rfl

theorem chainSeg_concat (h : Heap) (r n e : Nat) (Q : List Nat) (q : Nat) :
    chainSeg h r n e (Q ++ [q]) ↔
      chainSeg h r n q Q ∧ q ≠ 0 ∧ getNext h q = Q.getLastD n ∧ getPrev h q = e := by
  rw [chainSeg_append, List.headD_cons, chainSeg_cons, chainSeg_nil]
  tauto

/-- A chain whose last element would have to be 0 is empty. -/
theorem chainSeg_eq_nil_of_getLastD (h : Heap) (r n e : Nat) (P : List Nat)
    (hP : chainSeg h r n e P) (h0 : P.getLastD 0 = 0) : P = [] := by
  rcases P.eq_nil_or_concat with rfl | ⟨Q, q, rfl⟩
  · rfl
  · rw [List.concat_eq_append] at hP h0
    rw [List.getLastD_concat] at h0
    rw [chainSeg_concat] at hP
    exact absurd h0 hP.2.1

/-- Positional reading of a chain membership: the `prev` field of a member
is the next-older member (head of the suffix) and its `next` field is the
next-newer member (last of the prefix). -/
theorem chain_fields_of_split (h : Heap) (P S : List Nat) (m : Nat)
    (hch : isFreeChain h (P ++ m :: S)) :
    getPrev h m = S.headD 0 ∧ getNext h m = P.getLastD 0 ∧ m ≠ 0 ∧
    chainSeg h h.free_list 0 m P ∧ chainSeg h (S.headD 0) m 0 S := by
  rw [isFreeChain, chainOK_iff_chainSeg, chainSeg_append] at hch
  obtain ⟨hP, hmS⟩ := hch
  rw [List.headD_cons] at hP hmS
  obtain ⟨-, hm0, hnx, hS⟩ := hmS
  have hprev : getPrev h m = S.headD 0 := by
    cases S with
    | nil => exact hS
    | cons s S' => exact hS.1
  exact ⟨hprev, hnx, hm0, hP, hprev ▸ hS⟩

end MM

namespace MM

/-- Effect of `removeFromFreeList` on a well-formed chain containing `m`:
the chain loses exactly `m` (order otherwise preserved, including the tail
pointer's adjustment), and memory outside the `prev`/`next` fields of the
other members is untouched. -/
theorem removeFromFreeList_spec (h : Heap) (L : List Nat) (m : Nat)
    (hch : isFreeChain h L) (hm : m ∈ L) (hnd : L.Nodup)
    (hal : ∀ x ∈ L, x % 16 = 0) :
    isFreeChain (removeFromFreeList h m) (L.erase m) ∧
    (∀ a : Nat, (∀ x ∈ L, x ≠ m → a ≠ x ∧ a ≠ x + 8) →
      (removeFromFreeList h m).mem a = h.mem a) ∧
    (removeFromFreeList h m).hi = h.hi ∧
    (removeFromFreeList h m).maps = h.maps ∧
    (removeFromFreeList h m).unmaps = h.unmaps := by
  obtain ⟨P, S, rfl⟩ := List.append_of_mem hm
  obtain ⟨hprev, hnext, hm0, hP, hS⟩ := chain_fields_of_split h P S m hch
  have hndP : P.Nodup ∧ (m :: S).Nodup ∧ P.Disjoint (m :: S) :=
    List.nodup_append.mp hnd
  have hmP : m ∉ P := fun hx => hndP.2.2 hx (by simp)
  have herase : (P ++ m :: S).erase m = P ++ S := by
    rw [List.erase_append_right _ hmP, List.erase_cons_head]
  rw [herase, removeFromFreeList_eq, hprev, hnext]
  cases S with
  | nil =>
    rw [List.headD_nil] at *
    rcases P.eq_nil_or_concat with rfl | ⟨Q, q, rfl⟩
    · -- sole member
      rw [List.getLastD_nil] at *
      rw [if_pos ⟨rfl, rfl⟩]
      refine ⟨?_, fun a _ => rfl, rfl, rfl, rfl⟩
      rw [isFreeChain, chainOK_iff_chainSeg]
      exact rfl
    · -- m is the oldest member; newer ones exist: q.prev := 0
      rw [List.concat_eq_append] at *
      rw [List.getLastD_concat] at *
      rw [chainSeg_concat] at hP
      obtain ⟨hQ, hq0, hqn, hqp⟩ := hP
      have hndQ : Q.Nodup ∧ [q].Nodup ∧ Q.Disjoint [q] := List.nodup_append.mp hndP.1
      have hqQ : q ∉ Q := fun hx => hndQ.2.2 hx (by simp)
      have hq16 : q % 16 = 0 := hal q (by simp)
      rw [if_neg (by simp [hq0]), if_pos ⟨rfl, hq0⟩]
      refine ⟨?_, ?_, rfl, rfl, rfl⟩
      · rw [isFreeChain, chainOK_iff_chainSeg]
        simp only [PUT_free_list, List.append_nil]
        rw [chainSeg_concat]
        refine ⟨?_, hq0, ?_, ?_⟩
        · refine chainSeg_frame h _ _ _ _ _ ?_ hQ
          intro x hx
          have hx16 := hal x (by simp [hx])
          have hxq : x ≠ q := fun hxx => hqQ (hxx ▸ hx)
          have h2 : x + 8 ≠ q := by omega
          rw [PUT_mem, PUT_mem]
          simp [hxq, h2]
        · rw [getNext, GET, WSIZE] at hqn ⊢
          rw [PUT_mem]
          have : q + 8 ≠ q := by omega
          simp [this, hqn]
        · show (PUT h q 0).mem q = 0
          rw [PUT_mem]; simp
      · intro a ha
        obtain ⟨ha1, -⟩ := ha q (by simp)
          (fun hx => hmP (hx ▸ (by simp : q ∈ Q ++ [q])))
        rw [PUT_mem]; simp [ha1]
  | cons s S' =>
    rw [List.headD_cons] at *
    rw [chainSeg_cons] at hS
    obtain ⟨-, hs0, hsn, hS'⟩ := hS
    have hs16 : s % 16 = 0 := hal s (by simp)
    have hm16 : m % 16 = 0 := hal m (by simp)
    have hndmS : m ∉ s :: S' ∧ (s :: S').Nodup := List.nodup_cons.mp hndP.2.1
    have hsS' : s ∉ S' := (List.nodup_cons.mp hndmS.2).1
    rcases P.eq_nil_or_concat with rfl | ⟨Q, q, rfl⟩
    · -- m is the newest member: s.next := 0, free_list := s
      rw [List.getLastD_nil] at *
      rw [if_neg (by simp [hs0]), if_neg (by simp), if_pos ⟨hs0, rfl⟩]
      refine ⟨?_, ?_, rfl, rfl, rfl⟩
      · rw [isFreeChain, chainOK_iff_chainSeg]
        show chainSeg _ s 0 0 (s :: S')
        rw [chainSeg_cons]
        refine ⟨rfl, hs0, ?_, ?_⟩
        · rw [getNext, GET, WSIZE]
          show (PUT h (s + 8) 0).mem (s + 8) = 0
          rw [PUT_mem]; simp
        · have hps : getPrev (PUT h (s + 8) 0) s = getPrev h s := by
            show (PUT h (s + 8) 0).mem s = h.mem s
            rw [PUT_mem]
            have : s ≠ s + 8 := by omega
            simp [this]
          show chainSeg _ (getPrev (PUT h (s + 8) 0) s) s 0 S'
          rw [hps]
          refine chainSeg_frame h _ _ _ _ _ ?_ hS'
          intro x hx
          have hx16 := hal x (by simp [hx])
          have hxs : x ≠ s := fun hxx => hsS' (hxx ▸ hx)
          have h1 : x ≠ s + 8 := by omega
          have h2 : x + 8 ≠ s + 8 := by omega
          rw [PUT_mem, PUT_mem]
          simp [h1, h2]
      · intro a ha
        obtain ⟨-, ha2⟩ := ha s (by simp)
          (fun hx => hndmS.1 (hx ▸ (by simp : s ∈ s :: S')))
        show (PUT h (s + 8) 0).mem a = h.mem a
        rw [PUT_mem]; simp [ha2]
    · -- m is interior: s.next := q, q.prev := s
      rw [List.concat_eq_append] at *
      rw [List.getLastD_concat] at *
      rw [chainSeg_concat] at hP
      obtain ⟨hQ, hq0, hqn, hqp⟩ := hP
      have hndQ : Q.Nodup ∧ [q].Nodup ∧ Q.Disjoint [q] := List.nodup_append.mp hndP.1
      have hqQ : q ∉ Q := fun hx => hndQ.2.2 hx (by simp)
      have hq16 : q % 16 = 0 := hal q (by simp)
      have hqs : q ≠ s := fun hx =>
        hndP.2.2 (by simp : q ∈ Q ++ [q]) (by simp [hx])
      have hqm : q ≠ m := fun hx => hmP (hx ▸ (by simp : q ∈ Q ++ [q]))
      rw [if_neg (by simp [hs0]), if_neg (by simp [hs0]), if_neg (by simp [hq0])]
      have hmem2 : ∀ a : Nat, (PUT (PUT h (s + 8) q) q s).mem a =
          if a = q then s else if a = s + 8 then q else h.mem a := by
        intro a; rw [PUT_mem, PUT_mem]
      refine ⟨?_, ?_, rfl, rfl, rfl⟩
      · rw [isFreeChain, chainOK_iff_chainSeg]
        simp only [PUT_free_list]
        rw [List.append_assoc, List.singleton_append, chainSeg_append,
          List.headD_cons]
        refine ⟨?_, ?_⟩
        · -- newer part of the chain is untouched
          refine chainSeg_frame h _ _ _ _ _ ?_ hQ
          intro x hx
          have hx16 := hal x (by simp [hx])
          have hxq : x ≠ q := fun hxx => hqQ (hxx ▸ hx)
          have hxs : x ≠ s := fun hxx =>
            hndP.2.2 (by simp [hx] : x ∈ Q ++ [q]) (by simp [hxx])
          have h1 : x + 8 ≠ q := by omega
          have h2 : x + 8 ≠ s + 8 := by omega
          have h3 : x ≠ s + 8 := by omega
          rw [hmem2, hmem2]
          simp [hxq, h1, h2, h3]
        · rw [chainSeg_cons]
          refine ⟨rfl, hq0, ?_, ?_⟩
          · -- q's next field is untouched
            rw [getNext, GET, WSIZE] at hqn ⊢
            rw [hmem2]
            have h1 : q + 8 ≠ q := by omega
            have h2 : q + 8 ≠ s + 8 := by omega
            simp [h1, h2, hqn]
          · have hpq : getPrev (PUT (PUT h (s + 8) q) q s) q = s := by
              show (PUT (PUT h (s + 8) q) q s).mem q = s
              rw [hmem2]; simp
            show chainSeg _ (getPrev (PUT (PUT h (s + 8) q) q s) q) q 0 (s :: S')
            rw [hpq, chainSeg_cons]
            refine ⟨rfl, hs0, ?_, ?_⟩
            · -- s's next field now names q
              rw [getNext, GET, WSIZE]
              rw [hmem2]
              have h1 : s + 8 ≠ q := by omega
              simp [h1]
            · have hps : getPrev (PUT (PUT h (s + 8) q) q s) s = getPrev h s := by
                show (PUT (PUT h (s + 8) q) q s).mem s = h.mem s
                rw [hmem2]
                have h1 : s ≠ q := fun hx => hqs hx.symm
                have h2 : s ≠ s + 8 := by omega
                simp [h1, h2]
              show chainSeg _ (getPrev (PUT (PUT h (s + 8) q) q s) s) s 0 S'
              rw [hps]
              refine chainSeg_frame h _ _ _ _ _ ?_ hS'
              intro x hx
              have hx16 := hal x (by simp [hx])
              have hxs : x ≠ s := fun hxx => hsS' (hxx ▸ hx)
              have hxq : x ≠ q := by
                intro hxx
                exact hndP.2.2 (by simp [hxx] : x ∈ Q ++ [q]) (by simp [hx])
              have h1 : x + 8 ≠ q := by omega
              have h2 : x + 8 ≠ s + 8 := by omega
              have h3 : x ≠ s + 8 := by omega
              rw [hmem2, hmem2]
              simp [hxq, h1, h2, h3]
      · intro a ha
        obtain ⟨haq, -⟩ := ha q (by simp) hqm
        obtain ⟨-, has⟩ := ha s (by simp)
          (fun hx => hndmS.1 (hx ▸ (by simp : s ∈ s :: S')))
        rw [hmem2]; simp [haq, has]

end MM

namespace MM

/-- Two states carrying the same chain give every member the same
`prev`/`next` fields: the chain shape determines them. -/
theorem chainSeg_fields_determined (h h' : Heap) (L : List Nat)
    (r r' n e : Nat) (hc : chainSeg h r n e L) (hc' : chainSeg h' r' n e L) :
    ∀ m ∈ L, getPrev h' m = getPrev h m ∧ getNext h' m = getNext h m := by
  induction L generalizing r r' n with
  | nil => intro m hm; cases hm
  | cons x xs ih =>
    intro m hm
    obtain ⟨hr, hx0, hnx, hc⟩ := hc
    obtain ⟨hr', hx0', hnx', hc'⟩ := hc'
    rcases List.mem_cons.mp hm with rfl | hm
    · refine ⟨?_, by rw [hnx, hnx']⟩
      cases xs with
      | nil => rw [hc, hc']
      | cons y ys => rw [hc.1, hc'.1]
    · exact ih _ _ _ hc hc' m hm

/-- The tail pointer is the newest member (or NULL for the empty list). -/
theorem isFreeChain_free_list (h : Heap) (L : List Nat)
    (hc : isFreeChain h L) : h.free_list = L.headD 0 := by
  cases L with
  | nil => exact hc
  | cons x xs => exact hc.1

end MM

/-! ## Claim C10: remove-after-add restores the free list -/

namespace MM

/-- C10: for every well-formed free list `L` and block `b` not in `L`,
`removeFromFreeList(b)` right after `addToFreeList(b)` restores the free
list exactly: the chain is again `L` (same membership and insertion
order), the tail pointer is back to its old value, and the `prev`/`next`
fields of every remaining member are unchanged. -/
theorem C10_add_remove_roundtrip (h : Heap) (L : List Nat) (b : Nat)
    (hch : isFreeChain h L) (hnd : L.Nodup) (hal : ∀ x ∈ L, x % 16 = 0)
    (hb0 : b ≠ 0) (hb16 : b % 16 = 0) (hbL : b ∉ L) :
    isFreeChain (removeFromFreeList (addToFreeList h b) b) L ∧
    (removeFromFreeList (addToFreeList h b) b).free_list = h.free_list ∧
    (∀ m ∈ L,
      getPrev (removeFromFreeList (addToFreeList h b) b) m = getPrev h m ∧
      getNext (removeFromFreeList (addToFreeList h b) b) m = getNext h m) := by
  have h1 := addToFreeList_chain h L b hch hb0 hbL hb16 hal hnd
  have hnd1 : (b :: L).Nodup := List.nodup_cons.mpr ⟨hbL, hnd⟩
  have hal1 : ∀ x ∈ b :: L, x % 16 = 0 := by
    intro x hx
    rcases List.mem_cons.mp hx with rfl | hx
    · exact hb16
    · exact hal x hx
  have h2 := removeFromFreeList_spec (addToFreeList h b) (b :: L) b h1
    (by simp) hnd1 hal1
  rw [List.erase_cons_head] at h2
  refine ⟨h2.1, ?_, ?_⟩
  · rw [isFreeChain_free_list _ _ h2.1, isFreeChain_free_list _ _ hch]
  · intro m hm
    exact chainSeg_fields_determined h _ L _ _ 0 0
      ((chainOK_iff_chainSeg _ _ _ _).mp hch)
      ((chainOK_iff_chainSeg _ _ _ _).mp h2.1) m hm

/-- Witness for C10 at a concrete state: the heap after `mm_init` with its
one-element free list and a fresh block address. -/
theorem C10_witness :
    isFreeChain (removeFromFreeList (addToFreeList hInit 4160) 4160) [4128] ∧
    (removeFromFreeList (addToFreeList hInit 4160) 4160).free_list =
      hInit.free_list ∧
    (∀ m ∈ [4128],
      getPrev (removeFromFreeList (addToFreeList hInit 4160) 4160) m =
        getPrev hInit m ∧
      getNext (removeFromFreeList (addToFreeList hInit 4160) 4160) m =
        getNext hInit m) :=
  C10_add_remove_roundtrip hInit [4128] 4160 (by decide) (by decide)
    (by decide) (by decide) (by decide) (by decide)

end MM

/-! ## Claim C5: first-fit search order -/

namespace MM

/-- The fuelled search loop, run on a chain `L` with ample fuel, returns
exactly the first member of `L` (newest first) whose size fits. -/
theorem findFit_eq_find (h : Heap) (ns : Nat) (L : List Nat) (r n fuel : Nat)
    (hc : chainSeg h r n 0 L) (hfuel : L.length < fuel) :
    findFit h ns r fuel = L.find? (fun m => decide (ns ≤ GET_SIZE h (HDRP m))) := by
  induction L generalizing r n fuel with
  | nil =>
    obtain ⟨fuel', rfl⟩ : ∃ k, fuel = k + 1 := ⟨fuel - 1, by omega⟩
    rw [hc]
    rfl
  | cons m ms ih =>
    obtain ⟨fuel', rfl⟩ : ∃ k, fuel = k + 1 := ⟨fuel - 1, by omega⟩
    obtain ⟨hr, hm0, hmn, hc⟩ := hc
    rw [hr]
    show (if m = 0 then none
      else if GET_SIZE h (HDRP m) ≥ ns then some m
      else findFit h ns (getPrev h m) fuel') = _
    by_cases hfit : ns ≤ GET_SIZE h (HDRP m)
    · rw [if_neg hm0, if_pos hfit,
        List.find?_cons_of_pos _ (by simpa using hfit)]
    · rw [if_neg hm0, if_neg hfit,
        List.find?_cons_of_neg _ (by simpa using hfit)]
      exact ih _ _ _ hc (by simp at hfuel ⊢; omega)

/-- In the 32-bit regime — `ALIGN(max(n,16) + OVERHEAD) < 2^31`, e.g.
whenever `n + 47 < 2^31` — the `int` truncation of `new_size` is the
identity and `mm_malloc`'s threshold is the exact aligned total. -/
theorem int_size_t_small (n : Nat) (hn : n + 47 < 2 ^ 31) :
    int_size_t (ALIGN_sz (((if 16 > n then 16 else n) + OVERHEAD) % 2 ^ 64)) =
      ALIGN ((if 16 > n then 16 else n) + OVERHEAD) := by
  unfold int_size_t ALIGN_sz ALIGN OVERHEAD
  by_cases hc : 16 > n
  · rw [if_pos hc]
    decide
  · rw [if_neg hc]
    have h1 : (n + 16) % 2 ^ 64 = n + 16 := by omega
    rw [h1]
    have h2 : (n + 16 + 15) % 2 ^ 64 = n + 16 + 15 := by omega
    rw [h2]
    rw [if_pos (by omega)]
    omega

/-- C5 (counterexample to the exact-threshold reading): at `n = 2^32`
the C `int new_size` truncates to 16, so `mm_malloc` hands out the
initial free block even though no free-list member's size reaches the
claim's computed total block size `ALIGN(2^32 + OVERHEAD)`, and no new
page is requested (`mem_map` is not called: the map log is unchanged). -/
theorem C5_counterexample :
    (mm_malloc 50 hInit (2 ^ 32)).1.maps = hInit.maps ∧
    (mm_malloc 50 hInit (2 ^ 32)).2 = 4128 ∧
    (∀ x ∈ [4128], ¬(ALIGN (2 ^ 32 + OVERHEAD) ≤ GET_SIZE hInit (HDRP x))) ∧
    isFreeChain hInit [4128] := by decide

/-- C5 (amended): `mm_malloc` walks the free list newest-to-oldest and
commits the first member whose size is at least `int new_size` — the
32-bit-truncated, sign-extended `ALIGN(max(size,16) + OVERHEAD)` — and
maps a new page (via `extend`) exactly when no member passes that
threshold.  In the 32-bit regime (`n + 47 < 2^31`) the threshold equals
the exact aligned total, recovering the original claim.  The last
conjunct records that the chain order is newest-to-oldest insertion
order: `addToFreeList` prepends. -/
theorem C5_amended (h : Heap) (L : List Nat) (n fuel : Nat)
    (hch : isFreeChain h L) (hfuel : L.length < fuel) :
    (mm_malloc fuel h n =
      match L.find? (fun m => decide
          (int_size_t (ALIGN_sz (((if 16 > n then 16 else n) + OVERHEAD) % 2 ^ 64)) ≤
            GET_SIZE h (HDRP m))) with
      | some m =>
        (set_allocated h m
          (int_size_t (ALIGN_sz (((if 16 > n then 16 else n) + OVERHEAD) % 2 ^ 64))), m)
      | none =>
        (set_allocated
            (extend h (int_size_t (ALIGN_sz (((if 16 > n then 16 else n) + OVERHEAD) % 2 ^ 64)))).1
            (extend h (int_size_t (ALIGN_sz (((if 16 > n then 16 else n) + OVERHEAD) % 2 ^ 64)))).2
            (int_size_t (ALIGN_sz (((if 16 > n then 16 else n) + OVERHEAD) % 2 ^ 64))),
          (extend h (int_size_t (ALIGN_sz (((if 16 > n then 16 else n) + OVERHEAD) % 2 ^ 64)))).2)) ∧
    (n + 47 < 2 ^ 31 →
      int_size_t (ALIGN_sz (((if 16 > n then 16 else n) + OVERHEAD) % 2 ^ 64)) =
        ALIGN ((if 16 > n then 16 else n) + OVERHEAD)) ∧
    (∀ (h' : Heap) (L' : List Nat) (b : Nat),
      isFreeChain h' L' → b ≠ 0 → b ∉ L' → b % 16 = 0 →
      (∀ x ∈ L', x % 16 = 0) → L'.Nodup →
      isFreeChain (addToFreeList h' b) (b :: L')) := by
  refine ⟨?_, int_size_t_small n, ?_⟩
  · have hseg := (chainOK_iff_chainSeg _ _ _ _).mp hch
    rw [mm_malloc]
    rw [findFit_eq_find h _ L _ _ fuel hseg hfuel]
  · intro h' L' b h1 h2 h3 h4 h5 h6
    exact addToFreeList_chain h' L' b h1 h2 h3 h4 h5 h6

/-- Witness for C5 (amended) at the post-`mm_init` state: the single free
block fits a 100-byte request and first-fit selects it. -/
theorem C5_amended_witness :
    (mm_malloc 2 hInit 100 =
      match [4128].find? (fun m => decide
          (int_size_t (ALIGN_sz (((if 16 > 100 then 16 else 100) + OVERHEAD) % 2 ^ 64)) ≤
            GET_SIZE hInit (HDRP m))) with
      | some m =>
        (set_allocated hInit m
          (int_size_t (ALIGN_sz (((if 16 > 100 then 16 else 100) + OVERHEAD) % 2 ^ 64))), m)
      | none =>
        (set_allocated
            (extend hInit (int_size_t (ALIGN_sz (((if 16 > 100 then 16 else 100) + OVERHEAD) % 2 ^ 64)))).1
            (extend hInit (int_size_t (ALIGN_sz (((if 16 > 100 then 16 else 100) + OVERHEAD) % 2 ^ 64)))).2
            (int_size_t (ALIGN_sz (((if 16 > 100 then 16 else 100) + OVERHEAD) % 2 ^ 64))),
          (extend hInit (int_size_t (ALIGN_sz (((if 16 > 100 then 16 else 100) + OVERHEAD) % 2 ^ 64)))).2)) ∧
    (100 + 47 < 2 ^ 31 →
      int_size_t (ALIGN_sz (((if 16 > 100 then 16 else 100) + OVERHEAD) % 2 ^ 64)) =
        ALIGN ((if 16 > 100 then 16 else 100) + OVERHEAD)) ∧
    (∀ (h' : Heap) (L' : List Nat) (b : Nat),
      isFreeChain h' L' → b ≠ 0 → b ∉ L' → b % 16 = 0 →
      (∀ x ∈ L', x % 16 = 0) → L'.Nodup →
      isFreeChain (addToFreeList h' b) (b :: L')) :=
  C5_amended hInit [4128] 100 2 (by decide) (by decide)

end MM

/-! ## Block layout lemmas -/

namespace MM

theorem blksEnd_nil (a : Nat) : blksEnd a [] = a := rfl

theorem blksEnd_cons (a : Nat) (b : Blk) (bs : List Blk) :
    blksEnd a (b :: bs) = blksEnd (a + b.size) bs := rfl

theorem blksRepr_nil (h : Heap) (a : Nat) : blksRepr h a [] := trivial

theorem blksRepr_cons (h : Heap) (a : Nat) (b : Blk) (bs : List Blk) :
    blksRepr h a (b :: bs) ↔
      (h.mem (a - 8) = b.size + (if b.free then 0 else 1) ∧
       h.mem (a + b.size - 16) = b.size + (if b.ftrA then 1 else 0) ∧
       b.size % 16 = 0 ∧ 32 ≤ b.size ∧ (b.free = false → b.ftrA = true) ∧
       blksRepr h (a + b.size) bs) := Iff.rfl

theorem blksEnd_append (a : Nat) (xs ys : List Blk) :
    blksEnd a (xs ++ ys) = blksEnd (blksEnd a xs) ys := by
  induction xs generalizing a with
  | nil => rfl
  | cons b bs ih => rw [List.cons_append, blksEnd, blksEnd, ih]

theorem blksEnd_le (a : Nat) (bs : List Blk) : a ≤ blksEnd a bs := by
  induction bs generalizing a with
  | nil => exact Nat.le_refl a
  | cons b bs ih => exact Nat.le_trans (Nat.le_add_right a b.size) (ih _)

theorem blksRepr_append (h : Heap) (a : Nat) (xs ys : List Blk) :
    blksRepr h a (xs ++ ys) ↔ blksRepr h a xs ∧ blksRepr h (blksEnd a xs) ys := by
  induction xs generalizing a with
  | nil =>
    rw [List.nil_append, blksEnd]
    exact ⟨fun hx => ⟨trivial, hx⟩, fun hx => hx.2⟩
  | cons b bs ih =>
    rw [List.cons_append, blksRepr_cons, blksRepr_cons, ih, blksEnd_cons]
    tauto

theorem blksRepr_sizes (h : Heap) (a : Nat) (bs : List Blk)
    (hr : blksRepr h a bs) : ∀ b ∈ bs, b.size % 16 = 0 ∧ 32 ≤ b.size := by
  induction bs generalizing a with
  | nil => intro b hb; cases hb
  | cons x xs ih =>
    intro b hb
    obtain ⟨-, -, hs, hs32, -, hr⟩ := hr
    rcases List.mem_cons.mp hb with rfl | hb
    · exact ⟨hs, hs32⟩
    · exact ih _ hr b hb

theorem blksEnd_mod (a : Nat) (bs : List Blk)
    (hs : ∀ b ∈ bs, b.size % 16 = 0) (ha : a % 16 = 0) :
    blksEnd a bs % 16 = 0 := by
  induction bs generalizing a with
  | nil => exact ha
  | cons b bs ih =>
    rw [blksEnd]
    refine ih _ (fun x hx => hs x (by simp [hx])) ?_
    have := hs b (by simp)
    omega

/-- Frame rule: a run of blocks is preserved by any memory change that
agrees on the run's footprint (from the first header up to, but not
including, the following payload's header). -/
theorem blksRepr_frame (h h' : Heap) (a : Nat) (bs : List Blk)
    (hag : ∀ x : Nat, a - 8 ≤ x → x < blksEnd a bs - 8 → h'.mem x = h.mem x)
    (hr : blksRepr h a bs) : blksRepr h' a bs := by
  induction bs generalizing a with
  | nil => trivial
  | cons b xs ih =>
    obtain ⟨hh, hf, hs, hs32, hfa, hr⟩ := hr
    have hend : a + b.size ≤ blksEnd (a + b.size) xs := blksEnd_le _ _
    refine ⟨?_, ?_, hs, hs32, hfa, ?_⟩
    · rw [hag (a - 8) (Nat.le_refl _) (by rw [blksEnd]; omega)]
      exact hh
    · rw [hag (a + b.size - 16) (by omega) (by rw [blksEnd]; omega)]
      exact hf
    · exact ih _ (fun x h1 h2 => hag x (by omega) (by rw [blksEnd]; omega)) hr

theorem freeAddrs_append (a : Nat) (xs ys : List Blk) :
    freeAddrs a (xs ++ ys) = freeAddrs a xs ++ freeAddrs (blksEnd a xs) ys := by
  induction xs generalizing a with
  | nil => rfl
  | cons b bs ih =>
    rw [List.cons_append, freeAddrs, freeAddrs, blksEnd]
    by_cases hb : b.free <;> simp [hb, ih]

theorem allocAddrs_append (a : Nat) (xs ys : List Blk) :
    allocAddrs a (xs ++ ys) = allocAddrs a xs ++ allocAddrs (blksEnd a xs) ys := by
  induction xs generalizing a with
  | nil => rfl
  | cons b bs ih =>
    rw [List.cons_append, allocAddrs, allocAddrs, blksEnd]
    by_cases hb : b.free <;> simp [hb, ih]

/-- Membership in `freeAddrs` is exactly "payload address of a free block
of the run". -/
theorem mem_freeAddrs (a x : Nat) (bs : List Blk) :
    x ∈ freeAddrs a bs ↔
      ∃ pre b post, bs = pre ++ b :: post ∧ b.free = true ∧
        x = blksEnd a pre := by
  induction bs generalizing a with
  | nil =>
    simp only [freeAddrs, List.not_mem_nil, false_iff]
    rintro ⟨pre, b, post, hx, -, -⟩
    exact absurd hx (by simp)
  | cons b bs ih =>
    rw [freeAddrs]
    constructor
    · intro hx
      by_cases hb : b.free
      · rw [if_pos hb] at hx
        rcases List.mem_cons.mp hx with rfl | hx
        · exact ⟨[], b, bs, rfl, hb, rfl⟩
        · obtain ⟨pre, c, post, rfl, hc, rfl⟩ := (ih _).mp hx
          exact ⟨b :: pre, c, post, rfl, hc, rfl⟩
      · rw [if_neg hb] at hx
        obtain ⟨pre, c, post, rfl, hc, rfl⟩ := (ih _).mp hx
        exact ⟨b :: pre, c, post, rfl, hc, rfl⟩
    · rintro ⟨pre, c, post, hbs, hc, rfl⟩
      cases pre with
      | nil =>
        obtain ⟨rfl, rfl⟩ : b = c ∧ bs = post := by
          constructor <;> [exact (List.cons.injEq .. ▸ hbs).1 ▸ rfl; skip]
          exact (List.cons.injEq .. ▸ hbs).2 ▸ rfl
        rw [if_pos hc]
        exact List.mem_cons_self _ _
      | cons d pre' =>
        obtain ⟨rfl, rfl⟩ : b = d ∧ bs = pre' ++ c :: post := by
          rw [List.cons_append] at hbs
          exact ⟨(List.cons.injEq .. ▸ hbs).1 ▸ rfl, (List.cons.injEq .. ▸ hbs).2 ▸ rfl⟩
        have hmem : blksEnd (a + b.size) pre' ∈ freeAddrs (a + b.size) (pre' ++ c :: post) :=
          (ih _).mpr ⟨pre', c, post, rfl, hc, rfl⟩
        rw [blksEnd]
        by_cases hb : b.free
        · rw [if_pos hb]; exact List.mem_cons_of_mem _ hmem
        · rw [if_neg hb]; exact hmem

end MM

namespace MM

theorem blkAddrsSz_bounds (a : Nat) (bs : List Blk) :
    ∀ p ∈ blkAddrsSz a bs, a ≤ p.1 ∧ p.1 + p.2 ≤ blksEnd a bs := by
  induction bs generalizing a with
  | nil => intro p hp; cases hp
  | cons b xs ih =>
    intro p hp
    rcases List.mem_cons.mp hp with rfl | hp
    · exact ⟨Nat.le_refl _, blksEnd_le _ _⟩
    · have := ih _ p hp
      rw [blksEnd_cons]
      omega

/-- Distinct blocks of a run have disjoint extents. -/
theorem blkAddrsSz_sep (a : Nat) (bs : List Blk) :
    ∀ p ∈ blkAddrsSz a bs, ∀ q ∈ blkAddrsSz a bs, p.1 ≠ q.1 →
      p.1 + p.2 ≤ q.1 ∨ q.1 + q.2 ≤ p.1 := by
  induction bs generalizing a with
  | nil => intro p hp; cases hp
  | cons b xs ih =>
    intro p hp q hq hne
    rcases List.mem_cons.mp hp with rfl | hp <;>
      rcases List.mem_cons.mp hq with rfl | hq
    · exact absurd rfl hne
    · exact Or.inl (blkAddrsSz_bounds _ _ q hq).1
    · exact Or.inr (blkAddrsSz_bounds _ _ p hp).1
    · exact ih _ p hp q hq hne

/-- Positional decomposition into `blkAddrsSz` membership. -/
theorem decomp_mem_blkAddrsSz (a : Nat) (pre : List Blk) (b : Blk)
    (post : List Blk) :
    (blksEnd a pre, b.size) ∈ blkAddrsSz a (pre ++ b :: post) := by
  induction pre generalizing a with
  | nil => exact List.mem_cons_self _ _
  | cons c cs ih => exact List.mem_cons_of_mem _ (ih _)

theorem mem_freeAddrs_blkAddrsSz (a x : Nat) (bs : List Blk)
    (hx : x ∈ freeAddrs a bs) : ∃ s, (x, s) ∈ blkAddrsSz a bs := by
  obtain ⟨pre, b, post, rfl, -, rfl⟩ := (mem_freeAddrs a x bs).mp hx
  exact ⟨b.size, decomp_mem_blkAddrsSz a pre b post⟩

theorem blkAddrsSz_sizes (h : Heap) (a : Nat) (bs : List Blk)
    (hr : blksRepr h a bs) :
    ∀ p ∈ blkAddrsSz a bs, p.2 % 16 = 0 ∧ 32 ≤ p.2 := by
  induction bs generalizing a with
  | nil => intro p hp; cases hp
  | cons b xs ih =>
    intro p hp
    obtain ⟨-, -, hs, hs32, -, hr⟩ := hr
    rcases List.mem_cons.mp hp with rfl | hp
    · exact ⟨hs, hs32⟩
    · exact ih _ hr p hp

theorem blkAddrsSz_mod (a : Nat) (bs : List Blk)
    (hs : ∀ p ∈ blkAddrsSz a bs, p.2 % 16 = 0) (ha : a % 16 = 0) :
    ∀ p ∈ blkAddrsSz a bs, p.1 % 16 = 0 := by
  induction bs generalizing a with
  | nil => intro p hp; cases hp
  | cons b xs ih =>
    intro p hp
    rcases List.mem_cons.mp hp with rfl | hp
    · exact ha
    · refine ih _ (fun q hq => hs q (List.mem_cons_of_mem _ hq)) ?_ p hp
      have := hs (a, b.size) (List.mem_cons_self _ _)
      simp only at this
      omega

end MM

namespace MM

theorem pagesDisjoint_get (pgs : List PageA) (hd : pagesDisjoint pgs) :
    ∀ p ∈ pgs, ∀ q ∈ pgs, p ≠ q →
      p.start + p.chunk ≤ q.start ∨ q.start + q.chunk ≤ p.start := by
  induction pgs with
  | nil => intro p hp; cases hp
  | cons r rs ih =>
    obtain ⟨hr, hd⟩ := hd
    intro p hp q hq hne
    rcases List.mem_cons.mp hp with hp1 | hp1 <;>
      rcases List.mem_cons.mp hq with hq1 | hq1
    · exact absurd (hp1.trans hq1.symm) hne
    · rw [hp1]; exact hr q hq1
    · rw [hq1]
      rcases hr p hp1 with h1 | h1
      · exact Or.inr h1
      · exact Or.inl h1
    · exact ih hd p hp1 q hq1 hne

/-- Location facts for a free-list member under `Repr`: it is a free
block's payload in some page, 16-byte aligned, with its block extent
inside the page interior. -/
theorem Repr_fl_loc (h : Heap) (pgs : List PageA) (fl : List Nat)
    (hR : Repr h pgs fl) (x : Nat) (hx : x ∈ fl) :
    ∃ pg ∈ pgs, ∃ s : Nat,
      (x, s) ∈ blkAddrsSz (pg.start + 32) pg.blks ∧
      32 ≤ s ∧ s % 16 = 0 ∧ x % 16 = 0 ∧
      pg.start + 32 ≤ x ∧ x + s ≤ pg.start + pg.chunk := by
  obtain ⟨pg, hpg, hxf⟩ := hR.2.2.2.2.1 x hx
  have hpr := hR.1 pg hpg
  obtain ⟨hs16, hs8, -, -, -, -, -, -, -, hend, hblks⟩ := hpr
  obtain ⟨s, hmem⟩ := mem_freeAddrs_blkAddrsSz _ x _ hxf
  have hb := blkAddrsSz_bounds _ _ (x, s) hmem
  have hsz := blkAddrsSz_sizes h _ _ hblks (x, s) hmem
  have hxm : x % 16 = 0 := by
    refine blkAddrsSz_mod _ _ (fun q hq => (blkAddrsSz_sizes h _ _ hblks q hq).1)
      (by omega) (x, s) hmem
  refine ⟨pg, hpg, s, hmem, hsz.2, hsz.1, hxm, hb.1, ?_⟩
  have := hb.2
  rw [hend] at this
  exact this

theorem Repr_fl_aligned (h : Heap) (pgs : List PageA) (fl : List Nat)
    (hR : Repr h pgs fl) : ∀ x ∈ fl, x % 16 = 0 := by
  intro x hx
  obtain ⟨pg, -, s, -, -, -, hxm, -⟩ := Repr_fl_loc h pgs fl hR x hx
  exact hxm

/-- Disaliasing: an address inside the extent of the active block (the
block at payload `bp` of page `pg0`) is never a `prev`/`next` field
address of any other free-list member. -/
theorem Repr_fl_avoid_active (h : Heap) (pgs : List PageA) (fl : List Nat)
    (hR : Repr h pgs fl) (pg0 : PageA) (hpg0 : pg0 ∈ pgs) (bp S : Nat)
    (hbp : (bp, S) ∈ blkAddrsSz (pg0.start + 32) pg0.blks)
    (A : Nat) (hA1 : bp - 8 ≤ A) (hA2 : A < bp + S) :
    ∀ x ∈ fl, x ≠ bp → A ≠ x ∧ A ≠ x + 8 := by
  intro x hx hxbp
  obtain ⟨pg, hpg, s, hxmem, hs32, -, -, hxlo, hxhi⟩ :=
    Repr_fl_loc h pgs fl hR x hx
  have hpr0 := hR.1 pg0 hpg0
  obtain ⟨-, h8, -, -, -, -, -, -, -, hend0, hblks0⟩ := hpr0
  have hbpb := blkAddrsSz_bounds _ _ (bp, S) hbp
  have hbphi : bp + S ≤ pg0.start + pg0.chunk := by
    have := hbpb.2; rw [hend0] at this; exact this
  have hbplo : pg0.start + 32 ≤ bp := hbpb.1
  by_cases hpgeq : pg = pg0
  · subst hpgeq
    have hsep := blkAddrsSz_sep _ _ (x, s) hxmem (bp, S) hbp (by simpa using hxbp)
    simp only at hsep
    omega
  · have hdisj := pagesDisjoint_get pgs hR.2.1 pg hpg pg0 hpg0 hpgeq
    omega

end MM

/-! ## set_allocated: closed forms -/

namespace MM

theorem GET_SIZE_of_mem (h : Heap) (p s f : Nat) (hm : h.mem p = s + f)
    (hs : s % 16 = 0) (hf : f < 16) : GET_SIZE h p = s := by
  unfold GET_SIZE GET; omega

theorem PACK_one_of_mod (s : Nat) (hs : s % 16 = 0) : PACK s 1 = s + 1 :=
  PACK_one s (by omega)

/-- Closed form of `set_allocated` when the leftover is too small to
split: the block is marked allocated at its full size, header first, then
footer. -/
theorem set_allocated_eq_nosplit (h : Heap) (bp n S : Nat)
    (hS16 : S % 16 = 0)
    (hmem : h.mem (HDRP bp) = S)
    (hmem1 : (removeFromFreeList h bp).mem (HDRP bp) = S)
    (hns : ¬ S - n > 32) :
    set_allocated h bp n =
      PUT (PUT (removeFromFreeList h bp) (HDRP bp) (S + 1))
        (bp + S - 16) (S + 1) := by
  have hA : ALIGN (1 + OVERHEAD) = 32 := by decide
  have e0 : GET_SIZE h (HDRP bp) = S := GET_SIZE_of_mem h _ S 0 (by simpa using hmem) hS16 (by omega)
  have e1 : GET_SIZE (removeFromFreeList h bp) (HDRP bp) = S :=
    GET_SIZE_of_mem _ _ S 0 (by simpa using hmem1) hS16 (by omega)
  have e2 : GET_SIZE (PUT (removeFromFreeList h bp) (HDRP bp) (S + 1))
      (HDRP bp) = S := by
    refine GET_SIZE_of_mem _ _ S 1 ?_ hS16 (by omega)
    rw [PUT_mem, if_pos rfl]
  unfold set_allocated
  rw [e0, hA, if_neg hns]
  rw [e1, PACK_one_of_mod S hS16]
  unfold FTRP OVERHEAD
  rw [e2, PACK_one_of_mod S hS16]

end MM

namespace MM

/-- Closed form of `set_allocated` in the split case: the block is
re-marked `(n, allocated)` in header and footer, the remainder block
`(S - n, free)` is written at the boundary, and the remainder is pushed
onto the free list (its `prev` pointing at the previous newest member
`fl1h`, the tail after removal). -/
theorem set_allocated_eq_split (h : Heap) (bp n S fl1h : Nat)
    (hS16 : S % 16 = 0) (hn16 : n % 16 = 0) (hn32 : 16 ≤ n)
    (hsplit : S - n > 32) (hbp8 : 8 ≤ bp)
    (hget : GET_SIZE h (bp - 8) = S)
    (hget1 : GET_SIZE (removeFromFreeList h bp) (bp - 8) = S)
    (hfl1 : fl1h = (removeFromFreeList h bp).free_list)
    (hAvoid : fl1h ≠ 0 → ∀ A : Nat, bp - 8 ≤ A → A < bp + S →
      A ≠ fl1h ∧ A ≠ fl1h + 8) :
    set_allocated h bp n =
      PUT (PUT (addToFreeList (PUT (PUT (PUT (PUT (removeFromFreeList h bp)
        (bp - 8) (S + 1)) (bp + S - 16) (S + 1)) (bp - 8) (n + 1))
        (bp + n - 16) (n + 1)) (bp + n)) (bp + n - 8) (S - n))
        (bp + S - 16) (S - n) := by
  have hA32 : ALIGN (1 + OVERHEAD) = 32 := by decide
  have e0 : GET_SIZE h (bp - 8) = S := hget
  have e1 : GET_SIZE (removeFromFreeList h bp) (bp - 8) = S := hget1
  have e2 : GET_SIZE (PUT (removeFromFreeList h bp) (bp - 8) (S + 1))
      (bp - 8) = S := by
    refine GET_SIZE_of_mem _ _ S 1 ?_ hS16 (by omega)
    rw [PUT_mem, if_pos rfl]
  have e4 : GET_SIZE (PUT (PUT (PUT (removeFromFreeList h bp)
      (bp - 8) (S + 1)) (bp + S - 16) (S + 1)) (bp - 8) (n + 1))
      (bp - 8) = n := by
    refine GET_SIZE_of_mem _ _ n 1 ?_ hn16 (by omega)
    rw [PUT_mem, if_pos rfl]
  have e5 : GET_SIZE (PUT (PUT (PUT (PUT (removeFromFreeList h bp)
      (bp - 8) (S + 1)) (bp + S - 16) (S + 1)) (bp - 8) (n + 1))
      (bp + n - 16) (n + 1)) (bp - 8) = n := by
    refine GET_SIZE_of_mem _ _ n 1 ?_ hn16 (by omega)
    rw [PUT_mem, if_neg (by omega), PUT_mem, if_pos rfl]
  have hmem6 : (addToFreeList (PUT (PUT (PUT (PUT
      (removeFromFreeList h bp) (bp - 8) (S + 1)) (bp + S - 16) (S + 1))
      (bp - 8) (n + 1)) (bp + n - 16) (n + 1)) (bp + n)).mem (bp - 8)
      = n + 1 := by
    rw [addToFreeList_mem]
    have h1 : bp - 8 ≠ bp + n + 8 := by omega
    have h2 : bp - 8 ≠ bp + n := by omega
    have h3 : ¬((PUT (PUT (PUT (PUT (removeFromFreeList h bp) (bp - 8) (S + 1))
        (bp + S - 16) (S + 1)) (bp - 8) (n + 1)) (bp + n - 16)
        (n + 1)).free_list ≠ 0 ∧
        bp - 8 = (PUT (PUT (PUT (PUT (removeFromFreeList h bp) (bp - 8) (S + 1))
        (bp + S - 16) (S + 1)) (bp - 8) (n + 1)) (bp + n - 16)
        (n + 1)).free_list + 8) := by
      simp only [PUT_free_list]
      rintro ⟨hne, heq⟩
      exact (hAvoid (hfl1 ▸ hne) (bp - 8) (Nat.le_refl _) (by omega)).2
        (by rw [heq, hfl1])
    rw [if_neg h1, if_neg h2, if_neg h3, PUT_mem, if_neg (by omega),
      PUT_mem, if_pos rfl]
  have e6 : GET_SIZE (addToFreeList (PUT (PUT (PUT (PUT
      (removeFromFreeList h bp) (bp - 8) (S + 1)) (bp + S - 16) (S + 1))
      (bp - 8) (n + 1)) (bp + n - 16) (n + 1)) (bp + n)) (bp - 8) = n :=
    GET_SIZE_of_mem _ _ n 1 hmem6 hn16 (by omega)
  have e7 : GET_SIZE (PUT (addToFreeList (PUT (PUT (PUT (PUT
      (removeFromFreeList h bp) (bp - 8) (S + 1)) (bp + S - 16) (S + 1))
      (bp - 8) (n + 1)) (bp + n - 16) (n + 1)) (bp + n)) (bp + n - 8)
      (S - n)) (bp - 8) = n := by
    refine GET_SIZE_of_mem _ _ n 1 ?_ hn16 (by omega)
    rw [PUT_mem, if_neg (by omega)]
    exact hmem6
  have e8 : GET_SIZE (PUT (addToFreeList (PUT (PUT (PUT (PUT
      (removeFromFreeList h bp) (bp - 8) (S + 1)) (bp + S - 16) (S + 1))
      (bp - 8) (n + 1)) (bp + n - 16) (n + 1)) (bp + n)) (bp + n - 8)
      (S - n)) (bp + n - 8) = S - n := by
    refine GET_SIZE_of_mem _ _ (S - n) 0 ?_ (by omega) (by omega)
    rw [PUT_mem, if_pos rfl]
    omega
  have hA32b : ALIGN (1 + 16) = 32 := by decide
  simp only [set_allocated]
  unfold FTRP NEXT_BLKP HDRP OVERHEAD WSIZE
  rw [e0, hA32b, if_pos hsplit, PACK_zero]
  rw [e1, PACK_one_of_mod S hS16]
  rw [e2, PACK_one_of_mod S hS16, PACK_one_of_mod n hn16]
  rw [e4, e5, e6, e7, e8]
  have r2 : bp + n + (S - n) - 16 = bp + S - 16 := by omega
  rw [r2]

end MM

/-! ## Structural reads never alias free-list node fields -/

namespace MM

/-- Read-precise frame rule for a block run: only the header and footer
words of the run's blocks matter. -/
theorem blksRepr_frame_reads (h h' : Heap) (a : Nat) (bs : List Blk)
    (hag : ∀ p ∈ blkAddrsSz a bs,
      h'.mem (p.1 - 8) = h.mem (p.1 - 8) ∧
      h'.mem (p.1 + p.2 - 16) = h.mem (p.1 + p.2 - 16))
    (hr : blksRepr h a bs) : blksRepr h' a bs := by
  induction bs generalizing a with
  | nil => trivial
  | cons b xs ih =>
    obtain ⟨hh, hf, hs, hs32, hfa, hr⟩ := hr
    obtain ⟨h1, h2⟩ := hag (a, b.size) (List.mem_cons_self _ _)
    exact ⟨by rw [h1]; exact hh, by rw [h2]; exact hf, hs, hs32, hfa,
      ih _ (fun p hp => hag p (List.mem_cons_of_mem _ hp)) hr⟩

/-- A block's header or footer address never coincides with a `prev` or
`next` field address of a free-list member. -/
theorem struct_read_not_field (h : Heap) (pgs : List PageA) (fl : List Nat)
    (hR : Repr h pgs fl) (q : PageA) (hq : q ∈ pgs) (p sp : Nat)
    (hps : (p, sp) ∈ blkAddrsSz (q.start + 32) q.blks) :
    ∀ x ∈ fl, (p - 8 ≠ x ∧ p - 8 ≠ x + 8) ∧
      (p + sp - 16 ≠ x ∧ p + sp - 16 ≠ x + 8) := by
  intro x hx
  obtain ⟨pgx, hpgx, sx, hxmem, hsx32, -, hx16, hxlo, hxhi⟩ :=
    Repr_fl_loc h pgs fl hR x hx
  have hqpr := hR.1 q hq
  obtain ⟨hq16, hq8, -, -, -, -, -, -, -, hqend, hqblks⟩ := hqpr
  have hpb := blkAddrsSz_bounds _ _ (p, sp) hps
  have hphi : p + sp ≤ q.start + q.chunk := by
    have := hpb.2; rw [hqend] at this; exact this
  have hplo : q.start + 32 ≤ p := hpb.1
  have hsp := blkAddrsSz_sizes h _ _ hqblks (p, sp) hps
  by_cases hpg : pgx = q
  · subst hpg
    by_cases hxp : x = p
    · subst hxp
      omega
    · have hsep := blkAddrsSz_sep _ _ (x, sx) hxmem (p, sp) hps (by simpa using hxp)
      simp only at hsep
      omega
  · have hdisj := pagesDisjoint_get pgs hR.2.1 pgx hpgx q hq hpg
    omega

/-- A page's sentinel words (prolog header/footer, terminator header)
never coincide with a `prev` or `next` field address of a free-list
member. -/
theorem sentinel_not_field (h : Heap) (pgs : List PageA) (fl : List Nat)
    (hR : Repr h pgs fl) (q : PageA) (hq : q ∈ pgs) :
    ∀ x ∈ fl,
      (q.start + 8 ≠ x ∧ q.start + 8 ≠ x + 8) ∧
      (q.start + 16 ≠ x ∧ q.start + 16 ≠ x + 8) ∧
      (q.start + q.chunk - 8 ≠ x ∧ q.start + q.chunk - 8 ≠ x + 8) := by
  intro x hx
  obtain ⟨pgx, hpgx, sx, hxmem, hsx32, -, hx16, hxlo, hxhi⟩ :=
    Repr_fl_loc h pgs fl hR x hx
  have hqpr := hR.1 q hq
  obtain ⟨hq16, hq8, hqc, hqc2, -, -, -, -, -, hqend, hqblks⟩ := hqpr
  have hqcs : mem_pagesize ≤ q.chunk := hqc2
  have hps : (4096 : Nat) ≤ q.chunk := by
    unfold mem_pagesize at hqcs; omega
  by_cases hpg : pgx = q
  · subst hpg
    omega
  · have hdisj := pagesDisjoint_get pgs hR.2.1 pgx hpgx q hq hpg
    omega

/-- A header or footer read of a block other than the active one lies
outside the active block's write window `[bp - 8, bp + S - 8)`. -/
theorem struct_read_outside_active (h : Heap) (pgs : List PageA)
    (fl : List Nat) (hR : Repr h pgs fl) (q : PageA) (hq : q ∈ pgs)
    (p sp : Nat) (hps : (p, sp) ∈ blkAddrsSz (q.start + 32) q.blks)
    (pg0 : PageA) (hpg0 : pg0 ∈ pgs) (bp S : Nat)
    (hbp : (bp, S) ∈ blkAddrsSz (pg0.start + 32) pg0.blks)
    (hne : q ≠ pg0 ∨ p ≠ bp) :
    ∀ R : Nat, (R = p - 8 ∨ R = p + sp - 16) →
      ¬(bp - 8 ≤ R ∧ R < bp + S - 8) := by
  intro R hRd
  have hqpr := hR.1 q hq
  obtain ⟨-, hq8, -, -, -, -, -, -, -, hqend, hqblks⟩ := hqpr
  have hpb := blkAddrsSz_bounds _ _ (p, sp) hps
  have hphi : p + sp ≤ q.start + q.chunk := by
    have := hpb.2; rw [hqend] at this; exact this
  have hplo : q.start + 32 ≤ p := hpb.1
  have hsp := blkAddrsSz_sizes h _ _ hqblks (p, sp) hps
  have hpg0pr := hR.1 pg0 hpg0
  obtain ⟨-, hp08, -, -, -, -, -, -, -, hp0end, hp0blks⟩ := hpg0pr
  have hbpb := blkAddrsSz_bounds _ _ (bp, S) hbp
  have hbphi : bp + S ≤ pg0.start + pg0.chunk := by
    have := hbpb.2; rw [hp0end] at this; exact this
  have hbplo : pg0.start + 32 ≤ bp := hbpb.1
  have hS := blkAddrsSz_sizes h _ _ hp0blks (bp, S) hbp
  rcases hne with hne | hne
  · have hdisj := pagesDisjoint_get pgs hR.2.1 q hq pg0 hpg0 hne
    omega
  · have hqq : q = pg0 ∨ q ≠ pg0 := em _
    rcases hqq with rfl | hqq
    · have hsep := blkAddrsSz_sep _ _ (p, sp) hps (bp, S) hbp (by simpa using hne)
      simp only at hsep
      omega
    · have hdisj := pagesDisjoint_get pgs hR.2.1 q hq pg0 hpg0 hqq
      omega

/-- A sentinel word of any page lies outside the active block's write
window. -/
theorem sentinel_outside_active (h : Heap) (pgs : List PageA)
    (fl : List Nat) (hR : Repr h pgs fl) (q : PageA) (hq : q ∈ pgs)
    (pg0 : PageA) (hpg0 : pg0 ∈ pgs) (bp S : Nat)
    (hbp : (bp, S) ∈ blkAddrsSz (pg0.start + 32) pg0.blks) :
    ∀ R : Nat, (R = q.start + 8 ∨ R = q.start + 16 ∨
        R = q.start + q.chunk - 8) →
      ¬(bp - 8 ≤ R ∧ R < bp + S - 8) := by
  intro R hRd
  have hqpr := hR.1 q hq
  obtain ⟨-, hq8, -, hqc2, -, -, -, -, -, hqend, hqblks⟩ := hqpr
  have hpg0pr := hR.1 pg0 hpg0
  obtain ⟨-, hp08, -, -, -, -, -, -, -, hp0end, hp0blks⟩ := hpg0pr
  have hbpb := blkAddrsSz_bounds _ _ (bp, S) hbp
  have hbphi : bp + S ≤ pg0.start + pg0.chunk := by
    have := hbpb.2; rw [hp0end] at this; exact this
  have hbplo : pg0.start + 32 ≤ bp := hbpb.1
  have hqcs : mem_pagesize ≤ q.chunk := hqc2
  have hps : (4096 : Nat) ≤ q.chunk := by unfold mem_pagesize at hqcs; omega
  by_cases hpg : q = pg0
  · subst hpg
    omega
  · have hdisj := pagesDisjoint_get pgs hR.2.1 q hq pg0 hpg0 hpg
    omega

end MM

namespace MM

theorem blkAddrsSz_append (a : Nat) (xs ys : List Blk) :
    blkAddrsSz a (xs ++ ys) =
      blkAddrsSz a xs ++ blkAddrsSz (blksEnd a xs) ys := by
  induction xs generalizing a with
  | nil => rfl
  | cons b bs ih => rw [List.cons_append, blkAddrsSz, blkAddrsSz, ih, blksEnd]; rfl

theorem blkAddrsSz_append_mem (a : Nat) (xs ys : List Blk) (p : Nat × Nat) :
    p ∈ blkAddrsSz a (xs ++ ys) ↔
      p ∈ blkAddrsSz a xs ∨ p ∈ blkAddrsSz (blksEnd a xs) ys := by
  rw [blkAddrsSz_append, List.mem_append]

/-- Combined frame rule for an update that only writes (i) inside the
active block's window `[bp - 8, bp + S - 8)` and (ii) at `prev`/`next`
fields of free-list members other than the active block.  All pages other
than the active one, the active page's sentinels, and the runs before and
after the active block are preserved. -/
theorem Repr_frame_active (h h' : Heap) (pgs : List PageA) (fl : List Nat)
    (hR : Repr h pgs fl) (pg0 : PageA) (hpg0 : pg0 ∈ pgs) (bp S : Nat)
    (hbp : (bp, S) ∈ blkAddrsSz (pg0.start + 32) pg0.blks)
    (hag : ∀ A : Nat, ¬(bp - 8 ≤ A ∧ A < bp + S - 8) →
      (∀ x ∈ fl, x ≠ bp → A ≠ x ∧ A ≠ x + 8) → h'.mem A = h.mem A)
    (hmaps : ∀ e ∈ h.maps, e ∈ h'.maps) (hhi : h.hi ≤ h'.hi) :
    (∀ q ∈ pgs, q ≠ pg0 → pageRepr h' q) ∧
    h'.mem (pg0.start + 8) = 17 ∧ h'.mem (pg0.start + 16) = 17 ∧
    h'.mem (pg0.start + pg0.chunk - 8) = 1 ∧
    (∀ pre rest, pg0.blks = pre ++ rest → blksEnd (pg0.start + 32) pre = bp →
      blksRepr h' (pg0.start + 32) pre) ∧
    (∀ pre b post, pg0.blks = pre ++ b :: post →
      blksEnd (pg0.start + 32) pre = bp → b.size = S →
      blksRepr h' (bp + S) post) := by
  have hsent : ∀ q ∈ pgs, h'.mem (q.start + 8) = h.mem (q.start + 8) ∧
      h'.mem (q.start + 16) = h.mem (q.start + 16) ∧
      h'.mem (q.start + q.chunk - 8) = h.mem (q.start + q.chunk - 8) := by
    intro q hq
    have hout := sentinel_outside_active h pgs fl hR q hq pg0 hpg0 bp S hbp
    have hnf := sentinel_not_field h pgs fl hR q hq
    refine ⟨hag _ (hout _ (by tauto)) ?_, hag _ (hout _ (by tauto)) ?_,
      hag _ (hout _ (by tauto)) ?_⟩ <;>
      intro x hx hxne
    · exact (hnf x hx).1
    · exact (hnf x hx).2.1
    · exact (hnf x hx).2.2
  have hblk : ∀ q ∈ pgs, ∀ p ∈ blkAddrsSz (q.start + 32) q.blks,
      (q ≠ pg0 ∨ p.1 ≠ bp) →
      h'.mem (p.1 - 8) = h.mem (p.1 - 8) ∧
      h'.mem (p.1 + p.2 - 16) = h.mem (p.1 + p.2 - 16) := by
    intro q hq p hp hne
    have hout := struct_read_outside_active h pgs fl hR q hq p.1 p.2
      (by simpa using hp) pg0 hpg0 bp S hbp hne
    have hnf := struct_read_not_field h pgs fl hR q hq p.1 p.2
      (by simpa using hp)
    exact ⟨hag _ (hout _ (Or.inl rfl)) (fun x hx _ => (hnf x hx).1),
      hag _ (hout _ (Or.inr rfl)) (fun x hx _ => (hnf x hx).2)⟩
  refine ⟨?_, ?_, ?_, ?_, ?_, ?_⟩
  · intro q hq hqne
    have hqpr := hR.1 q hq
    obtain ⟨h1, h2, h3, h4, h5, h6, h7, h8, h9, h10, h11⟩ := hqpr
    refine ⟨h1, h2, h3, h4, hmaps _ h5, Nat.le_trans h6 hhi, ?_, ?_, ?_, h10, ?_⟩
    · rw [(hsent q hq).1]; exact h7
    · rw [(hsent q hq).2.1]; exact h8
    · rw [(hsent q hq).2.2]; exact h9
    · exact blksRepr_frame_reads h h' _ _
        (fun p hp => hblk q hq p hp (Or.inl hqne)) h11
  · rw [(hsent pg0 hpg0).1]; exact (hR.1 pg0 hpg0).2.2.2.2.2.2.1
  · rw [(hsent pg0 hpg0).2.1]; exact (hR.1 pg0 hpg0).2.2.2.2.2.2.2.1
  · rw [(hsent pg0 hpg0).2.2]; exact (hR.1 pg0 hpg0).2.2.2.2.2.2.2.2.1
  · intro pre rest hdecomp hpre
    have hblks := (hR.1 pg0 hpg0).2.2.2.2.2.2.2.2.2.2
    rw [hdecomp, blksRepr_append] at hblks
    refine blksRepr_frame_reads h h' _ _ ?_ hblks.1
    intro p hp
    refine hblk pg0 hpg0 p ?_ (Or.inr ?_)
    · rw [hdecomp, blkAddrsSz_append_mem]
      exact Or.inl hp
    · have hb := blkAddrsSz_bounds _ _ p hp
      have hsz := blkAddrsSz_sizes h _ _ hblks.1 p hp
      rw [hpre] at hb
      -- p.1 + p.2 ≤ bp and p.2 ≥ 32, so p.1 < bp
      omega
  · intro pre b post hdecomp hpre hbsz
    have hblks := (hR.1 pg0 hpg0).2.2.2.2.2.2.2.2.2.2
    rw [hdecomp, blksRepr_append] at hblks
    have hpost := hblks.2
    rw [hpre, blksRepr_cons] at hpost
    obtain ⟨-, -, -, hb32, -, hpost⟩ := hpost
    rw [hbsz] at hpost hb32
    refine blksRepr_frame_reads h h' _ _ ?_ hpost
    intro p hp
    refine hblk pg0 hpg0 p ?_ (Or.inr ?_)
    · rw [hdecomp, blkAddrsSz_append_mem]
      refine Or.inr ?_
      rw [hpre]
      show p ∈ blkAddrsSz bp (b :: post)
      rw [blkAddrsSz]
      refine List.mem_cons_of_mem _ ?_
      rw [hbsz]
      exact hp
    · have hb := blkAddrsSz_bounds _ _ p hp
      have hsz := blkAddrsSz_sizes h _ _ hpost p hp
      omega

end MM

namespace MM

theorem pagesDisjoint_cons (r : PageA) (rs : List PageA) :
    pagesDisjoint (r :: rs) ↔
      (∀ q ∈ rs, r.start + r.chunk ≤ q.start ∨ q.start + q.chunk ≤ r.start) ∧
      pagesDisjoint rs := Iff.rfl

theorem pagesDisjoint_append (l1 l2 : List PageA) :
    pagesDisjoint (l1 ++ l2) ↔
      pagesDisjoint l1 ∧ pagesDisjoint l2 ∧
      ∀ p ∈ l1, ∀ q ∈ l2,
        p.start + p.chunk ≤ q.start ∨ q.start + q.chunk ≤ p.start := by
  induction l1 with
  | nil => simp [pagesDisjoint]
  | cons r rs ih =>
    rw [List.cons_append, pagesDisjoint_cons, ih, pagesDisjoint_cons]
    constructor
    · rintro ⟨h1, h2, h3, h4⟩
      refine ⟨⟨fun q hq => h1 q (by simp [hq]), h2⟩, h3, ?_⟩
      intro p hp q hq
      rcases List.mem_cons.mp hp with rfl | hp
      · exact h1 q (by simp [hq])
      · exact h4 p hp q hq
    · rintro ⟨⟨h1, h2⟩, h3, h4⟩
      refine ⟨?_, h2, h3, fun p hp q hq => h4 p (by simp [hp]) q hq⟩
      intro q hq
      rcases List.mem_append.mp hq with hq | hq
      · exact h1 q hq
      · exact h4 r (by simp) q hq

/-- In a disjoint page list, a page with a nonempty extent occurs in
exactly one position. -/
theorem pagesDisjoint_unique (pgL pgR : List PageA) (pg : PageA)
    (hd : pagesDisjoint (pgL ++ pg :: pgR)) (hc : 0 < pg.chunk) :
    pg ∉ pgL ∧ pg ∉ pgR := by
  rw [pagesDisjoint_append] at hd
  obtain ⟨h1, h2, h3⟩ := hd
  constructor
  · intro hmem
    have := h3 pg hmem pg (by simp)
    omega
  · intro hmem
    have := h2.1 pg hmem
    omega

/-- Free addresses of a split page: the run before the active block, the
active payload, then the run after. -/
theorem pageFreeAddrs_decomp (pg : PageA) (pre : List Blk) (b : Blk)
    (post : List Blk) (hblks : pg.blks = pre ++ b :: post)
    (hbfree : b.free = true) :
    pageFreeAddrs pg =
      freeAddrs (pg.start + 32) pre ++
      blksEnd (pg.start + 32) pre ::
        freeAddrs (blksEnd (pg.start + 32) pre + b.size) post := by
  rw [pageFreeAddrs, hblks, freeAddrs_append, freeAddrs, if_pos hbfree]

theorem mem_freeAddrs_bounds (a x : Nat) (bs : List Blk) (h : Heap)
    (hr : blksRepr h a bs) (hx : x ∈ freeAddrs a bs) :
    a ≤ x ∧ x + 32 ≤ blksEnd a bs := by
  obtain ⟨s, hs⟩ := mem_freeAddrs_blkAddrsSz a x bs hx
  have hb := blkAddrsSz_bounds _ _ (x, s) hs
  have hsz := blkAddrsSz_sizes h _ _ hr (x, s) hs
  simp only at hb hsz
  omega

end MM

namespace MM

/-- Simulation of `set_allocated` in the split case, at the level of the
representation invariant: committing `n` bytes of the free block `b`
(located after the run `pre` in page `pg`) yields the same page list with
`b` replaced by an allocated `n`-byte block and a free remainder, and the
free list with the remainder pushed on and the old block removed. -/
theorem set_allocated_spec_split (h : Heap) (pgs : List PageA)
    (fl : List Nat) (hR : Repr h pgs fl) (pgL pgR : List PageA)
    (pg : PageA) (hpgs : pgs = pgL ++ pg :: pgR) (pre : List Blk)
    (b : Blk) (post : List Blk) (hblks : pg.blks = pre ++ b :: post)
    (hbfree : b.free = true) (n : Nat) (hn16 : n % 16 = 0) (hn32 : 32 ≤ n)
    (hsplit : b.size - n > 32) :
    Repr (set_allocated h (blksEnd (pg.start + 32) pre) n)
      (pgL ++ { pg with blks := (pre ++ Blk.mk n false true ::
          Blk.mk (b.size - n) true false :: post) } :: pgR)
      ((blksEnd (pg.start + 32) pre + n) ::
        fl.erase (blksEnd (pg.start + 32) pre)) := by
  have hpg : pg ∈ pgs := by rw [hpgs]; simp
  have hpr := hR.1 pg hpg
  obtain ⟨hst16, hst8, hch16, hchsz, hmapsM, hhiM, hpro1, hpro2, hterm,
    hend, hblksR0⟩ := hpr
  set a0 := pg.start + 32 with ha0
  set bp := blksEnd a0 pre with hbpdef
  set S := b.size with hSdef
  have hblksR := hblksR0
  rw [hblks, blksRepr_append] at hblksR
  obtain ⟨hpreR, hmidR⟩ := hblksR
  rw [← hbpdef, blksRepr_cons] at hmidR
  obtain ⟨hh, hf, hS16, hS32, hfaI, hpostR⟩ := hmidR
  rw [hbfree] at hh
  simp only [if_true] at hh
  have hbppos : (bp, S) ∈ blkAddrsSz a0 pg.blks := by
    rw [hblks]; exact decomp_mem_blkAddrsSz a0 pre b post
  have hbpb := blkAddrsSz_bounds _ _ (bp, S) hbppos
  have hbphi : bp + S ≤ pg.start + pg.chunk := by
    have := hbpb.2; rw [hend] at this; exact this
  have hbplo : a0 ≤ bp := hbpb.1
  have hbp16 : bp % 16 = 0 := by
    refine blkAddrsSz_mod a0 pg.blks
      (fun q hq => (blkAddrsSz_sizes h _ _ hblksR0 q hq).1) (by omega)
      (bp, S) hbppos
  have hbp8 : 8 ≤ bp := by omega
  have hbfl : bp ∈ fl := by
    refine hR.2.2.2.2.2.1 pg hpg bp ?_
    rw [pageFreeAddrs, hblks]
    exact (mem_freeAddrs _ _ _).mpr ⟨pre, b, post, rfl, hbfree, rfl⟩
  have hfl_al := Repr_fl_aligned h pgs fl hR
  have hrem := removeFromFreeList_spec h fl bp hR.2.2.1 hbfl hR.2.2.2.1 hfl_al
  obtain ⟨hch1, hag1, hhi1, hmaps1, hunmaps1⟩ := hrem
  have havoidAll := Repr_fl_avoid_active h pgs fl hR pg hpg bp S hbppos
  have hmem0 : h.mem (bp - 8) = S := hh
  have hmem1 : (removeFromFreeList h bp).mem (bp - 8) = S := by
    rw [hag1 (bp - 8) ?_]
    · exact hmem0
    · intro x hx hxne
      exact havoidAll (bp - 8) (Nat.le_refl _) (by omega) x hx hxne
  have hfl1hd : (removeFromFreeList h bp).free_list = (fl.erase bp).headD 0 :=
    isFreeChain_free_list _ _ hch1
  have hfl1mem : (removeFromFreeList h bp).free_list ≠ 0 →
      (removeFromFreeList h bp).free_list ∈ fl ∧
      (removeFromFreeList h bp).free_list ≠ bp := by
    intro hne
    rw [hfl1hd] at hne ⊢
    cases herase : fl.erase bp with
    | nil => rw [herase] at hne; simp at hne
    | cons y ys =>
      have hy : y ∈ fl.erase bp := by rw [herase]; simp
      have hmm := (List.Nodup.mem_erase_iff hR.2.2.2.1).mp hy
      simpa using ⟨hmm.2, hmm.1⟩
  have hAvoidCl : (removeFromFreeList h bp).free_list ≠ 0 →
      ∀ A : Nat, bp - 8 ≤ A → A < bp + S →
        A ≠ (removeFromFreeList h bp).free_list ∧
        A ≠ (removeFromFreeList h bp).free_list + 8 := by
    intro hne A hA1 hA2
    obtain ⟨hmemfl, hnebp⟩ := hfl1mem hne
    exact havoidAll A hA1 hA2 _ hmemfl hnebp
  have heq := set_allocated_eq_split h bp n S
    (removeFromFreeList h bp).free_list hS16 hn16 (by omega) hsplit hbp8
    (GET_SIZE_of_mem h _ S 0 (by simpa using hmem0) hS16 (by omega))
    (GET_SIZE_of_mem _ _ S 0 (by simpa using hmem1) hS16 (by omega)) rfl hAvoidCl
  rw [heq]
  set h1 := removeFromFreeList h bp with hh1def
  set h5 := PUT (PUT (PUT (PUT h1 (bp - 8) (S + 1)) (bp + S - 16) (S + 1))
    (bp - 8) (n + 1)) (bp + n - 16) (n + 1) with hh5def
  set h6 := addToFreeList h5 (bp + n) with hh6def
  set E := PUT (PUT h6 (bp + n - 8) (S - n)) (bp + S - 16) (S - n) with hEdef
  have hSn : n + 33 ≤ S := by omega
  have hfl5 : h5.free_list = h1.free_list := by rw [hh5def]; rfl
  -- final memory at the rewritten block's boundary words
  have hE1 : E.mem (bp - 8) = n + 1 := by
    rw [hEdef, PUT_mem, if_neg (by omega), PUT_mem, if_neg (by omega),
      hh6def, addToFreeList_mem, if_neg (by omega), if_neg (by omega)]
    rw [hfl5]
    have hc : ¬(h1.free_list ≠ 0 ∧ bp - 8 = h1.free_list + 8) := by
      rintro ⟨hne, hc⟩
      exact (hAvoidCl hne (bp - 8) (Nat.le_refl _) (by omega)).2 hc
    rw [if_neg hc, hh5def, PUT_mem, if_neg (by omega), PUT_mem, if_pos rfl]
  have hE2 : E.mem (bp + n - 16) = n + 1 := by
    rw [hEdef, PUT_mem, if_neg (by omega), PUT_mem, if_neg (by omega),
      hh6def, addToFreeList_mem, if_neg (by omega), if_neg (by omega)]
    rw [hfl5]
    have hc : ¬(h1.free_list ≠ 0 ∧ bp + n - 16 = h1.free_list + 8) := by
      rintro ⟨hne, hc⟩
      exact (hAvoidCl hne (bp + n - 16) (by omega) (by omega)).2 hc
    rw [if_neg hc, hh5def, PUT_mem, if_pos rfl]
  have hE3 : E.mem (bp + n - 8) = S - n := by
    rw [hEdef, PUT_mem, if_neg (by omega), PUT_mem, if_pos rfl]
  have hE4 : E.mem (bp + S - 16) = S - n := by
    rw [hEdef, PUT_mem, if_pos rfl]
  -- the free chain after the whole operation
  have hndE : (fl.erase bp).Nodup := List.Nodup.erase bp hR.2.2.2.1
  have hmemsub : ∀ x ∈ fl.erase bp, x ∈ fl ∧ x ≠ bp := by
    intro x hx
    have := (List.Nodup.mem_erase_iff hR.2.2.2.1).mp hx
    exact ⟨this.2, this.1⟩
  have hch5 : isFreeChain h5 (fl.erase bp) := by
    rw [isFreeChain, chainOK_iff_chainSeg] at hch1 ⊢
    have hflq : h5.free_list = h1.free_list := hfl5
    rw [hflq]
    refine chainSeg_frame h1 h5 _ _ _ _ ?_ hch1
    intro x hx
    obtain ⟨hxf, hxb⟩ := hmemsub x hx
    have hA1 := havoidAll (bp - 8) (Nat.le_refl _) (by omega) x hxf hxb
    have hA2 := havoidAll (bp + S - 16) (by omega) (by omega) x hxf hxb
    have hA3 := havoidAll (bp + n - 16) (by omega) (by omega) x hxf hxb
    constructor
    · rw [hh5def, PUT_mem, if_neg (by omega), PUT_mem, if_neg (by omega),
        PUT_mem, if_neg (by omega), PUT_mem, if_neg (by omega)]
    · rw [hh5def, PUT_mem, if_neg (by omega), PUT_mem, if_neg (by omega),
        PUT_mem, if_neg (by omega), PUT_mem, if_neg (by omega)]
  have hbpnNotMem : bp + n ∉ fl.erase bp := by
    intro hx
    obtain ⟨hxf, hxb⟩ := hmemsub _ hx
    exact (havoidAll (bp + n) (by omega) (by omega) _ hxf hxb).1 rfl
  have hch6 : isFreeChain h6 ((bp + n) :: fl.erase bp) := by
    rw [hh6def]
    refine addToFreeList_chain h5 _ _ hch5 (by omega) hbpnNotMem ?_ ?_ hndE
    · omega
    · intro x hx; exact hfl_al x (hmemsub x hx).1
  have hchE : isFreeChain E ((bp + n) :: fl.erase bp) := by
    rw [isFreeChain, chainOK_iff_chainSeg] at hch6 ⊢
    have hflE : E.free_list = h6.free_list := by rw [hEdef]; rfl
    rw [hflE]
    refine chainSeg_frame h6 E _ _ _ _ ?_ hch6
    intro x hx
    rcases List.mem_cons.mp hx with rfl | hx
    · constructor
      · rw [hEdef, PUT_mem, if_neg (by omega), PUT_mem, if_neg (by omega)]
      · rw [hEdef, PUT_mem, if_neg (by omega), PUT_mem, if_neg (by omega)]
    · obtain ⟨hxf, hxb⟩ := hmemsub x hx
      have hA1 := havoidAll (bp + n - 8) (by omega) (by omega) x hxf hxb
      have hA2 := havoidAll (bp + S - 16) (by omega) (by omega) x hxf hxb
      constructor
      · rw [hEdef, PUT_mem, if_neg (by omega), PUT_mem, if_neg (by omega)]
      · rw [hEdef, PUT_mem, if_neg (by omega), PUT_mem, if_neg (by omega)]
  -- bookkeeping: page-provider state is untouched
  have hEmaps : E.maps = h.maps := by
    rw [hEdef, PUT_maps, PUT_maps, hh6def, addToFreeList_maps, hh5def,
      PUT_maps, PUT_maps, PUT_maps, PUT_maps, hh1def, hmaps1]
  have hEhi : E.hi = h.hi := by
    rw [hEdef, PUT_hi, PUT_hi, hh6def, addToFreeList_hi, hh5def,
      PUT_hi, PUT_hi, PUT_hi, PUT_hi, hh1def, hhi1]
  -- frame rule for everything outside the active window
  have hag : ∀ A : Nat, ¬(bp - 8 ≤ A ∧ A < bp + S - 8) →
      (∀ x ∈ fl, x ≠ bp → A ≠ x ∧ A ≠ x + 8) → E.mem A = h.mem A := by
    intro A hw hfld
    have hc : ¬(h1.free_list ≠ 0 ∧ A = h1.free_list + 8) := by
      rintro ⟨hne, hc⟩
      obtain ⟨hmemfl, hnebp⟩ := hfl1mem hne
      exact (hfld _ hmemfl hnebp).2 hc
    rw [hEdef, PUT_mem, if_neg (by omega), PUT_mem, if_neg (by omega),
      hh6def, addToFreeList_mem, if_neg (by omega), if_neg (by omega),
      hfl5, if_neg hc, hh5def, PUT_mem, if_neg (by omega), PUT_mem,
      if_neg (by omega), PUT_mem, if_neg (by omega), PUT_mem,
      if_neg (by omega), hh1def]
    exact hag1 A hfld
  have hframe := Repr_frame_active h E pgs fl hR pg hpg bp S hbppos hag
    (by rw [hEmaps]; exact fun e he => he) (by rw [hEhi])
  obtain ⟨hfrOther, hfrS1, hfrS2, hfrS3, hfrPre, hfrPost⟩ := hframe
  have hnotdup := pagesDisjoint_unique pgL pgR pg
    (by rw [hpgs] at hR; exact hR.2.1) (by unfold mem_pagesize at hchsz; omega)
  have hend' : blksEnd (bp + S) post = pg.start + pg.chunk := by
    have he := hend
    rw [hblks, blksEnd_append, ← hbpdef, blksEnd_cons, ← hSdef] at he
    exact he
  have haddr1 : bp + n + (S - n) = bp + S := by omega
  have hpg'repr : pageRepr E { pg with blks := (pre ++ Blk.mk n false true ::
      Blk.mk (S - n) true false :: post) } := by
    refine ⟨hst16, hst8, hch16, hchsz, ?_, ?_, hfrS1, hfrS2, hfrS3, ?_, ?_⟩
    · show (pg.start, pg.chunk) ∈ E.maps
      rw [hEmaps]; exact hmapsM
    · show pg.start + pg.chunk ≤ E.hi
      rw [hEhi]; exact hhiM
    · show blksEnd (pg.start + 32) _ = pg.start + pg.chunk
      rw [blksEnd_append, ← ha0, ← hbpdef, blksEnd_cons, blksEnd_cons]
      simp only
      rw [haddr1]
      exact hend'
    · show blksRepr E (pg.start + 32) _
      rw [blksRepr_append, ← ha0, ← hbpdef]
      refine ⟨hfrPre pre (b :: post) hblks rfl, ?_⟩
      rw [blksRepr_cons]
      refine ⟨by simpa using hE1, ?_, hn16, hn32, fun _ => rfl, ?_⟩
      · show E.mem (bp + n - 16) = n + 1
        exact hE2
      · rw [blksRepr_cons]
        simp only
        refine ⟨?_, ?_, by omega, by omega, by simp, ?_⟩
        · show E.mem (bp + n - 8) = S - n + 0
          rw [hE3]
          omega
        · rw [haddr1]
          show E.mem (bp + S - 16) = S - n + 0
          rw [hE4]
          omega
        · rw [haddr1]
          exact hfrPost pre b post hblks rfl rfl
  have hdisj' : pagesDisjoint (pgL ++ { pg with blks := (pre ++
      Blk.mk n false true :: Blk.mk (S - n) true false :: post) } :: pgR) := by
    have hd := hR.2.1
    rw [hpgs, pagesDisjoint_append, pagesDisjoint_cons] at hd
    rw [pagesDisjoint_append, pagesDisjoint_cons]
    obtain ⟨h1, ⟨h2, h3⟩, h4⟩ := hd
    refine ⟨h1, ⟨fun q hq => h2 q hq, h3⟩, ?_⟩
    intro p hp q hq
    rcases List.mem_cons.mp hq with rfl | hq
    · exact h4 p hp pg (by simp)
    · exact h4 p hp q (by simp [hq])
  have holdFA : pageFreeAddrs pg =
      freeAddrs a0 pre ++ bp :: freeAddrs (bp + S) post := by
    have hd := pageFreeAddrs_decomp pg pre b post hblks hbfree
    rw [← ha0, ← hbpdef, ← hSdef] at hd
    exact hd
  have hnewFA : pageFreeAddrs { pg with blks := (pre ++ Blk.mk n false true ::
      Blk.mk (S - n) true false :: post) } =
      freeAddrs a0 pre ++ (bp + n) :: freeAddrs (bp + S) post := by
    show freeAddrs (pg.start + 32) _ = _
    rw [freeAddrs_append, ← ha0, ← hbpdef, freeAddrs, freeAddrs]
    simp only [if_false, if_true, Bool.false_eq_true, reduceIte]
    rw [haddr1]
  have hmemq : ∀ q, q ∈ pgL ∨ q ∈ pgR → q ∈ pgs ∧ q ≠ pg := by
    intro q hq
    constructor
    · rw [hpgs]
      rcases hq with hq | hq
      · exact List.mem_append.mpr (Or.inl hq)
      · exact List.mem_append.mpr (Or.inr (by simp [hq]))
    · intro hqe
      rcases hq with hq | hq
      · exact hnotdup.1 (hqe ▸ hq)
      · exact hnotdup.2 (hqe ▸ hq)
  refine ⟨?_, hdisj', hchE, ?_, ?_, ?_, by rw [hEhi]; exact hR.2.2.2.2.2.2⟩
  · intro q hq
    rcases List.mem_append.mp hq with hq | hq
    · obtain ⟨hqm, hqne⟩ := hmemq q (Or.inl hq)
      exact hfrOther q hqm hqne
    · rcases List.mem_cons.mp hq with rfl | hq
      · exact hpg'repr
      · obtain ⟨hqm, hqne⟩ := hmemq q (Or.inr hq)
        exact hfrOther q hqm hqne
  · exact List.nodup_cons.mpr ⟨hbpnNotMem, hndE⟩
  · intro m hm
    rcases List.mem_cons.mp hm with rfl | hm
    · refine ⟨{ pg with blks := (pre ++ Blk.mk n false true ::
        Blk.mk (S - n) true false :: post) }, by simp, ?_⟩
      rw [hnewFA]
      simp
    · obtain ⟨hmf, hmb⟩ := hmemsub m hm
      obtain ⟨q, hqm, hmq⟩ := hR.2.2.2.2.1 m hmf
      by_cases hqpg : q = pg
      · rw [hqpg, holdFA] at hmq
        refine ⟨{ pg with blks := (pre ++ Blk.mk n false true ::
          Blk.mk (S - n) true false :: post) }, by simp, ?_⟩
        rw [hnewFA]
        rcases List.mem_append.mp hmq with hmq | hmq
        · exact List.mem_append.mpr (Or.inl hmq)
        · rcases List.mem_cons.mp hmq with rfl | hmq
          · exact absurd rfl hmb
          · exact List.mem_append.mpr (Or.inr (by simp [hmq]))
      · refine ⟨q, ?_, hmq⟩
        rw [hpgs] at hqm
        rcases List.mem_append.mp hqm with hq | hq
        · exact List.mem_append.mpr (Or.inl hq)
        · rcases List.mem_cons.mp hq with rfl | hq
          · exact absurd rfl hqpg
          · exact List.mem_append.mpr (Or.inr (by simp [hq]))
  · intro q hq m hmq
    rcases List.mem_append.mp hq with hq | hq
    all_goals try rcases List.mem_cons.mp hq with rfl | hq
    rotate_left
    · -- q is the rewritten page
      rw [hnewFA] at hmq
      rcases List.mem_append.mp hmq with hmq | hmq
      · have hb := mem_freeAddrs_bounds a0 m pre h hpreR hmq
        have hmfl : m ∈ fl := by
          refine hR.2.2.2.2.2.1 pg hpg m ?_
          rw [holdFA]
          exact List.mem_append.mpr (Or.inl hmq)
        refine List.mem_cons_of_mem _ ?_
        exact (List.Nodup.mem_erase_iff hR.2.2.2.1).mpr ⟨by omega, hmfl⟩
      · rcases List.mem_cons.mp hmq with rfl | hmq
        · exact List.mem_cons_self _ _
        · have hb := mem_freeAddrs_bounds (bp + S) m post h hpostR hmq
          have hmfl : m ∈ fl := by
            refine hR.2.2.2.2.2.1 pg hpg m ?_
            rw [holdFA]
            exact List.mem_append.mpr (Or.inr (by simp [hmq]))
          refine List.mem_cons_of_mem _ ?_
          exact (List.Nodup.mem_erase_iff hR.2.2.2.1).mpr ⟨by omega, hmfl⟩
    -- q is an untouched page (two symmetric cases)
    all_goals {
      obtain ⟨hqm, hqne⟩ := hmemq q (by tauto)
      have hqpr := hR.1 q hqm
      have hb := mem_freeAddrs_bounds (q.start + 32) m q.blks h
        hqpr.2.2.2.2.2.2.2.2.2.2 hmq
      have hqend := hqpr.2.2.2.2.2.2.2.2.2.1
      have hdisjq := pagesDisjoint_get pgs hR.2.1 q hqm pg hpg hqne
      have hmfl : m ∈ fl := hR.2.2.2.2.2.1 q hqm m hmq
      refine List.mem_cons_of_mem _ ?_
      refine (List.Nodup.mem_erase_iff hR.2.2.2.1).mpr ⟨?_, hmfl⟩
      rw [hqend] at hb
      omega }

end MM

namespace MM

/-- Simulation of `set_allocated` in the no-split case: the whole block
stays allocated at its original size and only leaves the free list. -/
theorem set_allocated_spec_nosplit (h : Heap) (pgs : List PageA)
    (fl : List Nat) (hR : Repr h pgs fl) (pgL pgR : List PageA)
    (pg : PageA) (hpgs : pgs = pgL ++ pg :: pgR) (pre : List Blk)
    (b : Blk) (post : List Blk) (hblks : pg.blks = pre ++ b :: post)
    (hbfree : b.free = true) (n : Nat)
    (hns : ¬ b.size - n > 32) :
    Repr (set_allocated h (blksEnd (pg.start + 32) pre) n)
      (pgL ++ { pg with blks := (pre ++ Blk.mk b.size false true :: post) } :: pgR)
      (fl.erase (blksEnd (pg.start + 32) pre)) := by
  have hpg : pg ∈ pgs := by rw [hpgs]; simp
  have hpr := hR.1 pg hpg
  obtain ⟨hst16, hst8, hch16, hchsz, hmapsM, hhiM, hpro1, hpro2, hterm,
    hend, hblksR0⟩ := hpr
  set a0 := pg.start + 32 with ha0
  set bp := blksEnd a0 pre with hbpdef
  set S := b.size with hSdef
  have hblksR := hblksR0
  rw [hblks, blksRepr_append] at hblksR
  obtain ⟨hpreR, hmidR⟩ := hblksR
  rw [← hbpdef, blksRepr_cons] at hmidR
  obtain ⟨hh, hf, hS16, hS32, hfaI, hpostR⟩ := hmidR
  rw [hbfree] at hh
  simp only [if_true] at hh
  have hbppos : (bp, S) ∈ blkAddrsSz a0 pg.blks := by
    rw [hblks]; exact decomp_mem_blkAddrsSz a0 pre b post
  have hbpb := blkAddrsSz_bounds _ _ (bp, S) hbppos
  have hbphi : bp + S ≤ pg.start + pg.chunk := by
    have := hbpb.2; rw [hend] at this; exact this
  have hbplo : a0 ≤ bp := hbpb.1
  have hbfl : bp ∈ fl := by
    refine hR.2.2.2.2.2.1 pg hpg bp ?_
    rw [pageFreeAddrs, hblks]
    exact (mem_freeAddrs _ _ _).mpr ⟨pre, b, post, rfl, hbfree, rfl⟩
  have hfl_al := Repr_fl_aligned h pgs fl hR
  have hrem := removeFromFreeList_spec h fl bp hR.2.2.1 hbfl hR.2.2.2.1 hfl_al
  obtain ⟨hch1, hag1, hhi1, hmaps1, hunmaps1⟩ := hrem
  have havoidAll := Repr_fl_avoid_active h pgs fl hR pg hpg bp S hbppos
  have hmem0 : h.mem (bp - 8) = S := hh
  have hmem1 : (removeFromFreeList h bp).mem (bp - 8) = S := by
    rw [hag1 (bp - 8) ?_]
    · exact hmem0
    · intro x hx hxne
      exact havoidAll (bp - 8) (Nat.le_refl _) (by omega) x hx hxne
  have heq := set_allocated_eq_nosplit h bp n S hS16 hmem0 hmem1 hns
  rw [heq]
  set h1 := removeFromFreeList h bp with hh1def
  set E := PUT (PUT h1 (bp - 8) (S + 1)) (bp + S - 16) (S + 1) with hEdef
  have hE1 : E.mem (bp - 8) = S + 1 := by
    rw [hEdef, PUT_mem, if_neg (by omega), PUT_mem, if_pos rfl]
  have hE4 : E.mem (bp + S - 16) = S + 1 := by
    rw [hEdef, PUT_mem, if_pos rfl]
  have hndE : (fl.erase bp).Nodup := List.Nodup.erase bp hR.2.2.2.1
  have hmemsub : ∀ x ∈ fl.erase bp, x ∈ fl ∧ x ≠ bp := by
    intro x hx
    have := (List.Nodup.mem_erase_iff hR.2.2.2.1).mp hx
    exact ⟨this.2, this.1⟩
  have hchE : isFreeChain E (fl.erase bp) := by
    rw [isFreeChain, chainOK_iff_chainSeg] at hch1 ⊢
    have hflq : E.free_list = h1.free_list := by rw [hEdef]; rfl
    rw [hflq]
    refine chainSeg_frame h1 E _ _ _ _ ?_ hch1
    intro x hx
    obtain ⟨hxf, hxb⟩ := hmemsub x hx
    have hA1 := havoidAll (bp - 8) (Nat.le_refl _) (by omega) x hxf hxb
    have hA2 := havoidAll (bp + S - 16) (by omega) (by omega) x hxf hxb
    constructor
    · rw [hEdef, PUT_mem, if_neg (by omega), PUT_mem, if_neg (by omega)]
    · rw [hEdef, PUT_mem, if_neg (by omega), PUT_mem, if_neg (by omega)]
  have hEmaps : E.maps = h.maps := by
    rw [hEdef, PUT_maps, PUT_maps, hh1def, hmaps1]
  have hEhi : E.hi = h.hi := by
    rw [hEdef, PUT_hi, PUT_hi, hh1def, hhi1]
  have hag : ∀ A : Nat, ¬(bp - 8 ≤ A ∧ A < bp + S - 8) →
      (∀ x ∈ fl, x ≠ bp → A ≠ x ∧ A ≠ x + 8) → E.mem A = h.mem A := by
    intro A hw hfld
    rw [hEdef, PUT_mem, if_neg (by omega), PUT_mem, if_neg (by omega), hh1def]
    exact hag1 A hfld
  have hframe := Repr_frame_active h E pgs fl hR pg hpg bp S hbppos hag
    (by rw [hEmaps]; exact fun e he => he) (by rw [hEhi])
  obtain ⟨hfrOther, hfrS1, hfrS2, hfrS3, hfrPre, hfrPost⟩ := hframe
  have hnotdup := pagesDisjoint_unique pgL pgR pg
    (by rw [hpgs] at hR; exact hR.2.1) (by unfold mem_pagesize at hchsz; omega)
  have hend' : blksEnd (bp + S) post = pg.start + pg.chunk := by
    have he := hend
    rw [hblks, blksEnd_append, ← hbpdef, blksEnd_cons, ← hSdef] at he
    exact he
  have hpg'repr : pageRepr E { pg with blks := (pre ++ Blk.mk S false true :: post) } := by
    refine ⟨hst16, hst8, hch16, hchsz, ?_, ?_, hfrS1, hfrS2, hfrS3, ?_, ?_⟩
    · show (pg.start, pg.chunk) ∈ E.maps
      rw [hEmaps]; exact hmapsM
    · show pg.start + pg.chunk ≤ E.hi
      rw [hEhi]; exact hhiM
    · show blksEnd (pg.start + 32) _ = pg.start + pg.chunk
      rw [blksEnd_append, ← ha0, ← hbpdef, blksEnd_cons]
      exact hend'
    · show blksRepr E (pg.start + 32) _
      rw [blksRepr_append, ← ha0, ← hbpdef]
      refine ⟨hfrPre pre (b :: post) hblks rfl, ?_⟩
      rw [blksRepr_cons]
      simp only
      refine ⟨by simpa using hE1, by simpa using hE4, hS16, hS32,
        by simp, ?_⟩
      exact hfrPost pre b post hblks rfl rfl
  have hdisj' : pagesDisjoint (pgL ++ { pg with blks := (pre ++
      Blk.mk S false true :: post) } :: pgR) := by
    have hd := hR.2.1
    rw [hpgs, pagesDisjoint_append, pagesDisjoint_cons] at hd
    rw [pagesDisjoint_append, pagesDisjoint_cons]
    obtain ⟨h1, ⟨h2, h3⟩, h4⟩ := hd
    refine ⟨h1, ⟨fun q hq => h2 q hq, h3⟩, ?_⟩
    intro p hp q hq
    rcases List.mem_cons.mp hq with rfl | hq
    · exact h4 p hp pg (by simp)
    · exact h4 p hp q (by simp [hq])
  have holdFA : pageFreeAddrs pg =
      freeAddrs a0 pre ++ bp :: freeAddrs (bp + S) post := by
    have hd := pageFreeAddrs_decomp pg pre b post hblks hbfree
    rw [← ha0, ← hbpdef, ← hSdef] at hd
    exact hd
  have hnewFA : pageFreeAddrs { pg with blks := (pre ++
      Blk.mk S false true :: post) } =
      freeAddrs a0 pre ++ freeAddrs (bp + S) post := by
    show freeAddrs (pg.start + 32) _ = _
    rw [freeAddrs_append, ← ha0, ← hbpdef, freeAddrs]
    simp only [Bool.false_eq_true, reduceIte]
  have hmemq : ∀ q, q ∈ pgL ∨ q ∈ pgR → q ∈ pgs ∧ q ≠ pg := by
    intro q hq
    constructor
    · rw [hpgs]
      rcases hq with hq | hq
      · exact List.mem_append.mpr (Or.inl hq)
      · exact List.mem_append.mpr (Or.inr (by simp [hq]))
    · intro hqe
      rcases hq with hq | hq
      · exact hnotdup.1 (hqe ▸ hq)
      · exact hnotdup.2 (hqe ▸ hq)
  refine ⟨?_, hdisj', hchE, hndE, ?_, ?_, by simp only [PUT_hi, hhi1]; exact hR.2.2.2.2.2.2⟩
  · intro q hq
    rcases List.mem_append.mp hq with hq | hq
    · obtain ⟨hqm, hqne⟩ := hmemq q (Or.inl hq)
      exact hfrOther q hqm hqne
    · rcases List.mem_cons.mp hq with rfl | hq
      · exact hpg'repr
      · obtain ⟨hqm, hqne⟩ := hmemq q (Or.inr hq)
        exact hfrOther q hqm hqne
  · intro m hm
    obtain ⟨hmf, hmb⟩ := hmemsub m hm
    obtain ⟨q, hqm, hmq⟩ := hR.2.2.2.2.1 m hmf
    by_cases hqpg : q = pg
    · rw [hqpg, holdFA] at hmq
      refine ⟨{ pg with blks := (pre ++ Blk.mk S false true :: post) },
        by simp, ?_⟩
      rw [hnewFA]
      rcases List.mem_append.mp hmq with hmq | hmq
      · exact List.mem_append.mpr (Or.inl hmq)
      · rcases List.mem_cons.mp hmq with rfl | hmq
        · exact absurd rfl hmb
        · exact List.mem_append.mpr (Or.inr hmq)
    · refine ⟨q, ?_, hmq⟩
      rw [hpgs] at hqm
      rcases List.mem_append.mp hqm with hq | hq
      · exact List.mem_append.mpr (Or.inl hq)
      · rcases List.mem_cons.mp hq with rfl | hq
        · exact absurd rfl hqpg
        · exact List.mem_append.mpr (Or.inr (by simp [hq]))
  · intro q hq m hmq
    rcases List.mem_append.mp hq with hq | hq
    all_goals try rcases List.mem_cons.mp hq with rfl | hq
    rotate_left
    · rw [hnewFA] at hmq
      rcases List.mem_append.mp hmq with hmq | hmq
      · have hb := mem_freeAddrs_bounds a0 m pre h hpreR hmq
        have hmfl : m ∈ fl := by
          refine hR.2.2.2.2.2.1 pg hpg m ?_
          rw [holdFA]
          exact List.mem_append.mpr (Or.inl hmq)
        exact (List.Nodup.mem_erase_iff hR.2.2.2.1).mpr ⟨by omega, hmfl⟩
      · have hb := mem_freeAddrs_bounds (bp + S) m post h hpostR hmq
        have hmfl : m ∈ fl := by
          refine hR.2.2.2.2.2.1 pg hpg m ?_
          rw [holdFA]
          exact List.mem_append.mpr (Or.inr (by simp [hmq]))
        exact (List.Nodup.mem_erase_iff hR.2.2.2.1).mpr ⟨by omega, hmfl⟩
    all_goals {
      obtain ⟨hqm, hqne⟩ := hmemq q (by tauto)
      have hqpr := hR.1 q hqm
      have hb := mem_freeAddrs_bounds (q.start + 32) m q.blks h
        hqpr.2.2.2.2.2.2.2.2.2.2 hmq
      have hqend := hqpr.2.2.2.2.2.2.2.2.2.1
      have hdisjq := pagesDisjoint_get pgs hR.2.1 q hqm pg hpg hqne
      have hmfl : m ∈ fl := hR.2.2.2.2.2.1 q hqm m hmq
      refine (List.Nodup.mem_erase_iff hR.2.2.2.1).mpr ⟨?_, hmfl⟩
      rw [hqend] at hb
      omega }

end MM

namespace MM

/-- Closed form of `extend` (src/mm-2.c lines 108-130): map a fresh
`chunk`-byte region at the high-water mark, write the big free block's
size words `chunk - 8` and the terminator, push the block onto the free
list, carve the 16-byte prolog out of it (re-marking the prolog words to
17 and laying out the remainder block `(chunk - 32, free)` at payload
`hi + 32` as the new free-list head), and return payload `hi + 32`. -/
theorem extend_eq (h : Heap) (s : Nat)
    (hfl : h.free_list ≠ 0 → h.free_list + 16 ≤ h.hi) :
    extend h s =
      (PUT (PUT (addToFreeList (PUT (PUT (PUT (PUT (removeFromFreeList
        (addToFreeList (PUT (PUT (PUT
          { h with hi := h.hi + PAGE_ALIGN (s + PAGE_OVERHEAD + 80000),
                   maps := (h.hi, PAGE_ALIGN (s + PAGE_OVERHEAD + 80000)) :: h.maps }
          (h.hi + 8) (PAGE_ALIGN (s + PAGE_OVERHEAD + 80000) - 8))
          (h.hi + PAGE_ALIGN (s + PAGE_OVERHEAD + 80000) - 16)
          (PAGE_ALIGN (s + PAGE_OVERHEAD + 80000) - 8))
          (h.hi + PAGE_ALIGN (s + PAGE_OVERHEAD + 80000) - 8) 1)
          (h.hi + 16)) (h.hi + 16))
        (h.hi + 8) (PAGE_ALIGN (s + PAGE_OVERHEAD + 80000) - 16 + 1))
        (h.hi + PAGE_ALIGN (s + PAGE_OVERHEAD + 80000) - 16)
        (PAGE_ALIGN (s + PAGE_OVERHEAD + 80000) - 16 + 1))
        (h.hi + 8) 17) (h.hi + 16) 17) (h.hi + 32))
        (h.hi + 24) (PAGE_ALIGN (s + PAGE_OVERHEAD + 80000) - 32))
        (h.hi + PAGE_ALIGN (s + PAGE_OVERHEAD + 80000) - 16)
        (PAGE_ALIGN (s + PAGE_OVERHEAD + 80000) - 32),
       h.hi + 32) := by
  have hckle : s + PAGE_OVERHEAD + 80000 ≤ PAGE_ALIGN (s + PAGE_OVERHEAD + 80000) :=
    PAGE_ALIGN_le _
  have hck4 : PAGE_ALIGN (s + PAGE_OVERHEAD + 80000) % 4096 = 0 :=
    PAGE_ALIGN_mod _
  set ck := PAGE_ALIGN (s + PAGE_OVERHEAD + 80000) with hck
  have hck0 : 80024 ≤ ck := by unfold PAGE_OVERHEAD at hckle; omega
  have hck16 : ck % 16 = 0 := by omega
  simp only [extend, mem_map, createProlog, HDRTOPAY, HDRP, FTRP, NEXT_BLKP,
    OVERHEAD, WSIZE, PACK_zero, ← hck]
  rw [show ALIGN (0 + 16) = 16 from by decide]
  rw [show PACK 0 1 = 1 from by decide]
  rw [show h.hi + 8 + 8 = h.hi + 16 from by omega]
  rw [show h.hi + 16 - 8 = h.hi + 8 from by omega]
  have hg2 : GET_SIZE (PUT { h with hi := h.hi + ck, maps := (h.hi, ck) :: h.maps }
      (h.hi + 8) (ck - 8)) (h.hi + 8) = ck - 16 := by
    refine GET_SIZE_of_mem _ _ _ 8 ?_ (by omega) (by omega)
    rw [PUT_mem, if_pos rfl]; omega
  rw [hg2]
  rw [show h.hi + 16 + (ck - 16) - 16 = h.hi + ck - 16 from by omega]
  have hg3 : GET_SIZE (PUT (PUT { h with hi := h.hi + ck, maps := (h.hi, ck) :: h.maps }
      (h.hi + 8) (ck - 8)) (h.hi + ck - 16) (ck - 8)) (h.hi + 8) = ck - 16 := by
    refine GET_SIZE_of_mem _ _ _ 8 ?_ (by omega) (by omega)
    rw [PUT_mem, if_neg (by omega), PUT_mem, if_pos rfl]; omega
  rw [hg3]
  rw [show h.hi + 16 + (ck - 16) - 8 = h.hi + ck - 8 from by omega]
  set h4 := PUT (PUT (PUT { h with hi := h.hi + ck, maps := (h.hi, ck) :: h.maps }
    (h.hi + 8) (ck - 8)) (h.hi + ck - 16) (ck - 8)) (h.hi + ck - 8) 1 with hh4
  set h5 := addToFreeList h4 (h.hi + 16) with hh5
  have hfl4 : h4.free_list = h.free_list := by rw [hh4]; rfl
  have hnal : ¬(h4.free_list ≠ 0 ∧ h.hi + 8 = h4.free_list + 8) := by
    rw [hfl4]; rintro ⟨hne, he⟩; have := hfl hne; omega
  have hg5 : h5.mem (h.hi + 8) = ck - 8 := by
    rw [hh5, addToFreeList_mem, if_neg (by omega), if_neg (by omega), if_neg hnal,
      hh4, PUT_mem, if_neg (by omega), PUT_mem, if_neg (by omega), PUT_mem, if_pos rfl]
  have hprev5 : getPrev h5 (h.hi + 16) = h.free_list := by
    rw [getPrev, GET, hh5, addToFreeList_mem, if_neg (by omega), if_pos rfl, hfl4]
  have hnext5 : getNext h5 (h.hi + 16) = 0 := by
    rw [getNext, GET, WSIZE, hh5, addToFreeList_mem, if_pos rfl]
  have hrem : removeFromFreeList h5 (h.hi + 16) =
      if h.free_list = 0 then { h5 with free_list := 0 }
      else { PUT h5 (h.free_list + 8) 0 with free_list := h.free_list } := by
    rw [removeFromFreeList_eq, hprev5, hnext5]
    by_cases hfl0 : h.free_list = 0
    · rw [if_pos ⟨hfl0, rfl⟩, if_pos hfl0]
    · rw [if_neg (fun hc => hfl0 hc.1), if_neg (fun hc => hfl0 hc.1),
        if_pos ⟨hfl0, rfl⟩, if_neg hfl0]
  have hflrem : (removeFromFreeList h5 (h.hi + 16)).free_list ≠ 0 →
      (removeFromFreeList h5 (h.hi + 16)).free_list + 16 ≤ h.hi := by
    rw [hrem]
    by_cases hfl0 : h.free_list = 0
    · rw [if_pos hfl0]; intro hne; exact absurd rfl hne
    · rw [if_neg hfl0]; intro _; exact hfl hfl0
  have hmrem : (removeFromFreeList h5 (h.hi + 16)).mem (h.hi + 8) = ck - 8 := by
    rw [hrem]
    by_cases hfl0 : h.free_list = 0
    · rw [if_pos hfl0]; exact hg5
    · rw [if_neg hfl0]
      show (PUT h5 (h.free_list + 8) 0).mem (h.hi + 8) = ck - 8
      rw [PUT_mem, if_neg (by have := hfl hfl0; omega)]
      exact hg5
  have hget : GET_SIZE h5 (h.hi + 16 - 8) = ck - 16 := by
    rw [show h.hi + 16 - 8 = h.hi + 8 from by omega]
    exact GET_SIZE_of_mem _ _ _ 8 (by rw [hg5]; omega) (by omega) (by omega)
  have hget1 : GET_SIZE (removeFromFreeList h5 (h.hi + 16)) (h.hi + 16 - 8)
      = ck - 16 := by
    rw [show h.hi + 16 - 8 = h.hi + 8 from by omega]
    exact GET_SIZE_of_mem _ _ _ 8 (by rw [hmrem]; omega) (by omega) (by omega)
  have hAvoid : (removeFromFreeList h5 (h.hi + 16)).free_list ≠ 0 →
      ∀ A : Nat, h.hi + 16 - 8 ≤ A → A < h.hi + 16 + (ck - 16) →
      A ≠ (removeFromFreeList h5 (h.hi + 16)).free_list ∧
      A ≠ (removeFromFreeList h5 (h.hi + 16)).free_list + 8 := by
    intro hne A hA1 hA2
    have := hflrem hne
    omega
  have heq := set_allocated_eq_split h5 (h.hi + 16) 16 (ck - 16)
    ((removeFromFreeList h5 (h.hi + 16)).free_list)
    (by omega) (by decide) (by omega) (by omega) (by omega)
    hget hget1 rfl hAvoid
  rw [show h.hi + 16 + 16 - 16 = h.hi + 16 from by omega,
    show h.hi + 16 + 16 - 8 = h.hi + 24 from by omega,
    show h.hi + 16 + 16 = h.hi + 32 from by omega,
    show h.hi + 16 - 8 = h.hi + 8 from by omega,
    show h.hi + 16 + (ck - 16) - 16 = h.hi + ck - 16 from by omega,
    show ck - 16 - 16 = ck - 32 from by omega,
    show (16 : Nat) + 1 = 17 from by omega] at heq
  rw [heq]
  have hmE : (PUT (PUT (addToFreeList (PUT (PUT (PUT (PUT (removeFromFreeList h5
      (h.hi + 16)) (h.hi + 8) (ck - 16 + 1)) (h.hi + ck - 16) (ck - 16 + 1))
      (h.hi + 8) 17) (h.hi + 16) 17) (h.hi + 32)) (h.hi + 24) (ck - 32))
      (h.hi + ck - 16) (ck - 32)).mem (h.hi + 8) = 17 := by
    rw [PUT_mem, if_neg (by omega), PUT_mem, if_neg (by omega), addToFreeList_mem,
      if_neg (by omega), if_neg (by omega), if_neg ?_, PUT_mem, if_neg (by omega),
      PUT_mem, if_pos rfl]
    rintro ⟨hne, he⟩
    simp only [PUT_free_list] at hne he
    have := hflrem hne
    omega
  rw [GET_SIZE_of_mem _ _ 16 1 hmE (by omega) (by omega)]

end MM

namespace MM

/-- Simulation of `extend` at the level of the representation invariant:
a fresh page of `chunk = PAGE_ALIGN(s + PAGE_OVERHEAD + 80000)` bytes is
mapped at the high-water mark and laid out as prolog, one big free block
of `chunk - 32` bytes, and terminator; the big block's payload becomes
the newest free-list member and is returned. -/
theorem extend_spec (h : Heap) (pgs : List PageA) (fl : List Nat)
    (hR : Repr h pgs fl) (s : Nat) :
    Repr (extend h s).1
      (PageA.mk h.hi (PAGE_ALIGN (s + PAGE_OVERHEAD + 80000))
        [Blk.mk (PAGE_ALIGN (s + PAGE_OVERHEAD + 80000) - 32) true false] :: pgs)
      ((h.hi + 32) :: fl) ∧
    (extend h s).2 = h.hi + 32 := by
  obtain ⟨hpgsR, hdisj, hch, hnd, hflp, hpfl, hhik⟩ := id hR
  have h4096 : h.hi % 4096 = 0 := hhik.1
  have h4096b : (4096 : Nat) ≤ h.hi := hhik.2
  have hmemb : ∀ x ∈ fl, x % 16 = 0 ∧ x + 32 ≤ h.hi := by
    intro x hx
    obtain ⟨pg, hpg, s', hbp, hs32, hs16, hx16, hxlo, hxhi⟩ :=
      Repr_fl_loc h pgs fl hR x hx
    have hhi := (hpgsR pg hpg).2.2.2.2.2.1
    exact ⟨hx16, by omega⟩
  have hfields : ∀ x ∈ fl, x + 32 ≤ h.hi := fun x hx => (hmemb x hx).2
  have hal : ∀ x ∈ fl, x % 16 = 0 := fun x hx => (hmemb x hx).1
  have hflmem : h.free_list ≠ 0 → h.free_list ∈ fl := by
    intro hne
    have hhd := isFreeChain_free_list h fl hch
    cases fl with
    | nil => simp at hhd; exact absurd hhd hne
    | cons x xs => rw [hhd]; simp
  have hfl16 : h.free_list ≠ 0 → h.free_list + 16 ≤ h.hi := by
    intro hne
    have := hfields _ (hflmem hne)
    omega
  have hckle : s + PAGE_OVERHEAD + 80000 ≤ PAGE_ALIGN (s + PAGE_OVERHEAD + 80000) :=
    PAGE_ALIGN_le _
  have hck4 : PAGE_ALIGN (s + PAGE_OVERHEAD + 80000) % 4096 = 0 :=
    PAGE_ALIGN_mod _
  have hEq := extend_eq h s hfl16
  set ck := PAGE_ALIGN (s + PAGE_OVERHEAD + 80000) with hck
  have hck0 : 80024 ≤ ck := by unfold PAGE_OVERHEAD at hckle; omega
  have hck16 : ck % 16 = 0 := by omega
  have hE1 := congrArg Prod.fst hEq
  have hE2 := congrArg Prod.snd hEq
  simp only at hE1 hE2
  rw [hE1, hE2]
  set h4 := PUT (PUT (PUT { h with hi := h.hi + ck, maps := (h.hi, ck) :: h.maps }
    (h.hi + 8) (ck - 8)) (h.hi + ck - 16) (ck - 8)) (h.hi + ck - 8) 1 with hh4
  set h5 := addToFreeList h4 (h.hi + 16) with hh5
  have hfl4 : h4.free_list = h.free_list := by rw [hh4]; rfl
  have hch4 : isFreeChain h4 fl := by
    rw [isFreeChain, chainOK_iff_chainSeg] at hch ⊢
    rw [hfl4]
    refine chainSeg_frame h h4 _ _ _ _ ?_ hch
    intro m hm
    have := hfields m hm
    rw [hh4]
    constructor <;>
      rw [PUT_mem, if_neg (by omega), PUT_mem, if_neg (by omega),
        PUT_mem, if_neg (by omega)]
  have hhi16fl : h.hi + 16 ∉ fl := fun hx => by have := hfields _ hx; omega
  have hch5 : isFreeChain h5 ((h.hi + 16) :: fl) := by
    rw [hh5]
    exact addToFreeList_chain h4 fl (h.hi + 16) hch4 (by omega) hhi16fl
      (by omega) hal hnd
  have hnd5 : ((h.hi + 16) :: fl).Nodup := List.nodup_cons.mpr ⟨hhi16fl, hnd⟩
  have hal5 : ∀ x ∈ (h.hi + 16) :: fl, x % 16 = 0 := by
    intro x hx
    rcases List.mem_cons.mp hx with rfl | hx
    · omega
    · exact hal x hx
  have hrem := removeFromFreeList_spec h5 ((h.hi + 16) :: fl) (h.hi + 16)
    hch5 (by simp) hnd5 hal5
  rw [List.erase_cons_head] at hrem
  set h6 := removeFromFreeList h5 (h.hi + 16) with hh6
  set M := PUT (PUT (PUT (PUT h6 (h.hi + 8) (ck - 16 + 1)) (h.hi + ck - 16)
    (ck - 16 + 1)) (h.hi + 8) 17) (h.hi + 16) 17 with hM
  set A7 := addToFreeList M (h.hi + 32) with hA7
  set E := PUT (PUT A7 (h.hi + 24) (ck - 32)) (h.hi + ck - 16) (ck - 32) with hE
  have hag6 : ∀ a : Nat, (∀ x ∈ fl, a ≠ x ∧ a ≠ x + 8) →
      h6.mem a = h5.mem a := by
    intro a hx
    refine hrem.2.1 a ?_
    intro x hxm hxne
    rcases List.mem_cons.mp hxm with rfl | hxm
    · exact absurd rfl hxne
    · exact hx x hxm
  have hMfl : M.free_list = h6.free_list := by
    rw [hM, PUT_free_list, PUT_free_list, PUT_free_list, PUT_free_list]
  have hchM : isFreeChain M fl := by
    have hch6 := hrem.1
    rw [isFreeChain, chainOK_iff_chainSeg] at hch6 ⊢
    rw [hMfl]
    refine chainSeg_frame h6 M _ _ _ _ ?_ hch6
    intro m hm
    have := hfields m hm
    rw [hM]
    constructor <;>
      rw [PUT_mem, if_neg (by omega), PUT_mem, if_neg (by omega),
        PUT_mem, if_neg (by omega), PUT_mem, if_neg (by omega)]
  have hhi32fl : h.hi + 32 ∉ fl := fun hx => by have := hfields _ hx; omega
  have hch7 : isFreeChain A7 ((h.hi + 32) :: fl) := by
    rw [hA7]
    exact addToFreeList_chain M fl (h.hi + 32) hchM (by omega) hhi32fl
      (by omega) hal hnd
  have hchE : isFreeChain E ((h.hi + 32) :: fl) := by
    rw [isFreeChain, chainOK_iff_chainSeg] at hch7 ⊢
    have hEfl : E.free_list = A7.free_list := by
      rw [hE, PUT_free_list, PUT_free_list]
    rw [hEfl]
    refine chainSeg_frame A7 E _ _ _ _ ?_ hch7
    intro m hm
    rcases List.mem_cons.mp hm with rfl | hm
    · constructor <;>
        rw [hE, PUT_mem, if_neg (by omega), PUT_mem, if_neg (by omega)]
    · have := hfields m hm
      constructor <;>
        rw [hE, PUT_mem, if_neg (by omega), PUT_mem, if_neg (by omega)]
  have hfl6mem : h6.free_list ≠ 0 → h6.free_list ∈ fl := by
    intro hne
    have hhd := isFreeChain_free_list h6 fl hrem.1
    cases fl with
    | nil => simp at hhd; exact absurd hhd hne
    | cons x xs => rw [hhd]; simp
  have hfl6 : h6.free_list ≠ 0 → h6.free_list + 16 ≤ h.hi := by
    intro hne
    have := hfields _ (hfl6mem hne)
    omega
  have hgM : ∀ a : Nat, h.hi ≤ a → ¬(M.free_list ≠ 0 ∧ a = M.free_list + 8) := by
    rintro a ha ⟨hne, he⟩
    rw [hMfl] at hne he
    have := hfl6 hne
    omega
  have hg5hi : ∀ a : Nat, h.hi ≤ a → ¬(h4.free_list ≠ 0 ∧ a = h4.free_list + 8) := by
    rintro a ha ⟨hne, he⟩
    rw [hfl4] at hne he
    have := hfl16 hne
    omega
  have hagHi6 : ∀ a : Nat, h.hi ≤ a → h6.mem a = h5.mem a := by
    intro a ha
    refine hag6 a ?_
    intro x hx
    have := hfields x hx
    omega
  have hmE8 : E.mem (h.hi + 8) = 17 := by
    rw [hE, PUT_mem, if_neg (by omega), PUT_mem, if_neg (by omega), hA7,
      addToFreeList_mem, if_neg (by omega), if_neg (by omega),
      if_neg (hgM _ (by omega)), hM, PUT_mem, if_neg (by omega),
      PUT_mem, if_pos rfl]
  have hmE16 : E.mem (h.hi + 16) = 17 := by
    rw [hE, PUT_mem, if_neg (by omega), PUT_mem, if_neg (by omega), hA7,
      addToFreeList_mem, if_neg (by omega), if_neg (by omega),
      if_neg (hgM _ (by omega)), hM, PUT_mem, if_pos rfl]
  have hmEhdr : E.mem (h.hi + 24) = ck - 32 := by
    rw [hE, PUT_mem, if_neg (by omega), PUT_mem, if_pos rfl]
  have hmEftr : E.mem (h.hi + ck - 16) = ck - 32 := by
    rw [hE, PUT_mem, if_pos rfl]
  have hmEterm : E.mem (h.hi + ck - 8) = 1 := by
    rw [hE, PUT_mem, if_neg (by omega), PUT_mem, if_neg (by omega), hA7,
      addToFreeList_mem, if_neg (by omega), if_neg (by omega),
      if_neg (hgM _ (by omega)), hM, PUT_mem, if_neg (by omega),
      PUT_mem, if_neg (by omega), PUT_mem, if_neg (by omega),
      PUT_mem, if_neg (by omega), hagHi6 _ (by omega), hh5,
      addToFreeList_mem, if_neg (by omega), if_neg (by omega),
      if_neg (hg5hi _ (by omega)), hh4, PUT_mem, if_pos rfl]
  have hEmaps : E.maps = (h.hi, ck) :: h.maps := by
    rw [hE, PUT_maps, PUT_maps, hA7, addToFreeList_maps, hM, PUT_maps,
      PUT_maps, PUT_maps, PUT_maps, hh6, hrem.2.2.2.1, hh5,
      addToFreeList_maps, hh4, PUT_maps, PUT_maps, PUT_maps]
  have hEhi : E.hi = h.hi + ck := by
    rw [hE, PUT_hi, PUT_hi, hA7, addToFreeList_hi, hM, PUT_hi,
      PUT_hi, PUT_hi, PUT_hi, hh6, hrem.2.2.1, hh5,
      addToFreeList_hi, hh4, PUT_hi, PUT_hi, PUT_hi]
  have hagOld : ∀ a : Nat, a < h.hi + 8 → (∀ x ∈ fl, a ≠ x ∧ a ≠ x + 8) →
      E.mem a = h.mem a := by
    intro a ha hfldc
    have hgA7 : ¬(M.free_list ≠ 0 ∧ a = M.free_list + 8) := by
      rintro ⟨hne, he⟩
      rw [hMfl] at hne he
      exact (hfldc _ (hfl6mem hne)).2 he
    have hg5f : ¬(h4.free_list ≠ 0 ∧ a = h4.free_list + 8) := by
      rintro ⟨hne, he⟩
      rw [hfl4] at hne he
      exact (hfldc _ (hflmem hne)).2 he
    rw [hE, PUT_mem, if_neg (by omega), PUT_mem, if_neg (by omega), hA7,
      addToFreeList_mem, if_neg (by omega), if_neg (by omega), if_neg hgA7,
      hM, PUT_mem, if_neg (by omega), PUT_mem, if_neg (by omega),
      PUT_mem, if_neg (by omega), PUT_mem, if_neg (by omega),
      hag6 a hfldc, hh5, addToFreeList_mem, if_neg (by omega),
      if_neg (by omega), if_neg hg5f, hh4, PUT_mem, if_neg (by omega),
      PUT_mem, if_neg (by omega), PUT_mem, if_neg (by omega)]
  have holdpg : ∀ q ∈ pgs, pageRepr E q := by
    intro q hq
    obtain ⟨q1, q2, q3, q4, q5, q6, q7, q8, q9, q10, q11⟩ := hpgsR q hq
    have hps : (4096 : Nat) ≤ q.chunk := by unfold mem_pagesize at q4; omega
    have hsent := sentinel_not_field h pgs fl hR q hq
    refine ⟨q1, q2, q3, q4, ?_, ?_, ?_, ?_, ?_, q10, ?_⟩
    · show (q.start, q.chunk) ∈ E.maps
      rw [hEmaps]
      exact List.mem_cons_of_mem _ q5
    · show q.start + q.chunk ≤ E.hi
      rw [hEhi]; omega
    · rw [hagOld _ (by omega) (fun x hx => (hsent x hx).1)]; exact q7
    · rw [hagOld _ (by omega) (fun x hx => (hsent x hx).2.1)]; exact q8
    · rw [hagOld _ (by omega) (fun x hx => (hsent x hx).2.2)]; exact q9
    · refine blksRepr_frame_reads h E _ _ ?_ q11
      intro p hp
      have hnf := struct_read_not_field h pgs fl hR q hq p.1 p.2
        (by simpa using hp)
      have hb := blkAddrsSz_bounds _ _ p hp
      have hsz := blkAddrsSz_sizes h _ _ q11 p hp
      rw [q10] at hb
      constructor
      · exact hagOld _ (by omega) (fun x hx => (hnf x hx).1)
      · exact hagOld _ (by omega) (fun x hx => (hnf x hx).2)
  have hnewpr : pageRepr E (PageA.mk h.hi ck [Blk.mk (ck - 32) true false]) := by
    refine ⟨show h.hi % 16 = 0 from by omega, show 8 ≤ h.hi from by omega,
      show ck % mem_pagesize = 0 from by unfold mem_pagesize; omega,
      show mem_pagesize ≤ ck from by unfold mem_pagesize; omega,
      ?_, ?_, hmE8, hmE16, ?_, ?_, ?_⟩
    · show (h.hi, ck) ∈ E.maps
      rw [hEmaps]
      exact List.mem_cons_self _ _
    · show h.hi + ck ≤ E.hi
      exact hEhi.ge
    · show E.mem (h.hi + ck - 8) = 1
      exact hmEterm
    · show blksEnd (h.hi + 32) [Blk.mk (ck - 32) true false] = h.hi + ck
      rw [blksEnd_cons, blksEnd_nil]
      show h.hi + 32 + (ck - 32) = h.hi + ck
      omega
    · show blksRepr E (h.hi + 32) [Blk.mk (ck - 32) true false]
      rw [blksRepr_cons]
      refine ⟨?_, ?_, show (ck - 32) % 16 = 0 from by omega,
        show 32 ≤ ck - 32 from by omega, by simp, trivial⟩
      · show E.mem (h.hi + 32 - 8) = ck - 32 + 0
        rw [show h.hi + 32 - 8 = h.hi + 24 from by omega, hmEhdr]
        omega
      · show E.mem (h.hi + 32 + (ck - 32) - 16) = ck - 32 + 0
        rw [show h.hi + 32 + (ck - 32) - 16 = h.hi + ck - 16 from by omega, hmEftr]
        omega
  refine ⟨⟨?_, ?_, hchE, ?_, ?_, ?_, ?_⟩, rfl⟩
  · intro q hq
    rcases List.mem_cons.mp hq with rfl | hq
    · exact hnewpr
    · exact holdpg q hq
  · refine ⟨?_, hdisj⟩
    intro q hq
    right
    exact (hpgsR q hq).2.2.2.2.2.1
  · exact List.nodup_cons.mpr ⟨hhi32fl, hnd⟩
  · intro m hm
    rcases List.mem_cons.mp hm with rfl | hm
    · refine ⟨PageA.mk h.hi ck [Blk.mk (ck - 32) true false], by simp, ?_⟩
      show h.hi + 32 ∈ freeAddrs (h.hi + 32) [Blk.mk (ck - 32) true false]
      simp [freeAddrs]
    · obtain ⟨pg, hpg, hm'⟩ := hflp m hm
      exact ⟨pg, List.mem_cons_of_mem _ hpg, hm'⟩
  · intro q hq m hmq
    rcases List.mem_cons.mp hq with rfl | hq
    · have : m ∈ freeAddrs (h.hi + 32) [Blk.mk (ck - 32) true false] := hmq
      simp [freeAddrs] at this
      rw [this]
      exact List.mem_cons_self _ _
    · exact List.mem_cons_of_mem _ (hpfl q hq m hmq)
  · rw [hEhi]
    unfold mem_pagesize
    omega

end MM

namespace MM

theorem PUT_writes (h : Heap) (p v : Nat) :
    (PUT h p v).writes = (p, v) :: h.writes := rfl

/-- `addToFreeList` only prepends to the write log. -/
theorem addToFreeList_writes (h : Heap) (b : Nat) :
    (addToFreeList h b).writes =
      if h.free_list ≠ 0 then
        (b + 8, 0) :: (b, h.free_list) :: (h.free_list + 8, b) :: h.writes
      else (b + 8, 0) :: (b, h.free_list) :: h.writes := by
  simp only [addToFreeList, WSIZE]
  split_ifs with hfl <;> rfl

theorem addToFreeList_writes_mono (h : Heap) (b : Nat) (w : Nat × Nat)
    (hw : w ∈ h.writes) : w ∈ (addToFreeList h b).writes := by
  rw [addToFreeList_writes]
  split_ifs
  · exact List.mem_cons_of_mem _ (List.mem_cons_of_mem _ (List.mem_cons_of_mem _ hw))
  · exact List.mem_cons_of_mem _ (List.mem_cons_of_mem _ hw)

theorem removeFromFreeList_writes_mono (h : Heap) (m : Nat) (w : Nat × Nat)
    (hw : w ∈ h.writes) : w ∈ (removeFromFreeList h m).writes := by
  rw [removeFromFreeList_eq]
  split_ifs
  · exact hw
  · rw [PUT_writes]
    exact List.mem_cons_of_mem _ hw
  · show w ∈ (PUT h (getPrev h m + 8) 0).writes
    rw [PUT_writes]
    exact List.mem_cons_of_mem _ hw
  · rw [PUT_writes]
    refine List.mem_cons_of_mem _ ?_
    rw [PUT_writes]
    exact List.mem_cons_of_mem _ hw

theorem set_allocated_writes_mono (h : Heap) (bp size : Nat) (w : Nat × Nat)
    (hw : w ∈ h.writes) : w ∈ (set_allocated h bp size).writes := by
  have h1 := removeFromFreeList_writes_mono h bp w hw
  simp only [set_allocated]
  split_ifs
  · rw [PUT_writes]
    refine List.mem_cons_of_mem _ ?_
    rw [PUT_writes]
    refine List.mem_cons_of_mem _ ?_
    refine addToFreeList_writes_mono _ _ _ ?_
    rw [PUT_writes]
    refine List.mem_cons_of_mem _ ?_
    rw [PUT_writes]
    refine List.mem_cons_of_mem _ ?_
    rw [PUT_writes]
    refine List.mem_cons_of_mem _ ?_
    rw [PUT_writes]
    exact List.mem_cons_of_mem _ h1
  · rw [PUT_writes]
    refine List.mem_cons_of_mem _ ?_
    rw [PUT_writes]
    exact List.mem_cons_of_mem _ h1

/-- `coalesce` when both neighbours are allocated: the freed block is just
pushed onto the free list; no boundary tag is written. -/
theorem coalesce_eq_noadj (h : Heap) (bp : Nat)
    (hprev : GET_ALLOC h (HDRP (PREV_BLKP h bp)) ≠ 0)
    (hnext : GET_ALLOC h (HDRP (NEXT_BLKP h bp)) ≠ 0) :
    coalesce h bp = (addToFreeList h bp, bp) := by
  simp only [coalesce]
  rw [if_pos ⟨hprev, hnext⟩]

end MM

namespace MM

/-- C4 (amended): when `mm_free` releases a block whose two neighbours
are both allocated, it rewrites only the header word to `(S, free)`; the
footer word is left exactly as it was, so the footer still encodes
`(S, allocated)` — the boundary tags agree on the size but disagree on
the allocation bit. -/
theorem C4_amended (h : Heap) (p S Sp Sn : Nat)
    (hp : 32 ≤ p)
    (hS16 : S % 16 = 0) (hS32 : 32 ≤ S)
    (hhdr : h.mem (p - 8) = S + 1)
    (hftr : h.mem (p + S - 16) = S + 1)
    (hSp16 : Sp % 16 = 0) (hSp : 16 ≤ Sp) (hSpP : Sp + 16 ≤ p)
    (hpf : h.mem (p - 16) = Sp + 1)
    (hph : h.mem (p - Sp - 8) % 2 = 1)
    (hSn16 : Sn % 16 = 0) (hSn0 : Sn ≠ 0)
    (hnh : h.mem (p + S - 8) = Sn + 1)
    (haf : h.free_list ≠ 0 → ∀ A : Nat, p - 16 ≤ A → A < p + S →
      A ≠ h.free_list ∧ A ≠ h.free_list + 8) :
    (mm_free h p).mem (p - 8) = S ∧
    (mm_free h p).mem (p + S - 16) = h.mem (p + S - 16) ∧
    GET_SIZE (mm_free h p) (p - 8) = S ∧
    GET_ALLOC (mm_free h p) (p - 8) = 0 ∧
    GET_SIZE (mm_free h p) (p + S - 16) = S ∧
    GET_ALLOC (mm_free h p) (p + S - 16) = 1 := by
  have e1 : GET_SIZE h (HDRP p) = S :=
    GET_SIZE_of_mem _ _ _ 1 hhdr hS16 (by omega)
  set h1 := PUT h (p - 8) S with hh1
  have hmp16 : h1.mem (p - 16) = Sp + 1 := by
    rw [hh1, PUT_mem, if_neg (by omega)]
    exact hpf
  have hgp16 : GET_SIZE h1 (p - 16) = Sp :=
    GET_SIZE_of_mem _ _ _ 1 hmp16 hSp16 (by omega)
  have hPREV : PREV_BLKP h1 p = p - Sp := by
    unfold PREV_BLKP OVERHEAD
    rw [hgp16]
  have hm8 : h1.mem (p - 8) = S := by
    rw [hh1, PUT_mem, if_pos rfl]
  have hg8 : GET_SIZE h1 (p - 8) = S :=
    GET_SIZE_of_mem _ _ _ 0 (by rw [hm8]; omega) hS16 (by omega)
  have hNEXT : NEXT_BLKP h1 p = p + S := by
    show p + GET_SIZE h1 (HDRP p) = p + S
    rw [show HDRP p = p - 8 from rfl, hg8]
  have hprev : GET_ALLOC h1 (HDRP (PREV_BLKP h1 p)) ≠ 0 := by
    rw [hPREV]
    show GET_ALLOC h1 (p - Sp - 8) ≠ 0
    unfold GET_ALLOC GET
    rw [hh1, PUT_mem, if_neg (by omega)]
    omega
  have hnext : GET_ALLOC h1 (HDRP (NEXT_BLKP h1 p)) ≠ 0 := by
    rw [hNEXT]
    show GET_ALLOC h1 (p + S - 8) ≠ 0
    unfold GET_ALLOC GET
    rw [hh1, PUT_mem, if_neg (by omega), hnh]
    omega
  have hco : coalesce h1 p = (addToFreeList h1 p, p) :=
    coalesce_eq_noadj h1 p hprev hnext
  set h2 := addToFreeList h1 p with hh2
  have hflg : ∀ A : Nat, p - 16 ≤ A → A < p + S →
      ¬(h1.free_list ≠ 0 ∧ A = h1.free_list + 8) := by
    rintro A hA1 hA2 ⟨hne, he⟩
    rw [hh1, PUT_free_list] at hne he
    exact (haf hne A hA1 hA2).2 he
  have hm2 : ∀ A : Nat, p - 16 ≤ A → A < p + S → A ≠ p → A ≠ p + 8 →
      h2.mem A = h1.mem A := by
    intro A hA1 hA2 hA3 hA4
    rw [hh2, addToFreeList_mem, if_neg hA4, if_neg hA3, if_neg (hflg A hA1 hA2)]
  have hm2hdr : h2.mem (p - 8) = S := by
    rw [hm2 (p - 8) (by omega) (by omega) (by omega) (by omega), hm8]
  have hg2hdr : GET_SIZE h2 (p - 8) = S :=
    GET_SIZE_of_mem _ _ _ 0 (by rw [hm2hdr]; omega) hS16 (by omega)
  have hnxt2 : NEXT_BLKP h2 p = p + S := by
    show p + GET_SIZE h2 (HDRP p) = p + S
    rw [show HDRP p = p - 8 from rfl, hg2hdr]
  have hm2n : h2.mem (p + S - 8) = Sn + 1 := by
    rw [hm2 (p + S - 8) (by omega) (by omega) (by omega) (by omega), hh1,
      PUT_mem, if_neg (by omega), hnh]
  have hgn : GET_SIZE h2 (p + S - 8) = Sn :=
    GET_SIZE_of_mem _ _ _ 1 hm2n hSn16 (by omega)
  have hm2f : h2.mem (p + S - 16) = h.mem (p + S - 16) := by
    rw [hm2 (p + S - 16) (by omega) (by omega) (by omega) (by omega), hh1,
      PUT_mem, if_neg (by omega)]
  have hcond : ¬(GET_SIZE h2 (HDRP (NEXT_BLKP h2 p)) = 0 ∧
      GET_SIZE h2 (HDRP (HDRP p)) = ALIGN OVERHEAD) := by
    rintro ⟨hc1, -⟩
    rw [hnxt2, show HDRP (p + S) = p + S - 8 from rfl, hgn] at hc1
    exact hSn0 hc1
  have hfree : mm_free h p = h2 := by
    simp only [mm_free]
    rw [e1, PACK_zero, show HDRP p = p - 8 from rfl, ← hh1]
    simp only [hco]
    rw [if_neg hcond]
  rw [hfree]
  refine ⟨hm2hdr, hm2f, hg2hdr, ?_, ?_, ?_⟩
  · unfold GET_ALLOC GET
    rw [hm2hdr]
    omega
  · exact GET_SIZE_of_mem _ _ _ 1 (by rw [hm2f, hftr]) hS16 (by omega)
  · unfold GET_ALLOC GET
    rw [hm2f, hftr]
    omega

/-- Witness for C4 (amended) at the spec scenario's state after
`init(); a = allocate(100); b = allocate(200)`: freeing `a = 4128`
(both neighbours allocated: the prolog and block `b`) leaves header
`(128, free)` but the untouched footer still reads `(128, allocated)`. -/
theorem C4_amended_witness :
    (mm_free stepB.1 4128).mem (4128 - 8) = 128 ∧
    (mm_free stepB.1 4128).mem (4128 + 128 - 16) = stepB.1.mem (4128 + 128 - 16) ∧
    GET_SIZE (mm_free stepB.1 4128) (4128 - 8) = 128 ∧
    GET_ALLOC (mm_free stepB.1 4128) (4128 - 8) = 0 ∧
    GET_SIZE (mm_free stepB.1 4128) (4128 + 128 - 16) = 128 ∧
    GET_ALLOC (mm_free stepB.1 4128) (4128 + 128 - 16) = 1 := by
  refine C4_amended stepB.1 4128 128 16 224 (by omega) (by omega) (by omega)
    (by decide) (by decide) (by omega) (by omega) (by omega) (by decide)
    (by decide) (by omega) (by omega) (by decide) ?_
  intro hne A hA1 hA2
  have hv : stepB.1.free_list = 4480 := by decide
  rw [hv]
  omega

end MM

namespace MM

/-- C8 (amended): every word `mm_init` writes has its low four bits at
most 1 (sizes with low 4 bits zero, allocation flag in bit 0), except
the two size words of the page's initial large free block, which are
`PACK(init_size - 8, 0) = 20472 ≡ 8 (mod 16)`; likewise `extend` stores
`PACK(chunk_size - 8, 0) ≡ 8 (mod 16)` at the fresh page's first header
word. -/
theorem C8_amended (h : Heap) (s : Nat) :
    ((mm_init initialHeap).writes.all
      (fun w => Nat.ble (w.2 % 16) 1 || w.2 == 20472)) = true ∧
    (4104, 20472) ∈ (mm_init initialHeap).writes ∧
    (24560, 20472) ∈ (mm_init initialHeap).writes ∧
    20472 % 16 = 8 ∧
    (h.hi + 8, PAGE_ALIGN (s + PAGE_OVERHEAD + 80000) - 8) ∈ (extend h s).1.writes ∧
    (PAGE_ALIGN (s + PAGE_OVERHEAD + 80000) - 8) % 16 = 8 := by
  refine ⟨by decide, by decide, by decide, by decide, ?_, ?_⟩
  · simp only [extend, mem_map, createProlog, HDRTOPAY, HDRP, WSIZE, PACK_zero]
    refine set_allocated_writes_mono _ _ _ _ ?_
    refine addToFreeList_writes_mono _ _ _ ?_
    rw [PUT_writes]
    refine List.mem_cons_of_mem _ ?_
    rw [PUT_writes]
    refine List.mem_cons_of_mem _ ?_
    rw [PUT_writes, show h.hi + 8 + 8 - 8 = h.hi + 8 from by omega]
    exact List.mem_cons_self _ _
  · have hm := PAGE_ALIGN_mod (s + PAGE_OVERHEAD + 80000)
    have hle := PAGE_ALIGN_le (s + PAGE_OVERHEAD + 80000)
    have h24 : PAGE_OVERHEAD = 24 := rfl
    omega

end MM

namespace MM

/-- C6: committing a free block of size `S` to an allocation needing
total size `n` (`set_allocated`): the minimum viable block size is
`ALIGN(1 + OVERHEAD) = 32` bytes; if the leftover `S - n` strictly
exceeds it, the block is re-marked `(n, allocated)` and a remainder
block `(S - n, free)` is created at the boundary and inserted at the
head of the Free List; otherwise the entire block stays allocated at
its original size `S` and only leaves the Free List. -/
theorem C6_split_policy (h : Heap) (pgs : List PageA) (fl : List Nat)
    (hR : Repr h pgs fl) (pgL pgR : List PageA) (pg : PageA)
    (hpgs : pgs = pgL ++ pg :: pgR) (pre : List Blk) (b : Blk)
    (post : List Blk) (hblks : pg.blks = pre ++ b :: post)
    (hbfree : b.free = true) (n : Nat) (hn16 : n % 16 = 0)
    (hn32 : 32 ≤ n) :
    ALIGN (1 + OVERHEAD) = 32 ∧
    (b.size - n > ALIGN (1 + OVERHEAD) →
      Repr (set_allocated h (blksEnd (pg.start + 32) pre) n)
        (pgL ++ { pg with blks := (pre ++ Blk.mk n false true ::
            Blk.mk (b.size - n) true false :: post) } :: pgR)
        ((blksEnd (pg.start + 32) pre + n) ::
          fl.erase (blksEnd (pg.start + 32) pre))) ∧
    (¬ b.size - n > ALIGN (1 + OVERHEAD) →
      Repr (set_allocated h (blksEnd (pg.start + 32) pre) n)
        (pgL ++ { pg with blks := (pre ++ Blk.mk b.size false true :: post) } :: pgR)
        (fl.erase (blksEnd (pg.start + 32) pre))) := by
  have hA : ALIGN (1 + OVERHEAD) = 32 := by decide
  refine ⟨hA, ?_, ?_⟩
  · intro hsp
    exact set_allocated_spec_split h pgs fl hR pgL pgR pg hpgs pre b post
      hblks hbfree n hn16 hn32 (by omega)
  · intro hns
    exact set_allocated_spec_nosplit h pgs fl hR pgL pgR pg hpgs pre b post
      hblks hbfree n (by omega)

/-- Witness for C6 at the freshly initialized heap: committing the
initial 20448-byte free block to a 128-byte allocation splits it. -/
theorem C6_witness :
    ALIGN (1 + OVERHEAD) = 32 ∧
    (20448 - 128 > ALIGN (1 + OVERHEAD) →
      Repr (set_allocated hInit 4128 128)
        [PageA.mk 4096 20480 [Blk.mk 128 false true, Blk.mk (20448 - 128) true false]]
        ((4128 + 128) :: [4128].erase 4128)) ∧
    (¬ 20448 - 128 > ALIGN (1 + OVERHEAD) →
      Repr (set_allocated hInit 4128 128)
        [PageA.mk 4096 20480 [Blk.mk 20448 false true]]
        ([4128].erase 4128)) :=
  C6_split_policy hInit [PageA.mk 4096 20480 [Blk.mk 20448 true false]] [4128]
    (by decide) [] [] (PageA.mk 4096 20480 [Blk.mk 20448 true false]) rfl
    [] (Blk.mk 20448 true false) [] rfl rfl 128 (by decide) (by decide)

end MM

namespace MM

/-- Reclaim when the page's sole ordinary block is the one being freed:
no neighbour to coalesce with; the page is unmapped with its original
extent and the free list is unchanged. -/
theorem mm_free_reclaim_sole (h : Heap) (pgs : List PageA) (fl : List Nat)
    (hR : Repr h pgs fl) (pg : PageA) (hpg : pg ∈ pgs) (b : Blk)
    (hblks : pg.blks = [b]) (hbal : b.free = false) :
    (mm_free h (pg.start + 32)).unmaps = (pg.start, pg.chunk) :: h.unmaps ∧
    (pg.start, pg.chunk) ∈ h.maps ∧
    (mm_free h (pg.start + 32)).maps = h.maps ∧
    isFreeChain (mm_free h (pg.start + 32)) fl := by
  obtain ⟨hpgsR, hdisj, hch, hnd, hflp, hpfl, hhik⟩ := id hR
  obtain ⟨hst16, hst8, hch16, hchsz, hmapsM, hhiM, hpro1, hpro2, hterm,
    hend, hblksR⟩ := hpgsR pg hpg
  set p := pg.start + 32 with hpdef
  set S := b.size with hSdef
  rw [hblks, blksEnd_cons, blksEnd_nil] at hend
  rw [hblks, blksRepr_cons] at hblksR
  obtain ⟨hhdr0, -, hS16, hS32, -, -⟩ := hblksR
  rw [hbal] at hhdr0
  have hhdr : h.mem (p - 8) = S + 1 := by simpa using hhdr0
  have hchunk : (4096 : Nat) ≤ pg.chunk := by
    have := hchsz; unfold mem_pagesize at this; omega
  have hfl0mem : h.free_list ≠ 0 → h.free_list ∈ fl := by
    intro hne
    have hhd := isFreeChain_free_list h fl hch
    cases fl with
    | nil => simp at hhd; exact absurd hhd hne
    | cons x xs => rw [hhd]; simp
  have hpnotfl : p ∉ fl := by
    intro hmem
    obtain ⟨q, hq, hmq⟩ := hflp p hmem
    by_cases hqe : q = pg
    · rw [hqe] at hmq
      have hfa : p ∈ freeAddrs (pg.start + 32) pg.blks := hmq
      rw [hblks, mem_freeAddrs] at hfa
      obtain ⟨pre, b', post, hsplit, hbfree', -⟩ := hfa
      cases pre with
      | nil =>
        simp only [List.nil_append, List.cons.injEq] at hsplit
        rw [← hsplit.1, hbal] at hbfree'
        exact absurd hbfree' (by simp)
      | cons c cs =>
        simp only [List.cons_append, List.cons.injEq] at hsplit
        exact absurd hsplit.2 (by simp)
    · have hb := mem_freeAddrs_bounds (q.start + 32) p q.blks h
        ((hpgsR q hq).2.2.2.2.2.2.2.2.2.2) hmq
      have hqend := (hpgsR q hq).2.2.2.2.2.2.2.2.2.1
      rw [hqend] at hb
      have hdisj2 := pagesDisjoint_get pgs hdisj q hq pg hpg hqe
      have hq4096 : (4096 : Nat) ≤ q.chunk := by
        have := (hpgsR q hq).2.2.2.1; unfold mem_pagesize at this; omega
      omega
  have hal := Repr_fl_aligned h pgs fl hR
  have hnf := struct_read_not_field h pgs fl hR pg hpg p S
    (by rw [hblks]; exact List.mem_cons_self _ _)
  have hsent := sentinel_not_field h pgs fl hR pg hpg
  have e1 : GET_SIZE h (HDRP p) = S :=
    GET_SIZE_of_mem _ _ _ 1 hhdr hS16 (by omega)
  set h1 := PUT h (p - 8) S with hh1
  have hm1 : ∀ A : Nat, A ≠ p - 8 → h1.mem A = h.mem A := by
    intro A hA
    rw [hh1, PUT_mem, if_neg hA]
  have hch1 : isFreeChain h1 fl := by
    rw [isFreeChain, chainOK_iff_chainSeg] at hch ⊢
    rw [show h1.free_list = h.free_list from by rw [hh1, PUT_free_list]]
    refine chainSeg_frame h h1 _ _ _ _ ?_ hch
    intro m hm
    exact ⟨hm1 m (Ne.symm (hnf m hm).1.1), hm1 (m + 8) (Ne.symm (hnf m hm).1.2)⟩
  have hp16 : p % 16 = 0 := by omega
  have hgpf1 : GET_SIZE h1 (p - 16) = 16 := by
    refine GET_SIZE_of_mem _ _ _ 1 ?_ (by omega) (by omega)
    rw [hm1 _ (by omega), show p - 16 = pg.start + 16 from by omega, hpro2]
  have hPREV1 : PREV_BLKP h1 p = p - 16 := by
    show p - GET_SIZE h1 (p - OVERHEAD) = p - 16
    rw [show p - OVERHEAD = p - 16 from rfl, hgpf1]
  have hprev1 : GET_ALLOC h1 (HDRP (PREV_BLKP h1 p)) ≠ 0 := by
    rw [hPREV1]
    show GET_ALLOC h1 (p - 16 - 8) ≠ 0
    unfold GET_ALLOC GET
    rw [show p - 16 - 8 = pg.start + 8 from by omega, hm1 _ (by omega), hpro1]
    omega
  have hg1hdr : GET_SIZE h1 (HDRP p) = S := by
    refine GET_SIZE_of_mem _ _ _ 0 ?_ hS16 (by omega)
    show h1.mem (p - 8) = S + 0
    rw [hh1, PUT_mem, if_pos rfl]
    omega
  have hnext1 : GET_ALLOC h1 (HDRP (NEXT_BLKP h1 p)) ≠ 0 := by
    rw [show NEXT_BLKP h1 p = pg.start + pg.chunk from by
      show p + GET_SIZE h1 (HDRP p) = pg.start + pg.chunk
      rw [hg1hdr]; omega]
    show GET_ALLOC h1 (pg.start + pg.chunk - 8) ≠ 0
    unfold GET_ALLOC GET
    rw [hm1 _ (by omega), hterm]
    omega
  have hco : coalesce h1 p = (addToFreeList h1 p, p) :=
    coalesce_eq_noadj h1 p hprev1 hnext1
  set h2 := addToFreeList h1 p with hh2
  have hch2 : isFreeChain h2 (p :: fl) := by
    rw [hh2]
    exact addToFreeList_chain h1 fl p hch1 (by omega) hpnotfl hp16 hal hnd
  have hgf : ∀ A : Nat, (∀ x ∈ fl, A ≠ x + 8) →
      ¬(h1.free_list ≠ 0 ∧ A = h1.free_list + 8) := by
    rintro A hA ⟨hne, he⟩
    rw [hh1, PUT_free_list] at hne he
    exact hA _ (hfl0mem hne) he
  have hm2 : ∀ A : Nat, A ≠ p → A ≠ p + 8 →
      (∀ x ∈ fl, A ≠ x + 8) → h2.mem A = h1.mem A := by
    intro A h1' h2' h3'
    rw [hh2, addToFreeList_mem, if_neg h2', if_neg h1', if_neg (hgf A h3')]
  have hm2hdr : h2.mem (p - 8) = S := by
    rw [hm2 (p - 8) (by omega) (by omega) (fun x hx => (hnf x hx).1.2),
      hh1, PUT_mem, if_pos rfl]
  have hg2 : GET_SIZE h2 (HDRP p) = S := by
    refine GET_SIZE_of_mem _ _ _ 0 ?_ hS16 (by omega)
    show h2.mem (p - 8) = S + 0
    rw [hm2hdr]
    omega
  have hNEXT2 : NEXT_BLKP h2 p = pg.start + pg.chunk := by
    show p + GET_SIZE h2 (HDRP p) = pg.start + pg.chunk
    rw [hg2]
    omega
  have hmterm2 : h2.mem (pg.start + pg.chunk - 8) = 1 := by
    rw [hm2 (pg.start + pg.chunk - 8) (by omega) (by omega)
      (fun x hx => (hsent x hx).2.2.2), hm1 _ (by omega), hterm]
  have hmpf2 : h2.mem (p - 16) = 17 := by
    rw [hm2 (p - 16) (by omega) (by omega)
      (fun x hx => by rw [show p - 16 = pg.start + 16 from by omega]
                      exact (hsent x hx).2.1.2),
      hm1 _ (by omega), show p - 16 = pg.start + 16 from by omega, hpro2]
  have hcond : GET_SIZE h2 (HDRP (NEXT_BLKP h2 p)) = 0 ∧
      GET_SIZE h2 (HDRP (HDRP p)) = ALIGN OVERHEAD := by
    constructor
    · rw [hNEXT2]
      show GET_SIZE h2 (pg.start + pg.chunk - 8) = 0
      exact GET_SIZE_of_mem _ _ _ 1 (by rw [hmterm2]) (by omega) (by omega)
    · show GET_SIZE h2 (p - 16) = ALIGN OVERHEAD
      rw [show ALIGN OVERHEAD = 16 from by decide]
      exact GET_SIZE_of_mem _ _ _ 1 (by rw [hmpf2]) (by omega) (by omega)
  have hnd2 : (p :: fl).Nodup := List.nodup_cons.mpr ⟨hpnotfl, hnd⟩
  have hal2 : ∀ x ∈ p :: fl, x % 16 = 0 := by
    intro x hx
    rcases List.mem_cons.mp hx with rfl | hx
    · exact hp16
    · exact hal x hx
  have hrem := removeFromFreeList_spec h2 (p :: fl) p hch2 (by simp) hnd2 hal2
  rw [List.erase_cons_head] at hrem
  have hfree : mm_free h p = mem_unmap (removeFromFreeList h2 p) pg.start
      (S + PAGE_OVERHEAD + WSIZE) := by
    simp only [mm_free]
    rw [e1, PACK_zero, show HDRP p = p - 8 from rfl, ← hh1]
    simp only [hco]
    rw [if_pos hcond, hg2,
      show HDRP (HDRP (HDRP (HDRP p))) = pg.start from by
        show p - 8 - 8 - 8 - 8 = pg.start; omega]
  have hSrel : S + PAGE_OVERHEAD + WSIZE = pg.chunk := by
    have h24 : PAGE_OVERHEAD = 24 := rfl
    have h8 : WSIZE = 8 := rfl
    omega
  refine ⟨?_, hmapsM, ?_, ?_⟩
  · rw [hfree]
    show (pg.start, S + PAGE_OVERHEAD + WSIZE) ::
      (removeFromFreeList h2 p).unmaps = (pg.start, pg.chunk) :: h.unmaps
    rw [hSrel, hrem.2.2.2.2, hh2, addToFreeList_unmaps, hh1, PUT_unmaps]
  · rw [hfree]
    show (removeFromFreeList h2 p).maps = h.maps
    rw [hrem.2.2.2.1, hh2, addToFreeList_maps, hh1, PUT_maps]
  · rw [hfree]
    have hch3 := hrem.1
    rw [isFreeChain, chainOK_iff_chainSeg] at hch3 ⊢
    refine chainSeg_frame (removeFromFreeList h2 p) _ _ _ _ _
      (fun m _ => ⟨rfl, rfl⟩) ?_
    exact hch3

end MM

namespace MM

/-- Reading the header of an allocated block out of `Repr`: the stored
size is the block's abstract size and the allocation bit is set. -/
theorem Repr_alloc_header (h : Heap) (pgs : List PageA) (fl : List Nat)
    (hR : Repr h pgs fl) (pg : PageA) (hpg : pg ∈ pgs) (pre : List Blk)
    (b : Blk) (post : List Blk) (hblks : pg.blks = pre ++ b :: post)
    (hbal : b.free = false) :
    GET_SIZE h (HDRP (blksEnd (pg.start + 32) pre)) = b.size ∧
    GET_ALLOC h (HDRP (blksEnd (pg.start + 32) pre)) = 1 := by
  have hblksR := (hR.1 pg hpg).2.2.2.2.2.2.2.2.2.2
  rw [hblks, blksRepr_append, blksRepr_cons] at hblksR
  obtain ⟨-, hhdr, -, hs16, -, -, -⟩ := hblksR
  rw [hbal] at hhdr
  have hhdr2 : h.mem (blksEnd (pg.start + 32) pre - 8) = b.size + 1 := by
    simpa using hhdr
  constructor
  · exact GET_SIZE_of_mem _ _ _ 1 hhdr2 hs16 (by omega)
  · unfold GET_ALLOC GET
    show h.mem (blksEnd (pg.start + 32) pre - 8) % 2 = 1
    rw [hhdr2]
    omega

end MM

namespace MM

/-- C1 (counterexample to the unbounded claim): at `n = 2^32` the C
`int new_size` (src/mm-2.c line 144) truncates the aligned total
`2^32 + 16` to 16, so `mm_malloc` returns the initial block re-marked to
16 bytes — 0 usable payload bytes, far fewer than the `2^32` the claim
promises. -/
theorem C1_counterexample :
    (mm_malloc 50 hInit (2 ^ 32)).2 = 4128 ∧
    GET_SIZE (mm_malloc 50 hInit (2 ^ 32)).1 (HDRP (mm_malloc 50 hInit (2 ^ 32)).2) = 16 ∧
    ¬(2 ^ 32 + OVERHEAD ≤
        GET_SIZE (mm_malloc 50 hInit (2 ^ 32)).1 (HDRP (mm_malloc 50 hInit (2 ^ 32)).2)) ∧
    isFreeChain hInit [4128] := by decide

/-- C1 (amended): for every requested size `n` in the 32-bit regime
(`n + 47 < 2^31`, so the C `int new_size` truncation is the identity),
`mm_malloc` (with loop fuel exceeding the free-list length) returns a
16-byte-aligned payload pointer designating an allocated block whose
stored size is at least `n + OVERHEAD` — at least `n` usable payload
bytes. -/
theorem C1_amended (h : Heap) (pgs : List PageA)
    (fl : List Nat) (hR : Repr h pgs fl) (n fuel : Nat)
    (hfuel : fl.length < fuel) (hn : n + 47 < 2 ^ 31) :
    (mm_malloc fuel h n).2 % 16 = 0 ∧
    n + OVERHEAD ≤ GET_SIZE (mm_malloc fuel h n).1 (HDRP (mm_malloc fuel h n).2) ∧
    GET_ALLOC (mm_malloc fuel h n).1 (HDRP (mm_malloc fuel h n).2) = 1 := by
  have hOV : OVERHEAD = 16 := rfl
  have hnsA : (if 16 > n then 16 else n) + OVERHEAD ≤
      ALIGN ((if 16 > n then 16 else n) + OVERHEAD) := ALIGN_le _
  set ns := ALIGN ((if 16 > n then 16 else n) + OVERHEAD) with hns
  have hns16 : ns % 16 = 0 := ALIGN_mod _
  have hnsn : n + 16 ≤ ns := by
    by_cases hc : 16 > n
    · rw [if_pos hc] at hnsA; omega
    · rw [if_neg hc] at hnsA; omega
  have hns32 : 32 ≤ ns := by
    by_cases hc : 16 > n
    · rw [if_pos hc] at hnsA; omega
    · rw [if_neg hc] at hnsA; omega
  have hchSeg : chainSeg h h.free_list 0 0 fl := by
    rw [← chainOK_iff_chainSeg]
    exact hR.2.2.1
  cases hfind : findFit h ns h.free_list fuel with
  | some m =>
    have hmm : mm_malloc fuel h n = (set_allocated h m ns, m) := by
      simp only [mm_malloc, int_size_t_small n hn, ← hns, hfind]
    have hfind2 := hfind
    rw [findFit_eq_find h ns fl h.free_list 0 fuel hchSeg hfuel] at hfind2
    have hmem : m ∈ fl := List.mem_of_find?_eq_some hfind2
    have hpred := List.find?_some hfind2
    simp only [decide_eq_true_eq] at hpred
    have hm16 : m % 16 = 0 := Repr_fl_aligned h pgs fl hR m hmem
    obtain ⟨q, hq, hmq⟩ := hR.2.2.2.2.1 m hmem
    rw [pageFreeAddrs, mem_freeAddrs] at hmq
    obtain ⟨pre, b, post, hqblks, hbfree, hmeq⟩ := hmq
    obtain ⟨pgL, pgR, hpgs⟩ := List.append_of_mem hq
    have hblksR := (hR.1 q hq).2.2.2.2.2.2.2.2.2.2
    rw [hqblks, blksRepr_append, blksRepr_cons] at hblksR
    obtain ⟨-, hhdr, -, hs16b, -, -, -⟩ := hblksR
    rw [hbfree] at hhdr
    have hhdr2 : h.mem (blksEnd (q.start + 32) pre - 8) = b.size := by
      simpa using hhdr
    have hgb : GET_SIZE h (HDRP m) = b.size := by
      rw [hmeq]
      refine GET_SIZE_of_mem _ _ _ 0 ?_ hs16b (by omega)
      show h.mem (blksEnd (q.start + 32) pre - 8) = b.size + 0
      rw [hhdr2]
      omega
    have hbge : ns ≤ b.size := by rw [← hgb]; exact hpred
    refine ⟨by rw [hmm]; exact hm16, ?_, ?_⟩
    · by_cases hsp : b.size - ns > 32
      · have hres := set_allocated_spec_split h pgs fl hR pgL pgR q hpgs
          pre b post hqblks hbfree ns hns16 hns32 hsp
        rw [← hmeq] at hres
        have hhd := Repr_alloc_header _ _ _ hres
          { q with blks := (pre ++ Blk.mk ns false true ::
            Blk.mk (b.size - ns) true false :: post) } (by simp) pre
          (Blk.mk ns false true)
          (Blk.mk (b.size - ns) true false :: post) rfl rfl
        rw [show blksEnd (({ q with blks := (pre ++ Blk.mk ns false true ::
          Blk.mk (b.size - ns) true false :: post) } : PageA).start + 32) pre = m
          from by rw [← hmeq]] at hhd
        rw [hmm]
        show n + OVERHEAD ≤ GET_SIZE (set_allocated h m ns) (HDRP m)
        rw [hhd.1]
        show n + OVERHEAD ≤ ns
        omega
      · have hres := set_allocated_spec_nosplit h pgs fl hR pgL pgR q hpgs
          pre b post hqblks hbfree ns hsp
        rw [← hmeq] at hres
        have hhd := Repr_alloc_header _ _ _ hres
          { q with blks := (pre ++ Blk.mk b.size false true :: post) }
          (by simp) pre (Blk.mk b.size false true) post rfl rfl
        rw [show blksEnd (({ q with blks := (pre ++ Blk.mk b.size false true ::
          post) } : PageA).start + 32) pre = m from by rw [← hmeq]] at hhd
        rw [hmm]
        show n + OVERHEAD ≤ GET_SIZE (set_allocated h m ns) (HDRP m)
        rw [hhd.1]
        show n + OVERHEAD ≤ b.size
        omega
    · by_cases hsp : b.size - ns > 32
      · have hres := set_allocated_spec_split h pgs fl hR pgL pgR q hpgs
          pre b post hqblks hbfree ns hns16 hns32 hsp
        rw [← hmeq] at hres
        have hhd := Repr_alloc_header _ _ _ hres
          { q with blks := (pre ++ Blk.mk ns false true ::
            Blk.mk (b.size - ns) true false :: post) } (by simp) pre
          (Blk.mk ns false true)
          (Blk.mk (b.size - ns) true false :: post) rfl rfl
        rw [show blksEnd (({ q with blks := (pre ++ Blk.mk ns false true ::
          Blk.mk (b.size - ns) true false :: post) } : PageA).start + 32) pre = m
          from by rw [← hmeq]] at hhd
        rw [hmm]
        show GET_ALLOC (set_allocated h m ns) (HDRP m) = 1
        exact hhd.2
      · have hres := set_allocated_spec_nosplit h pgs fl hR pgL pgR q hpgs
          pre b post hqblks hbfree ns hsp
        rw [← hmeq] at hres
        have hhd := Repr_alloc_header _ _ _ hres
          { q with blks := (pre ++ Blk.mk b.size false true :: post) }
          (by simp) pre (Blk.mk b.size false true) post rfl rfl
        rw [show blksEnd (({ q with blks := (pre ++ Blk.mk b.size false true ::
          post) } : PageA).start + 32) pre = m from by rw [← hmeq]] at hhd
        rw [hmm]
        show GET_ALLOC (set_allocated h m ns) (HDRP m) = 1
        exact hhd.2
  | none =>
    have hmm : mm_malloc fuel h n =
        (set_allocated (extend h ns).1 (extend h ns).2 ns, (extend h ns).2) := by
      simp only [mm_malloc, int_size_t_small n hn, ← hns, hfind]
    have h24 : PAGE_OVERHEAD = 24 := rfl
    have hckle : ns + PAGE_OVERHEAD + 80000 ≤
        PAGE_ALIGN (ns + PAGE_OVERHEAD + 80000) := PAGE_ALIGN_le _
    obtain ⟨hres, heb⟩ := extend_spec h pgs fl hR ns
    set ck := PAGE_ALIGN (ns + PAGE_OVERHEAD + 80000) with hck
    have hsp : (Blk.mk (ck - 32) true false).size - ns > 32 := by
      show ck - 32 - ns > 32
      omega
    have hres2 := set_allocated_spec_split (extend h ns).1
      (PageA.mk h.hi ck [Blk.mk (ck - 32) true false] :: pgs)
      ((h.hi + 32) :: fl) hres []
      pgs (PageA.mk h.hi ck [Blk.mk (ck - 32) true false]) rfl []
      (Blk.mk (ck - 32) true false) [] rfl rfl ns hns16 hns32 hsp
    have hbe : blksEnd ((PageA.mk h.hi ck [Blk.mk (ck - 32) true false]).start + 32)
        ([] : List Blk) = h.hi + 32 := rfl
    rw [hbe] at hres2
    have hhd := Repr_alloc_header _ _ _ hres2
      { PageA.mk h.hi ck [Blk.mk (ck - 32) true false] with
        blks := ([] ++ Blk.mk ns false true ::
          Blk.mk ((Blk.mk (ck - 32) true false).size - ns) true false :: []) }
      (by simp) [] (Blk.mk ns false true)
      (Blk.mk ((Blk.mk (ck - 32) true false).size - ns) true false :: []) rfl rfl
    have hbe2 : blksEnd (({ PageA.mk h.hi ck [Blk.mk (ck - 32) true false] with
        blks := ([] ++ Blk.mk ns false true ::
          Blk.mk ((Blk.mk (ck - 32) true false).size - ns) true false :: []) } :
        PageA).start + 32) ([] : List Blk) = h.hi + 32 := rfl
    rw [hbe2] at hhd
    have hhi16 : (h.hi + 32) % 16 = 0 := by
      have := hR.2.2.2.2.2.2.1
      unfold mem_pagesize at this
      omega
    refine ⟨?_, ?_, ?_⟩
    · rw [hmm]
      show (extend h ns).2 % 16 = 0
      rw [heb]
      exact hhi16
    · rw [hmm]
      show n + OVERHEAD ≤ GET_SIZE (set_allocated (extend h ns).1 (extend h ns).2 ns)
        (HDRP (extend h ns).2)
      rw [heb, hhd.1]
      show n + OVERHEAD ≤ ns
      omega
    · rw [hmm]
      show GET_ALLOC (set_allocated (extend h ns).1 (extend h ns).2 ns)
        (HDRP (extend h ns).2) = 1
      rw [heb]
      exact hhd.2

/-- Witness for C1 (amended) at the fresh heap: `mm_malloc 100` returns
a 16-byte aligned block of at least 100 usable bytes, marked allocated. -/
theorem C1_amended_witness :
    (mm_malloc 50 hInit 100).2 % 16 = 0 ∧
    100 + OVERHEAD ≤ GET_SIZE (mm_malloc 50 hInit 100).1 (HDRP (mm_malloc 50 hInit 100).2) ∧
    GET_ALLOC (mm_malloc 50 hInit 100).1 (HDRP (mm_malloc 50 hInit 100).2) = 1 :=
  C1_amended hInit [PageA.mk 4096 20480 [Blk.mk 20448 true false]]
    [4128] (by decide) 100 50 (by decide) (by decide)

end MM

namespace MM

/-- A nonempty well-formed chain's tail pointer is a member. -/
theorem isFreeChain_head_mem (h : Heap) (L : List Nat) (hch : isFreeChain h L)
    (hne : h.free_list ≠ 0) : h.free_list ∈ L := by
  have hhd := isFreeChain_free_list h L hch
  cases L with
  | nil => simp at hhd; exact absurd hhd hne
  | cons x xs => rw [hhd]; simp

/-- `addToFreeList` leaves every word alone that is not one of the new
block's two fields and not the old head's `next` field. -/
theorem addToFreeList_mem_frame (h : Heap) (L : List Nat) (b a : Nat)
    (hch : isFreeChain h L) (ha1 : a ≠ b) (ha2 : a ≠ b + 8)
    (ha3 : ∀ x ∈ L, a ≠ x + 8) :
    (addToFreeList h b).mem a = h.mem a := by
  rw [addToFreeList_mem, if_neg ha2, if_neg ha1, if_neg ?_]
  rintro ⟨hne, he⟩
  exact ha3 _ (isFreeChain_head_mem h L hch hne) he

/-- A run of blocks of positive sizes decomposes uniquely at a given
payload address. -/
theorem blks_decomp_unique (bs : List Blk) (a : Nat)
    (hsz : ∀ c ∈ bs, 0 < c.size) :
    ∀ (pre : List Blk) (b : Blk) (post : List Blk)
      (pre' : List Blk) (b' : Blk) (post' : List Blk),
      bs = pre ++ b :: post → bs = pre' ++ b' :: post' →
      blksEnd a pre = blksEnd a pre' → pre = pre' ∧ b = b' ∧ post = post' := by
  induction bs generalizing a with
  | nil =>
    intro pre b post pre' b' post' h1 _ _
    exact absurd h1.symm (by simp)
  | cons c cs ih =>
    intro pre b post pre' b' post' h1 h2 he
    cases pre with
    | nil =>
      cases pre' with
      | nil =>
        simp only [List.nil_append, List.cons.injEq] at h1 h2
        refine ⟨rfl, ?_, ?_⟩
        · rw [← h1.1, h2.1]
        · rw [← h1.2, h2.2]
      | cons d ds =>
        simp only [List.nil_append, List.cons_append, List.cons.injEq] at h1 h2
        rw [blksEnd_nil, blksEnd_cons] at he
        have hd : 0 < d.size := h2.1 ▸ hsz c (by simp)
        have := blksEnd_le (a + d.size) ds
        omega
    | cons d ds =>
      cases pre' with
      | nil =>
        simp only [List.nil_append, List.cons_append, List.cons.injEq] at h1 h2
        rw [blksEnd_nil, blksEnd_cons] at he
        have hd : 0 < d.size := h1.1 ▸ hsz c (by simp)
        have := blksEnd_le (a + d.size) ds
        omega
      | cons d' ds' =>
        simp only [List.cons_append, List.cons.injEq] at h1 h2
        rw [blksEnd_cons, blksEnd_cons] at he
        have hdd : d = d' := by rw [← h1.1, h2.1]
        have hrec := ih (a + c.size) (fun x hx => hsz x (by simp [hx]))
          ds b post ds' b' post' h1.2 h2.2
          (by rw [← h1.1, ← h2.1] at he; exact he)
        exact ⟨by rw [hdd, hrec.1], hrec.2.1, hrec.2.2⟩

/-- The payload of an allocated block is never a free-list member. -/
theorem Repr_alloc_not_fl (h : Heap) (pgs : List PageA) (fl : List Nat)
    (hR : Repr h pgs fl) (pg : PageA) (hpg : pg ∈ pgs) (pre : List Blk)
    (b : Blk) (post : List Blk) (hblks : pg.blks = pre ++ b :: post)
    (hbal : b.free = false) : blksEnd (pg.start + 32) pre ∉ fl := by
  intro hm
  obtain ⟨q, hq, hmq⟩ := hR.2.2.2.2.1 _ hm
  by_cases hqe : q = pg
  · rw [hqe] at hmq
    rw [pageFreeAddrs, mem_freeAddrs] at hmq
    obtain ⟨pre', b', post', hq2, hbfree', hmeq⟩ := hmq
    have hsz : ∀ c ∈ pg.blks, 0 < c.size := by
      intro c hc
      have := blksRepr_sizes h _ _ ((hR.1 pg hpg).2.2.2.2.2.2.2.2.2.2) c hc
      omega
    obtain ⟨-, hbb, -⟩ := blks_decomp_unique pg.blks (pg.start + 32) hsz
      pre b post pre' b' post' hblks hq2 hmeq
    rw [hbb, hbfree'] at hbal
    exact absurd hbal (by simp)
  · have hb := mem_freeAddrs_bounds (q.start + 32) _ q.blks h
      ((hR.1 q hq).2.2.2.2.2.2.2.2.2.2) hmq
    have hqend := (hR.1 q hq).2.2.2.2.2.2.2.2.2.1
    rw [hqend] at hb
    have hdisj2 := pagesDisjoint_get pgs hR.2.1 q hq pg hpg hqe
    have hpend := (hR.1 pg hpg).2.2.2.2.2.2.2.2.2.1
    have hprefix : pg.start + 32 ≤ blksEnd (pg.start + 32) pre := blksEnd_le _ _
    have hbe : blksEnd (pg.start + 32) pre + b.size ≤ pg.start + pg.chunk := by
      have h32 : 32 ≤ b.size := (blksRepr_sizes h _ _
        ((hR.1 pg hpg).2.2.2.2.2.2.2.2.2.2) b (by rw [hblks]; simp)).2
      have := blkAddrsSz_bounds (pg.start + 32) pg.blks
        (blksEnd (pg.start + 32) pre, b.size) ?_
      · rw [hpend] at this; omega
      · rw [hblks, blkAddrsSz_append_mem]
        right
        exact List.mem_cons_self _ _
    have h32b : 32 ≤ b.size := (blksRepr_sizes h _ _
      ((hR.1 pg hpg).2.2.2.2.2.2.2.2.2.2) b (by rw [hblks]; simp)).2
    have hq4096 : (4096 : Nat) ≤ q.chunk := by
      have := (hR.1 q hq).2.2.2.1; unfold mem_pagesize at this; omega
    omega

end MM

namespace MM

/-- Common tail of every page reclaim: once coalescing has produced the
block at payload `pg.start + 32` whose clean header stores
`pg.chunk - 32`, with the Terminator word after it and the Prolog footer
before it, `mm_free` passes the sentinel test, removes that block from
the free list, and unmaps `(pg.start, pg.chunk)` exactly. -/
theorem mm_free_reclaim_tail (h h' : Heap) (p : Nat) (pg : PageA)
    (L : List Nat)
    (hstart8 : 8 ≤ pg.start) (hck : 4096 ≤ pg.chunk)
    (hck16 : pg.chunk % 16 = 0)
    (hco : coalesce (PUT h (HDRP p) (PACK (GET_SIZE h (HDRP p)) 0)) p
      = (h', pg.start + 32))
    (hch : isFreeChain h' L) (hmemL : pg.start + 32 ∈ L) (hnd : L.Nodup)
    (hal : ∀ x ∈ L, x % 16 = 0)
    (hhdr : h'.mem (pg.start + 32 - 8) = pg.chunk - 32)
    (hterm : h'.mem (pg.start + pg.chunk - 8) = 1)
    (hpf : h'.mem (pg.start + 16) = 17) :
    (mm_free h p).unmaps = (pg.start, pg.chunk) :: h'.unmaps ∧
    (mm_free h p).maps = h'.maps ∧
    isFreeChain (mm_free h p) (L.erase (pg.start + 32)) := by
  set a0 := pg.start + 32 with ha0
  have hgH : GET_SIZE h' (HDRP a0) = pg.chunk - 32 := by
    refine GET_SIZE_of_mem _ _ _ 0 ?_ (by omega) (by omega)
    show h'.mem (a0 - 8) = pg.chunk - 32 + 0
    rw [hhdr]
    omega
  have hNEXT : NEXT_BLKP h' a0 = pg.start + pg.chunk := by
    show a0 + GET_SIZE h' (HDRP a0) = pg.start + pg.chunk
    rw [hgH]
    omega
  have hcond : GET_SIZE h' (HDRP (NEXT_BLKP h' a0)) = 0 ∧
      GET_SIZE h' (HDRP (HDRP a0)) = ALIGN OVERHEAD := by
    constructor
    · rw [hNEXT]
      show GET_SIZE h' (pg.start + pg.chunk - 8) = 0
      exact GET_SIZE_of_mem _ _ _ 1 (by rw [hterm]) (by omega) (by omega)
    · show GET_SIZE h' (a0 - 16) = ALIGN OVERHEAD
      rw [show ALIGN OVERHEAD = 16 from by decide,
        show a0 - 16 = pg.start + 16 from by omega]
      exact GET_SIZE_of_mem _ _ _ 1 (by rw [hpf]) (by omega) (by omega)
  have hrem := removeFromFreeList_spec h' L a0 hch hmemL hnd hal
  have h24 : PAGE_OVERHEAD = 24 := rfl
  have h8 : WSIZE = 8 := rfl
  have hfree : mm_free h p = mem_unmap (removeFromFreeList h' a0)
      pg.start pg.chunk := by
    simp only [mm_free, hco]
    rw [if_pos hcond, hgH,
      show pg.chunk - 32 + PAGE_OVERHEAD + WSIZE = pg.chunk from by omega,
      show HDRP (HDRP (HDRP (HDRP a0))) = pg.start from by
        show a0 - 8 - 8 - 8 - 8 = pg.start; omega]
  refine ⟨?_, ?_, ?_⟩
  · rw [hfree]
    show (pg.start, pg.chunk) :: (removeFromFreeList h' a0).unmaps =
      (pg.start, pg.chunk) :: h'.unmaps
    rw [hrem.2.2.2.2]
  · rw [hfree]
    show (removeFromFreeList h' a0).maps = h'.maps
    exact hrem.2.2.2.1
  · rw [hfree]
    have hch3 := hrem.1
    rw [isFreeChain, chainOK_iff_chainSeg] at hch3 ⊢
    refine chainSeg_frame (removeFromFreeList h' a0) _ _ _ _ _
      (fun m _ => ⟨rfl, rfl⟩) ?_
    exact hch3

end MM

namespace MM

/-- Reclaim after a "next free" coalesce: the page holds an allocated
block followed by one free block; freeing the first merges them and the
page is returned whole. -/
theorem mm_free_reclaim_next (h : Heap) (pgs : List PageA) (fl : List Nat)
    (hR : Repr h pgs fl) (pg : PageA) (hpg : pg ∈ pgs) (b f : Blk)
    (hblks : pg.blks = [b, f]) (hbal : b.free = false)
    (hffree : f.free = true) :
    (mm_free h (pg.start + 32)).unmaps = (pg.start, pg.chunk) :: h.unmaps ∧
    (pg.start, pg.chunk) ∈ h.maps ∧
    (mm_free h (pg.start + 32)).maps = h.maps ∧
    isFreeChain (mm_free h (pg.start + 32))
      (fl.erase (pg.start + 32 + b.size)) := by
  obtain ⟨hpgsR, hdisj, hch, hnd, hflp, hpfl, hhik⟩ := id hR
  obtain ⟨hst16, hst8, hch16, hchsz, hmapsM, hhiM, hpro1, hpro2, hterm,
    hend, hblksR⟩ := hpgsR pg hpg
  rw [hblks, blksEnd_cons, blksEnd_cons, blksEnd_nil] at hend
  rw [hblks, blksRepr_cons] at hblksR
  obtain ⟨hbh0, hbf0, hSb16, hSb32, hbfa, hblksR2⟩ := hblksR
  rw [blksRepr_cons] at hblksR2
  obtain ⟨hfh0, hff0, hSf16, hSf32, -, -⟩ := hblksR2
  rw [hbal] at hbh0
  rw [hffree] at hfh0
  set a0 := pg.start + 32 with ha0
  set Sb := b.size with hSbd
  set Sf := f.size with hSfd
  have hbh : h.mem (a0 - 8) = Sb + 1 := by simpa using hbh0
  have hfh : h.mem (a0 + Sb - 8) = Sf := by simpa using hfh0
  have hchunk : (4096 : Nat) ≤ pg.chunk := by
    have := hchsz; unfold mem_pagesize at this; omega
  have hal := Repr_fl_aligned h pgs fl hR
  have ha0nfl : a0 ∉ fl :=
    Repr_alloc_not_fl h pgs fl hR pg hpg [] b [f] hblks hbal
  have hpffl : a0 + Sb ∈ fl := by
    refine hpfl pg hpg _ ?_
    show a0 + Sb ∈ freeAddrs (pg.start + 32) pg.blks
    rw [hblks]
    simp [freeAddrs, hbal, hffree]
  have hnfb := struct_read_not_field h pgs fl hR pg hpg a0 Sb
    (by rw [hblks]; exact List.mem_cons_self _ _)
  have hnff := struct_read_not_field h pgs fl hR pg hpg (a0 + Sb) Sf
    (by rw [hblks]; exact List.mem_cons_of_mem _ (List.mem_cons_self _ _))
  have hsent := sentinel_not_field h pgs fl hR pg hpg
  have e1 : GET_SIZE h (HDRP a0) = Sb :=
    GET_SIZE_of_mem _ _ _ 1 hbh hSb16 (by omega)
  set h1 := PUT h (a0 - 8) Sb with hh1
  have hm1 : ∀ A : Nat, A ≠ a0 - 8 → h1.mem A = h.mem A := by
    intro A hA
    rw [hh1, PUT_mem, if_neg hA]
  have hch1 : isFreeChain h1 fl := by
    rw [isFreeChain, chainOK_iff_chainSeg] at hch ⊢
    rw [show h1.free_list = h.free_list from by rw [hh1, PUT_free_list]]
    refine chainSeg_frame h h1 _ _ _ _ ?_ hch
    intro m hm
    exact ⟨hm1 m (Ne.symm (hnfb m hm).1.1), hm1 (m + 8) (Ne.symm (hnfb m hm).1.2)⟩
  have hg1hdr : GET_SIZE h1 (HDRP a0) = Sb := by
    refine GET_SIZE_of_mem _ _ _ 0 ?_ hSb16 (by omega)
    show h1.mem (a0 - 8) = Sb + 0
    rw [hh1, PUT_mem, if_pos rfl]
    omega
  have hgpf1 : GET_SIZE h1 (a0 - 16) = 16 := by
    refine GET_SIZE_of_mem _ _ _ 1 ?_ (by omega) (by omega)
    rw [hm1 _ (by omega), show a0 - 16 = pg.start + 16 from by omega, hpro2]
  have hPREV1 : PREV_BLKP h1 a0 = a0 - 16 := by
    show a0 - GET_SIZE h1 (a0 - OVERHEAD) = a0 - 16
    rw [show a0 - OVERHEAD = a0 - 16 from rfl, hgpf1]
  have hprev1 : GET_ALLOC h1 (HDRP (PREV_BLKP h1 a0)) ≠ 0 := by
    rw [hPREV1]
    show GET_ALLOC h1 (a0 - 16 - 8) ≠ 0
    unfold GET_ALLOC GET
    rw [show a0 - 16 - 8 = pg.start + 8 from by omega, hm1 _ (by omega), hpro1]
    omega
  have hNEXT1 : NEXT_BLKP h1 a0 = a0 + Sb := by
    show a0 + GET_SIZE h1 (HDRP a0) = a0 + Sb
    rw [hg1hdr]
  have hmfh1 : h1.mem (a0 + Sb - 8) = Sf := by
    rw [hm1 _ (by omega)]
    exact hfh
  have hnext1 : GET_ALLOC h1 (HDRP (NEXT_BLKP h1 a0)) = 0 := by
    rw [hNEXT1]
    show GET_ALLOC h1 (a0 + Sb - 8) = 0
    unfold GET_ALLOC GET
    rw [hmfh1]
    omega
  have hrem1 := removeFromFreeList_spec h1 fl (a0 + Sb) hch1 hpffl hnd hal
  have hag2 : ∀ A : Nat, (∀ x ∈ fl, A ≠ x ∧ A ≠ x + 8) →
      (removeFromFreeList h1 (a0 + Sb)).mem A = h1.mem A := by
    intro A hA
    exact hrem1.2.1 A (fun x hx _ => hA x hx)
  set h2c := removeFromFreeList h1 (a0 + Sb) with hh2c
  have hg2hdr : GET_SIZE h2c (HDRP a0) = Sb := by
    refine GET_SIZE_of_mem _ _ _ 0 ?_ hSb16 (by omega)
    show h2c.mem (a0 - 8) = Sb + 0
    rw [hag2 _ (fun x hx => (hnfb x hx).1), hh1, PUT_mem, if_pos rfl]
    omega
  have hNEXT2 : NEXT_BLKP h2c a0 = a0 + Sb := by
    show a0 + GET_SIZE h2c (HDRP a0) = a0 + Sb
    rw [hg2hdr]
  have hg2next : GET_SIZE h2c (HDRP (a0 + Sb)) = Sf := by
    refine GET_SIZE_of_mem _ _ _ 0 ?_ hSf16 (by omega)
    show h2c.mem (a0 + Sb - 8) = Sf + 0
    rw [hag2 _ (fun x hx => (hnff x hx).1), hmfh1]
    omega
  have hFTR3 : FTRP (PUT h2c (a0 - 8) (Sb + Sf)) a0 = pg.start + pg.chunk - 16 := by
    show a0 + GET_SIZE (PUT h2c (a0 - 8) (Sb + Sf)) (HDRP a0) - OVERHEAD = _
    have hg3 : GET_SIZE (PUT h2c (a0 - 8) (Sb + Sf)) (HDRP a0) = Sb + Sf := by
      refine GET_SIZE_of_mem _ _ _ 0 ?_ (by omega) (by omega)
      show (PUT h2c (a0 - 8) (Sb + Sf)).mem (a0 - 8) = Sb + Sf + 0
      rw [PUT_mem, if_pos rfl]
      omega
    rw [hg3, show OVERHEAD = 16 from rfl]
    omega
  have hco2 : coalesce h1 a0 = (addToFreeList (PUT (PUT h2c (a0 - 8) (Sb + Sf))
      (pg.start + pg.chunk - 16) (Sb + Sf)) a0, a0) := by
    simp only [coalesce]
    rw [if_neg (fun hc => hc.2 hnext1), if_pos ⟨hprev1, hnext1⟩]
    rw [hNEXT1, ← hh2c, hg1hdr, hNEXT2, hg2next, PACK_zero,
      show HDRP a0 = a0 - 8 from rfl, hFTR3]
  set h4c := PUT (PUT h2c (a0 - 8) (Sb + Sf))
    (pg.start + pg.chunk - 16) (Sb + Sf) with hh4c
  have hch4c : isFreeChain h4c (fl.erase (a0 + Sb)) := by
    have hch2 := hrem1.1
    rw [isFreeChain, chainOK_iff_chainSeg] at hch2 ⊢
    rw [show h4c.free_list = h2c.free_list from by rw [hh4c]; rfl]
    refine chainSeg_frame h2c h4c _ _ _ _ ?_ hch2
    intro m hm
    have hmfl : m ∈ fl := List.mem_of_mem_erase hm
    have h1' := (hnfb m hmfl).1
    have h2' := (hnff m hmfl).2
    constructor <;>
      rw [hh4c, PUT_mem, if_neg (by omega), PUT_mem, if_neg (by omega)]
  have hch' : isFreeChain (addToFreeList h4c a0) (a0 :: fl.erase (a0 + Sb)) :=
    addToFreeList_chain h4c _ a0 hch4c (by omega)
      (fun hx => ha0nfl (List.mem_of_mem_erase hx)) (by omega)
      (fun x hx => hal x (List.mem_of_mem_erase hx)) (List.Nodup.erase _ hnd)
  have hhdr' : (addToFreeList h4c a0).mem (a0 - 8) = pg.chunk - 32 := by
    rw [addToFreeList_mem_frame h4c _ a0 _ hch4c (by omega) (by omega)
      (fun x hx => (hnfb x (List.mem_of_mem_erase hx)).1.2),
      hh4c, PUT_mem, if_neg (by omega), PUT_mem, if_pos rfl]
    omega
  have hterm' : (addToFreeList h4c a0).mem (pg.start + pg.chunk - 8) = 1 := by
    rw [addToFreeList_mem_frame h4c _ a0 _ hch4c (by omega) (by omega)
      (fun x hx => (hsent x (List.mem_of_mem_erase hx)).2.2.2),
      hh4c, PUT_mem, if_neg (by omega), PUT_mem, if_neg (by omega),
      hag2 _ (fun x hx => (hsent x hx).2.2), hm1 _ (by omega), hterm]
  have hpf' : (addToFreeList h4c a0).mem (pg.start + 16) = 17 := by
    rw [addToFreeList_mem_frame h4c _ a0 _ hch4c (by omega) (by omega)
      (fun x hx => (hsent x (List.mem_of_mem_erase hx)).2.1.2),
      hh4c, PUT_mem, if_neg (by omega), PUT_mem, if_neg (by omega),
      hag2 _ (fun x hx => (hsent x hx).2.1), hm1 _ (by omega), hpro2]
  have hmapseq : (addToFreeList h4c a0).maps = h.maps := by
    rw [addToFreeList_maps, hh4c, PUT_maps, PUT_maps, hrem1.2.2.2.1,
      hh1, PUT_maps]
  have hunmapseq : (addToFreeList h4c a0).unmaps = h.unmaps := by
    rw [addToFreeList_unmaps, hh4c, PUT_unmaps, PUT_unmaps, hrem1.2.2.2.2,
      hh1, PUT_unmaps]
  have hco' : coalesce (PUT h (HDRP a0) (PACK (GET_SIZE h (HDRP a0)) 0)) a0
      = (addToFreeList h4c a0, a0) := by
    rw [e1, PACK_zero, show HDRP a0 = a0 - 8 from rfl, ← hh1]
    exact hco2
  have htail := mm_free_reclaim_tail h (addToFreeList h4c a0) a0 pg
    (a0 :: fl.erase (a0 + Sb)) hst8 hchunk
    (by have := hch16; unfold mem_pagesize at this; omega)
    hco' hch' (List.mem_cons_self _ _)
    (List.nodup_cons.mpr ⟨fun hx => ha0nfl (List.mem_of_mem_erase hx),
      List.Nodup.erase _ hnd⟩)
    (by intro x hx
        rcases List.mem_cons.mp hx with rfl | hx
        · omega
        · exact hal x (List.mem_of_mem_erase hx))
    hhdr' hterm' hpf'
  rw [List.erase_cons_head] at htail
  refine ⟨?_, hmapsM, ?_, htail.2.2⟩
  · rw [htail.1, hunmapseq]
  · rw [htail.2.1, hmapseq]

end MM

namespace MM

/-- Reclaim after a "previous free" coalesce: the page holds a free block
followed by an allocated block; freeing the second merges them backwards
and the page is returned whole. -/
theorem mm_free_reclaim_prev (h : Heap) (pgs : List PageA) (fl : List Nat)
    (hR : Repr h pgs fl) (pg : PageA) (hpg : pg ∈ pgs) (f b : Blk)
    (hblks : pg.blks = [f, b]) (hffree : f.free = true)
    (hbal : b.free = false) :
    (mm_free h (pg.start + 32 + f.size)).unmaps
      = (pg.start, pg.chunk) :: h.unmaps ∧
    (pg.start, pg.chunk) ∈ h.maps ∧
    (mm_free h (pg.start + 32 + f.size)).maps = h.maps ∧
    isFreeChain (mm_free h (pg.start + 32 + f.size))
      (fl.erase (pg.start + 32)) := by
  obtain ⟨hpgsR, hdisj, hch, hnd, hflp, hpfl, hhik⟩ := id hR
  obtain ⟨hst16, hst8, hch16, hchsz, hmapsM, hhiM, hpro1, hpro2, hterm,
    hend, hblksR⟩ := hpgsR pg hpg
  rw [hblks, blksEnd_cons, blksEnd_cons, blksEnd_nil] at hend
  rw [hblks, blksRepr_cons] at hblksR
  obtain ⟨hfh0, hff0, hSf16, hSf32, -, hblksR2⟩ := hblksR
  rw [blksRepr_cons] at hblksR2
  obtain ⟨hbh0, hbf0, hSb16, hSb32, -, -⟩ := hblksR2
  rw [hffree] at hfh0
  rw [hbal] at hbh0
  set a0 := pg.start + 32 with ha0
  set Sf := f.size with hSfd
  set Sb := b.size with hSbd
  set p := a0 + Sf with hp
  have hfh : h.mem (a0 - 8) = Sf := by simpa using hfh0
  have hbh : h.mem (p - 8) = Sb + 1 := by simpa using hbh0
  have hchunk : (4096 : Nat) ≤ pg.chunk := by
    have := hchsz; unfold mem_pagesize at this; omega
  have hal := Repr_fl_aligned h pgs fl hR
  have hafl : a0 ∈ fl := by
    refine hpfl pg hpg _ ?_
    show a0 ∈ freeAddrs (pg.start + 32) pg.blks
    rw [hblks]
    simp [freeAddrs, hffree, hbal]
  have hnfF := struct_read_not_field h pgs fl hR pg hpg a0 Sf
    (by rw [hblks]; exact List.mem_cons_self _ _)
  have hnfB := struct_read_not_field h pgs fl hR pg hpg p Sb
    (by rw [hblks]; exact List.mem_cons_of_mem _ (List.mem_cons_self _ _))
  have hsent := sentinel_not_field h pgs fl hR pg hpg
  have e1 : GET_SIZE h (HDRP p) = Sb :=
    GET_SIZE_of_mem _ _ _ 1 hbh hSb16 (by omega)
  set h1 := PUT h (p - 8) Sb with hh1
  have hm1 : ∀ A : Nat, A ≠ p - 8 → h1.mem A = h.mem A := by
    intro A hA
    rw [hh1, PUT_mem, if_neg hA]
  have hg1hdr : GET_SIZE h1 (HDRP p) = Sb := by
    refine GET_SIZE_of_mem _ _ _ 0 ?_ hSb16 (by omega)
    show h1.mem (p - 8) = Sb + 0
    rw [hh1, PUT_mem, if_pos rfl]
    omega
  have hgf : GET_SIZE h1 (p - 16) = Sf := by
    have hmem : h1.mem (p - 16) = Sf + (if f.ftrA = true then 1 else 0) := by
      rw [hm1 _ (by omega)]
      exact hff0
    cases hfa : f.ftrA
    · rw [hfa] at hmem
      simp at hmem
      exact GET_SIZE_of_mem _ _ _ 0 (by rw [hmem]; omega) hSf16 (by omega)
    · rw [hfa] at hmem
      simp at hmem
      exact GET_SIZE_of_mem _ _ _ 1 hmem hSf16 (by omega)
  have hPREV1 : PREV_BLKP h1 p = a0 := by
    show p - GET_SIZE h1 (p - 16) = a0
    rw [hgf]
    omega
  have hg1prev : GET_SIZE h1 (HDRP a0) = Sf := by
    refine GET_SIZE_of_mem _ _ _ 0 ?_ hSf16 (by omega)
    show h1.mem (a0 - 8) = Sf + 0
    rw [hm1 _ (by omega), hfh]
    omega
  have hprev0 : GET_ALLOC h1 (HDRP (PREV_BLKP h1 p)) = 0 := by
    rw [hPREV1]
    show GET_ALLOC h1 (a0 - 8) = 0
    unfold GET_ALLOC GET
    rw [hm1 _ (by omega), hfh]
    omega
  have hNEXT1 : NEXT_BLKP h1 p = pg.start + pg.chunk := by
    show p + GET_SIZE h1 (HDRP p) = pg.start + pg.chunk
    rw [hg1hdr]
    omega
  have hnextne : GET_ALLOC h1 (HDRP (NEXT_BLKP h1 p)) ≠ 0 := by
    rw [hNEXT1]
    show GET_ALLOC h1 (pg.start + pg.chunk - 8) ≠ 0
    unfold GET_ALLOC GET
    rw [hm1 _ (by omega), hterm]
    omega
  have hFTR1 : FTRP h1 p = pg.start + pg.chunk - 16 := by
    show p + GET_SIZE h1 (HDRP p) - OVERHEAD = pg.start + pg.chunk - 16
    rw [hg1hdr, show OVERHEAD = 16 from rfl]
    omega
  set h2 := PUT h1 (pg.start + pg.chunk - 16) (Sb + Sf) with hh2
  have hmemeq2 : h2.mem (p - 16) = h1.mem (p - 16) := by
    rw [hh2, PUT_mem, if_neg (by omega)]
  have hgf2 : GET_SIZE h2 (p - 16) = Sf := by
    unfold GET_SIZE GET at hgf ⊢
    rw [hmemeq2]
    exact hgf
  have hPREV2 : PREV_BLKP h2 p = a0 := by
    show p - GET_SIZE h2 (p - 16) = a0
    rw [hgf2]
    omega
  set h3 := PUT h2 (a0 - 8) (Sb + Sf) with hh3
  have hmemeq3 : h3.mem (p - 16) = h1.mem (p - 16) := by
    rw [hh3, PUT_mem, if_neg (by omega), hh2, PUT_mem, if_neg (by omega)]
  have hgf3 : GET_SIZE h3 (p - 16) = Sf := by
    unfold GET_SIZE GET at hgf ⊢
    rw [hmemeq3]
    exact hgf
  have hPREV3 : PREV_BLKP h3 p = a0 := by
    show p - GET_SIZE h3 (p - 16) = a0
    rw [hgf3]
    omega
  have hco3 : coalesce h1 p = (h3, a0) := by
    simp only [coalesce]
    rw [if_neg (fun hc => hc.1 hprev0), if_neg (fun hc => hc.1 hprev0),
      if_pos ⟨hprev0, hnextne⟩]
    rw [hPREV1, hg1prev, hg1hdr, PACK_zero, hFTR1, ← hh2, hPREV2,
      show HDRP a0 = a0 - 8 from rfl, ← hh3, hPREV3]
  have hm3 : ∀ A : Nat, A ≠ p - 8 → A ≠ pg.start + pg.chunk - 16 →
      A ≠ a0 - 8 → h3.mem A = h.mem A := by
    intro A hA1 hA2 hA3
    rw [hh3, PUT_mem, if_neg hA3, hh2, PUT_mem, if_neg hA2, hm1 _ hA1]
  have hch3 : isFreeChain h3 fl := by
    rw [isFreeChain, chainOK_iff_chainSeg] at hch ⊢
    rw [show h3.free_list = h.free_list from by
      rw [hh3, PUT_free_list, hh2, PUT_free_list, hh1, PUT_free_list]]
    refine chainSeg_frame h h3 _ _ _ _ ?_ hch
    intro m hm
    have hb1 := (hnfB m hm).1
    have hb2 := (hnfB m hm).2
    have hf1 := (hnfF m hm).1
    exact ⟨hm3 m (by omega) (by omega) (by omega),
      hm3 (m + 8) (by omega) (by omega) (by omega)⟩
  have hhdr' : h3.mem (a0 - 8) = pg.chunk - 32 := by
    rw [hh3, PUT_mem, if_pos rfl]
    omega
  have hterm' : h3.mem (pg.start + pg.chunk - 8) = 1 := by
    rw [hm3 _ (by omega) (by omega) (by omega), hterm]
  have hpf' : h3.mem (pg.start + 16) = 17 := by
    rw [hm3 _ (by omega) (by omega) (by omega), hpro2]
  have hmapseq : h3.maps = h.maps := by
    rw [hh3, PUT_maps, hh2, PUT_maps, hh1, PUT_maps]
  have hunmapseq : h3.unmaps = h.unmaps := by
    rw [hh3, PUT_unmaps, hh2, PUT_unmaps, hh1, PUT_unmaps]
  have hco' : coalesce (PUT h (HDRP p) (PACK (GET_SIZE h (HDRP p)) 0)) p
      = (h3, a0) := by
    rw [e1, PACK_zero, show HDRP p = p - 8 from rfl, ← hh1]
    exact hco3
  have htail := mm_free_reclaim_tail h h3 p pg fl hst8 hchunk
    (by have := hch16; unfold mem_pagesize at this; omega)
    hco' hch3 hafl hnd hal hhdr' hterm' hpf'
  refine ⟨?_, hmapsM, ?_, htail.2.2⟩
  · rw [htail.1, hunmapseq]
  · rw [htail.2.1, hmapseq]

end MM

namespace MM

/-- Reclaim after a "both free" coalesce: the page holds free, allocated,
free; freeing the middle block merges all three and the page is returned
whole. -/
theorem mm_free_reclaim_both (h : Heap) (pgs : List PageA) (fl : List Nat)
    (hR : Repr h pgs fl) (pg : PageA) (hpg : pg ∈ pgs) (f b g : Blk)
    (hblks : pg.blks = [f, b, g]) (hffree : f.free = true)
    (hbal : b.free = false) (hgfree : g.free = true) :
    (mm_free h (pg.start + 32 + f.size)).unmaps
      = (pg.start, pg.chunk) :: h.unmaps ∧
    (pg.start, pg.chunk) ∈ h.maps ∧
    (mm_free h (pg.start + 32 + f.size)).maps = h.maps ∧
    isFreeChain (mm_free h (pg.start + 32 + f.size))
      ((fl.erase (pg.start + 32 + f.size + b.size)).erase (pg.start + 32)) := by
  obtain ⟨hpgsR, hdisj, hch, hnd, hflp, hpfl, hhik⟩ := id hR
  obtain ⟨hst16, hst8, hch16, hchsz, hmapsM, hhiM, hpro1, hpro2, hterm,
    hend, hblksR⟩ := hpgsR pg hpg
  rw [hblks, blksEnd_cons, blksEnd_cons, blksEnd_cons, blksEnd_nil] at hend
  rw [hblks, blksRepr_cons] at hblksR
  obtain ⟨hfh0, hff0, hSf16, hSf32, -, hblksR2⟩ := hblksR
  rw [blksRepr_cons] at hblksR2
  obtain ⟨hbh0, hbf0, hSb16, hSb32, -, hblksR3⟩ := hblksR2
  rw [blksRepr_cons] at hblksR3
  obtain ⟨hgh0, hgf0, hSg16, hSg32, -, -⟩ := hblksR3
  rw [hffree] at hfh0
  rw [hbal] at hbh0
  rw [hgfree] at hgh0
  set a0 := pg.start + 32 with ha0
  set Sf := f.size with hSfd
  set Sb := b.size with hSbd
  set Sg := g.size with hSgd
  set p := a0 + Sf with hp
  have hfh : h.mem (a0 - 8) = Sf := by simpa using hfh0
  have hbh : h.mem (p - 8) = Sb + 1 := by simpa using hbh0
  have hgh : h.mem (p + Sb - 8) = Sg := by simpa using hgh0
  have hchunk : (4096 : Nat) ≤ pg.chunk := by
    have := hchsz; unfold mem_pagesize at this; omega
  have hal := Repr_fl_aligned h pgs fl hR
  have hafl : a0 ∈ fl := by
    refine hpfl pg hpg _ ?_
    show a0 ∈ freeAddrs (pg.start + 32) pg.blks
    rw [hblks]
    simp [freeAddrs, hffree, hbal, hgfree]
  have hgfl : p + Sb ∈ fl := by
    refine hpfl pg hpg _ ?_
    show p + Sb ∈ freeAddrs (pg.start + 32) pg.blks
    rw [hblks]
    simp [freeAddrs, hffree, hbal, hgfree]
  have hnfF := struct_read_not_field h pgs fl hR pg hpg a0 Sf
    (by rw [hblks]; exact List.mem_cons_self _ _)
  have hnfB := struct_read_not_field h pgs fl hR pg hpg p Sb
    (by rw [hblks]; exact List.mem_cons_of_mem _ (List.mem_cons_self _ _))
  have hnfG := struct_read_not_field h pgs fl hR pg hpg (p + Sb) Sg
    (by rw [hblks]
        exact List.mem_cons_of_mem _
          (List.mem_cons_of_mem _ (List.mem_cons_self _ _)))
  have hnfF2 : ∀ x ∈ fl, p - 16 ≠ x ∧ p - 16 ≠ x + 8 :=
    fun x hx => (hnfF x hx).2
  have hsent := sentinel_not_field h pgs fl hR pg hpg
  have e1 : GET_SIZE h (HDRP p) = Sb :=
    GET_SIZE_of_mem _ _ _ 1 hbh hSb16 (by omega)
  set h1 := PUT h (p - 8) Sb with hh1
  have hm1 : ∀ A : Nat, A ≠ p - 8 → h1.mem A = h.mem A := by
    intro A hA
    rw [hh1, PUT_mem, if_neg hA]
  have hch1 : isFreeChain h1 fl := by
    rw [isFreeChain, chainOK_iff_chainSeg] at hch ⊢
    rw [show h1.free_list = h.free_list from by rw [hh1, PUT_free_list]]
    refine chainSeg_frame h h1 _ _ _ _ ?_ hch
    intro m hm
    exact ⟨hm1 m (Ne.symm (hnfB m hm).1.1), hm1 (m + 8) (Ne.symm (hnfB m hm).1.2)⟩
  have hg1hdr : GET_SIZE h1 (HDRP p) = Sb := by
    refine GET_SIZE_of_mem _ _ _ 0 ?_ hSb16 (by omega)
    show h1.mem (p - 8) = Sb + 0
    rw [hh1, PUT_mem, if_pos rfl]
    omega
  have hgf : GET_SIZE h1 (p - 16) = Sf := by
    have hmem : h1.mem (p - 16) = Sf + (if f.ftrA = true then 1 else 0) := by
      rw [hm1 _ (by omega)]
      exact hff0
    cases hfa : f.ftrA
    · rw [hfa] at hmem
      simp at hmem
      exact GET_SIZE_of_mem _ _ _ 0 (by rw [hmem]; omega) hSf16 (by omega)
    · rw [hfa] at hmem
      simp at hmem
      exact GET_SIZE_of_mem _ _ _ 1 hmem hSf16 (by omega)
  have hPREV1 : PREV_BLKP h1 p = a0 := by
    show p - GET_SIZE h1 (p - 16) = a0
    rw [hgf]
    omega
  have hprev0 : GET_ALLOC h1 (HDRP (PREV_BLKP h1 p)) = 0 := by
    rw [hPREV1]
    show GET_ALLOC h1 (a0 - 8) = 0
    unfold GET_ALLOC GET
    rw [hm1 _ (by omega), hfh]
    omega
  have hNEXT1 : NEXT_BLKP h1 p = p + Sb := by
    show p + GET_SIZE h1 (HDRP p) = p + Sb
    rw [hg1hdr]
  have hnext0 : GET_ALLOC h1 (HDRP (NEXT_BLKP h1 p)) = 0 := by
    rw [hNEXT1]
    show GET_ALLOC h1 (p + Sb - 8) = 0
    unfold GET_ALLOC GET
    rw [hm1 _ (by omega), hgh]
    omega
  have hrem := removeFromFreeList_spec h1 fl (p + Sb) hch1 hgfl hnd hal
  have hag2 : ∀ A : Nat, (∀ x ∈ fl, A ≠ x ∧ A ≠ x + 8) →
      (removeFromFreeList h1 (p + Sb)).mem A = h1.mem A := by
    intro A hA
    exact hrem.2.1 A (fun x hx _ => hA x hx)
  set h2c := removeFromFreeList h1 (p + Sb) with hh2c
  have hmemeq2 : h2c.mem (p - 16) = h1.mem (p - 16) := hag2 (p - 16) hnfF2
  have hgf2c : GET_SIZE h2c (p - 16) = Sf := by
    unfold GET_SIZE GET at hgf ⊢
    rw [hmemeq2]
    exact hgf
  have hPREV2c : PREV_BLKP h2c p = a0 := by
    show p - GET_SIZE h2c (p - 16) = a0
    rw [hgf2c]
    omega
  have hg2hdr : GET_SIZE h2c (HDRP p) = Sb := by
    refine GET_SIZE_of_mem _ _ _ 0 ?_ hSb16 (by omega)
    show h2c.mem (p - 8) = Sb + 0
    rw [hag2 _ (fun x hx => (hnfB x hx).1), hh1, PUT_mem, if_pos rfl]
    omega
  have hNEXT2c : NEXT_BLKP h2c p = p + Sb := by
    show p + GET_SIZE h2c (HDRP p) = p + Sb
    rw [hg2hdr]
  have hg2prev : GET_SIZE h2c (HDRP a0) = Sf := by
    refine GET_SIZE_of_mem _ _ _ 0 ?_ hSf16 (by omega)
    show h2c.mem (a0 - 8) = Sf + 0
    rw [hag2 _ (fun x hx => (hnfF x hx).1), hm1 _ (by omega), hfh]
    omega
  have hg2next : GET_SIZE h2c (HDRP (p + Sb)) = Sg := by
    refine GET_SIZE_of_mem _ _ _ 0 ?_ hSg16 (by omega)
    show h2c.mem (p + Sb - 8) = Sg + 0
    rw [hag2 _ (fun x hx => (hnfG x hx).1), hm1 _ (by omega), hgh]
    omega
  set h3c := PUT h2c (a0 - 8) (Sb + (Sf + Sg)) with hh3c
  have hg3hdr : GET_SIZE h3c (HDRP p) = Sb := by
    refine GET_SIZE_of_mem _ _ _ 0 ?_ hSb16 (by omega)
    show h3c.mem (p - 8) = Sb + 0
    rw [hh3c, PUT_mem, if_neg (by omega),
      hag2 _ (fun x hx => (hnfB x hx).1), hh1, PUT_mem, if_pos rfl]
    omega
  have hNEXT3c : NEXT_BLKP h3c p = p + Sb := by
    show p + GET_SIZE h3c (HDRP p) = p + Sb
    rw [hg3hdr]
  have hg3next : GET_SIZE h3c (HDRP (p + Sb)) = Sg := by
    refine GET_SIZE_of_mem _ _ _ 0 ?_ hSg16 (by omega)
    show h3c.mem (p + Sb - 8) = Sg + 0
    rw [hh3c, PUT_mem, if_neg (by omega),
      hag2 _ (fun x hx => (hnfG x hx).1), hm1 _ (by omega), hgh]
    omega
  have hFTR3c : FTRP h3c (p + Sb) = pg.start + pg.chunk - 16 := by
    show p + Sb + GET_SIZE h3c (HDRP (p + Sb)) - OVERHEAD
      = pg.start + pg.chunk - 16
    rw [hg3next, show OVERHEAD = 16 from rfl]
    omega
  set h4c := PUT h3c (pg.start + pg.chunk - 16) (Sb + (Sf + Sg)) with hh4c
  have hgf4 : GET_SIZE h4c (p - 16) = Sf := by
    unfold GET_SIZE GET at hgf ⊢
    rw [hh4c, PUT_mem, if_neg (by omega), hh3c, PUT_mem, if_neg (by omega),
      hmemeq2]
    exact hgf
  have hPREV4c : PREV_BLKP h4c p = a0 := by
    show p - GET_SIZE h4c (p - 16) = a0
    rw [hgf4]
    omega
  have hco4 : coalesce h1 p = (h4c, a0) := by
    simp only [coalesce]
    rw [if_neg (fun hc => hc.1 hprev0), if_neg (fun hc => hc.1 hprev0),
      if_neg (fun hc => hc.2 hnext0)]
    rw [hNEXT1, ← hh2c, hg1hdr, hPREV2c, hg2prev, hNEXT2c, hg2next, PACK_zero,
      show HDRP a0 = a0 - 8 from rfl, ← hh3c, hNEXT3c, hFTR3c, ← hh4c, hPREV4c]
  have hch4 : isFreeChain h4c (fl.erase (p + Sb)) := by
    have hch2 := hrem.1
    rw [isFreeChain, chainOK_iff_chainSeg] at hch2 ⊢
    rw [show h4c.free_list = h2c.free_list from by rw [hh4c, hh3c]; rfl]
    refine chainSeg_frame h2c h4c _ _ _ _ ?_ hch2
    intro m hm
    have hmfl : m ∈ fl := List.mem_of_mem_erase hm
    have hf1 := (hnfF m hmfl).1
    have hg2 := (hnfG m hmfl).2
    constructor <;>
      rw [hh4c, PUT_mem, if_neg (by omega), hh3c, PUT_mem, if_neg (by omega)]
  have hmemL : a0 ∈ fl.erase (p + Sb) :=
    (List.Nodup.mem_erase_iff hnd).mpr ⟨by omega, hafl⟩
  have hhdr' : h4c.mem (a0 - 8) = pg.chunk - 32 := by
    rw [hh4c, PUT_mem, if_neg (by omega), hh3c, PUT_mem, if_pos rfl]
    omega
  have hterm' : h4c.mem (pg.start + pg.chunk - 8) = 1 := by
    rw [hh4c, PUT_mem, if_neg (by omega), hh3c, PUT_mem, if_neg (by omega),
      hag2 _ (fun x hx => (hsent x hx).2.2), hm1 _ (by omega), hterm]
  have hpf' : h4c.mem (pg.start + 16) = 17 := by
    rw [hh4c, PUT_mem, if_neg (by omega), hh3c, PUT_mem, if_neg (by omega),
      hag2 _ (fun x hx => (hsent x hx).2.1), hm1 _ (by omega), hpro2]
  have hmapseq : h4c.maps = h.maps := by
    rw [hh4c, PUT_maps, hh3c, PUT_maps, hrem.2.2.2.1, hh1, PUT_maps]
  have hunmapseq : h4c.unmaps = h.unmaps := by
    rw [hh4c, PUT_unmaps, hh3c, PUT_unmaps, hrem.2.2.2.2, hh1, PUT_unmaps]
  have hco' : coalesce (PUT h (HDRP p) (PACK (GET_SIZE h (HDRP p)) 0)) p
      = (h4c, a0) := by
    rw [e1, PACK_zero, show HDRP p = p - 8 from rfl, ← hh1]
    exact hco4
  have htail := mm_free_reclaim_tail h h4c p pg (fl.erase (p + Sb)) hst8 hchunk
    (by have := hch16; unfold mem_pagesize at this; omega)
    hco' hch4 hmemL (List.Nodup.erase _ hnd)
    (fun x hx => hal x (List.mem_of_mem_erase hx))
    hhdr' hterm' hpf'
  refine ⟨?_, hmapsM, ?_, htail.2.2⟩
  · rw [htail.1, hunmapseq]
  · rw [htail.2.1, hmapseq]

end MM

namespace MM

/-- C7: whenever releasing a block empties its page — after coalescing,
the following block is the Terminator (stored size 0) and the preceding
block is the Prolog (stored size `ALIGN(OVERHEAD) = 16`) — the merged
block is removed from the Free List and the page is returned to the
provider: `mem_unmap` is called with the page's original start address
and exactly the extent that `mem_map` handed out for that page. This
covers every page shape that can reach the sentinel test: the freed
block alone on the page (no coalescing), a free right neighbour (merge
forward), a free left neighbour (merge backward), and free neighbours
on both sides (merge both ways); in each case the resulting Free List
is the old chain with the absorbed free neighbours' nodes removed. -/
theorem C7_page_reclaim (h : Heap) (pgs : List PageA) (fl : List Nat)
    (hR : Repr h pgs fl) (pg : PageA) (hpg : pg ∈ pgs) :
    (∀ b : Blk, pg.blks = [b] → b.free = false →
      (mm_free h (pg.start + 32)).unmaps = (pg.start, pg.chunk) :: h.unmaps ∧
      (pg.start, pg.chunk) ∈ h.maps ∧
      (mm_free h (pg.start + 32)).maps = h.maps ∧
      isFreeChain (mm_free h (pg.start + 32)) fl) ∧
    (∀ b f : Blk, pg.blks = [b, f] → b.free = false → f.free = true →
      (mm_free h (pg.start + 32)).unmaps = (pg.start, pg.chunk) :: h.unmaps ∧
      (pg.start, pg.chunk) ∈ h.maps ∧
      (mm_free h (pg.start + 32)).maps = h.maps ∧
      isFreeChain (mm_free h (pg.start + 32))
        (fl.erase (pg.start + 32 + b.size))) ∧
    (∀ f b : Blk, pg.blks = [f, b] → f.free = true → b.free = false →
      (mm_free h (pg.start + 32 + f.size)).unmaps
        = (pg.start, pg.chunk) :: h.unmaps ∧
      (pg.start, pg.chunk) ∈ h.maps ∧
      (mm_free h (pg.start + 32 + f.size)).maps = h.maps ∧
      isFreeChain (mm_free h (pg.start + 32 + f.size))
        (fl.erase (pg.start + 32))) ∧
    (∀ f b g : Blk, pg.blks = [f, b, g] → f.free = true → b.free = false →
      g.free = true →
      (mm_free h (pg.start + 32 + f.size)).unmaps
        = (pg.start, pg.chunk) :: h.unmaps ∧
      (pg.start, pg.chunk) ∈ h.maps ∧
      (mm_free h (pg.start + 32 + f.size)).maps = h.maps ∧
      isFreeChain (mm_free h (pg.start + 32 + f.size))
        ((fl.erase (pg.start + 32 + f.size + b.size)).erase (pg.start + 32))) :=
  ⟨fun b hb hbf => mm_free_reclaim_sole h pgs fl hR pg hpg b hb hbf,
   fun b f hb hbf hff => mm_free_reclaim_next h pgs fl hR pg hpg b f hb hbf hff,
   fun f b hb hff hbf => mm_free_reclaim_prev h pgs fl hR pg hpg f b hb hff hbf,
   fun f b g hb hff hbf hgf =>
     mm_free_reclaim_both h pgs fl hR pg hpg f b g hb hff hbf hgf⟩

/-- Witness for C7 exercising a real merge: `mm_malloc 100` from a fresh
heap splits the initial block into a 128-byte allocated block and a
20320-byte free remainder; freeing the allocated block coalesces with
that free right neighbour, empties the page, and `mem_unmap` is called
with exactly the mapped extent `(4096, 20480)`. -/
theorem C7_witness :
    (mm_free stepA.1 4128).unmaps = (4096, 20480) :: stepA.1.unmaps ∧
    (4096, 20480) ∈ stepA.1.maps ∧
    (mm_free stepA.1 4128).maps = stepA.1.maps ∧
    isFreeChain (mm_free stepA.1 4128) [] :=
  (C7_page_reclaim stepA.1
      [PageA.mk 4096 20480 [Blk.mk 128 false true, Blk.mk 20320 true false]]
      [4256] (by decide)
      (PageA.mk 4096 20480 [Blk.mk 128 false true, Blk.mk 20320 true false])
      (List.mem_cons_self _ _)).2.1
    (Blk.mk 128 false true) (Blk.mk 20320 true false) rfl rfl rfl

end MM
